import Mathlib

/-!
# Verification of `tink/jwt/_raw_jwt.py` (raw JWT claim set)

Shallow embedding of the Python module `src/python/tink/jwt/_raw_jwt.py`
(and its thin re-export `src/python/tink/jwt/__init__.py`).

Modelling conventions:
* Python runtime values that can live in a claim-set payload are the
  inductive `PyValue` (mutually with `PyList` for Python `list` and
  `PyDict` for Python `dict` with string keys, in insertion order).
  `pyobj tag` stands for an arbitrary Python object of a type that the
  `json` module cannot serialize (e.g. `object()`); `tag` names its type.
* Python `float` is modelled exactly as a decimal mantissa/exponent pair
  `pyfloat m e` denoting `m * 10^e`; every finite float printed by
  `repr`/parsed by `json` is such a number.  Parsed floats are kept in
  the canonical form (`m = 0 → e = 0`, otherwise `10 ∤ m`), mirroring the
  unique IEEE value a literal denotes.  The non-finite floats
  (`nan`/`inf`), which `json` writes as `NaN`/`Infinity`, are outside the
  model, as is bit-level IEEE rounding.
* Python `bool` is a subclass of `int`: `isinstance(True, int)` holds.
  The embedded `isinstance` checks reproduce this.
* Exceptions become `Except PyError`; the constructors of `PyError`
  keep the Python exception classes apart (`JwtInvalidError`,
  `json.JSONDecodeError`, `TypeError`, `KeyError`).
* `datetime.datetime` is `PyDatetime`: wall-clock fields collapsed to
  whole seconds from the epoch plus a microsecond field, with an optional
  fixed UTC offset as `tzinfo` (`none` = naive).  `t.timestamp()` is then
  exactly `(wall - offset) + microsecond / 10^6` seconds; the model keeps
  it scaled to integer microseconds so no rational arithmetic is needed.
* `json.dumps` / `json.loads` (Python standard library, called by the
  source) are embedded as an executable printer and parser over
  `List Char`, following the stdlib's documented behaviour with the
  default options used by the source (`ensure_ascii=True`, separators
  `", "` / `": "`, `strict=True`).  A payload whose top-level JSON value
  is not an object is rejected by the model's `from_json_payload` with a
  `TypeError` (CPython's duck-typed `in` lets a few such payloads
  through; those are outside the model and outside every claim).
  Escaped lone surrogates (`"\ud800"`), which CPython keeps as
  unpaired surrogate code units, are not representable in Lean's `Char`
  and are rejected by the model's parser.
-/

mutual
/-- Python values that can appear in a JWT payload (the `Claim` union of
the source plus `pyobj` for everything else). -/
inductive PyValue : Type where
  | pynone
  | pybool (b : Bool)
  | pyint (n : Int)
  | pyfloat (m : Int) (e : Int)
  | pystr (s : String)
  | pylist (xs : PyList)
  | pydict (kvs : PyDict)
  | pyobj (tag : String)
  deriving DecidableEq
inductive PyList : Type where
  | nil
  | cons (hd : PyValue) (tl : PyList)
  deriving DecidableEq
inductive PyDict : Type where
  | nil
  | cons (key : String) (val : PyValue) (tl : PyDict)
  deriving DecidableEq
end

namespace PyDict

/-- Python `name in d` for a dict. -/
def member (d : PyDict) (name : String) : Bool :=
  match d with
  | .nil => false
  | .cons k _ tl => k = name || tl.member name

/-- Python `d[name]` (first--and in a real dict only--binding). -/
def get? (d : PyDict) (name : String) : Option PyValue :=
  match d with
  | .nil => none
  | .cons k v tl => if k = name then some v else tl.get? name

/-- Python `d[name] = v` on a dict that may already hold `name`:
replaces the value in place (keeping the key's position) or appends. -/
def set (d : PyDict) (name : String) (v : PyValue) : PyDict :=
  match d with
  | .nil => .cons name v .nil
  | .cons k w tl => if k = name then .cons k v tl else .cons k w (tl.set name v)

/-- Append a fresh binding at the end (Python dict insertion). -/
def append (d : PyDict) (name : String) (v : PyValue) : PyDict :=
  match d with
  | .nil => .cons name v .nil
  | .cons k w tl => .cons k w (tl.append name v)

/-- Keys in order. -/
def keys (d : PyDict) : List String :=
  match d with
  | .nil => []
  | .cons k _ tl => k :: tl.keys

/-- All keys pairwise distinct (always true of a real Python dict). -/
def keysNodup (d : PyDict) : Bool :=
  match d with
  | .nil => true
  | .cons k _ tl => !tl.member k && tl.keysNodup

def isEmpty (d : PyDict) : Bool :=
  match d with
  | .nil => true
  | .cons _ _ _ => false

end PyDict

namespace PyList

def isEmpty (l : PyList) : Bool :=
  match l with
  | .nil => true
  | .cons _ _ => false

/-- Python `all(isinstance(value, Text) for value in audiences)`. -/
def allStrings (l : PyList) : Bool :=
  match l with
  | .nil => true
  | .cons (.pystr _) tl => tl.allStrings
  | .cons _ _ => false

end PyList

/-- The Python exception classes that the source can raise, kept apart.
In CPython `JwtInvalidError` subclasses `tink.core.TinkError`, while
`json.JSONDecodeError` subclasses `ValueError` and is *not* a
`JwtInvalidError`; `TypeError`/`KeyError` are builtins. -/
inductive PyError : Type where
  | jwtInvalidError (msg : String)
  | jsonDecodeError (msg : String)
  | typeError (msg : String)
  | keyError (name : String)
  deriving DecidableEq

/-- `datetime.datetime`: the calendar fields collapsed to whole seconds
from the Unix epoch (`wall`), the `microsecond` field, and the fixed UTC
offset of `tzinfo` in seconds (`none` for a naive datetime). -/
structure PyDatetime : Type where
  wall : Int
  microsecond : Nat
  tzoffset : Option Int
  deriving DecidableEq

/-- `t.timestamp()` scaled to exact integer microseconds:
`((wall - offset) + microsecond/10^6) * 10^6`. -/
def PyDatetime.timestampMicros (t : PyDatetime) (offset : Int) : Int :=
  (t.wall - offset) * 1000000 + t.microsecond

/-- `_REGISTERED_NAMES` from the source. -/
def _REGISTERED_NAMES : List String :=
  ["iss", "sub", "jti", "aud", "exp", "nbf", "iat"]

/-- `_from_datetime`: requires tzinfo, else returns `int(t.timestamp())`.
Python's `int()` on a float truncates toward zero, which on the exact
microsecond scale is `Int.tdiv` by `10^6`. -/
def _from_datetime (t : PyDatetime) : Except PyError Int :=
  match t.tzoffset with
  | none => .error (.jwtInvalidError "datetime must have tzinfo")
  | some off => .ok (Int.tdiv (t.timestampMicros off) 1000000)

/-- `_to_datetime`: `datetime.datetime.fromtimestamp(timestamp, timezone.utc)`
for the integer timestamps the builder stores. -/
def _to_datetime (timestamp : Int) : PyDatetime :=
  { wall := timestamp, microsecond := 0, tzoffset := some 0 }

/-- `_validate_custom_claim_name`. -/
def _validate_custom_claim_name (name : String) : Except PyError Unit :=
  if name ∈ _REGISTERED_NAMES then
    .error (.jwtInvalidError ("registered name " ++ name ++ " cannot be custom claim name"))
  else .ok ()

/-- The `RawJwt` class: an (immutable) payload dict. -/
structure RawJwt : Type where
  payload : PyDict
  deriving DecidableEq

namespace RawJwt

/-- `_validate_string_claim`: `isinstance(x, str)` holds exactly for
`pystr` (a `bool` is not a `str`). -/
def _validate_string_claim (payload : PyDict) (name : String) : Except PyError Unit :=
  match payload.get? name with
  | none => .ok ()
  | some v =>
    match v with
    | .pystr _ => .ok ()
    | _ => .error (.jwtInvalidError ("claim " ++ name ++ " must be a String"))

/-- `_validate_number_claim`: `isinstance(x, (int, float))`; in Python a
`bool` is an `int`, so `pybool` passes too. -/
def _validate_number_claim (payload : PyDict) (name : String) : Except PyError Unit :=
  match payload.get? name with
  | none => .ok ()
  | some v =>
    match v with
    | .pyint _ => .ok ()
    | .pyfloat _ _ => .ok ()
    | .pybool _ => .ok ()
    | _ => .error (.jwtInvalidError ("claim " ++ name ++ " must be a Number"))

/-- `_validate_audience_claim`: normalizes a bare-string `aud` to a
one-element list, otherwise requires a non-empty list of strings.
Returns the (possibly updated) payload, since the Python method mutates
`self._payload` in place. -/
def _validate_audience_claim (payload : PyDict) : Except PyError PyDict :=
  match payload.get? "aud" with
  | none => .ok payload
  | some audiences =>
    match audiences with
    | .pystr s => .ok (payload.set "aud" (.pylist (.cons (.pystr s) .nil)))
    | .pylist l =>
      if l.isEmpty then .error (.jwtInvalidError "audiences must be a non-empty list")
      else if l.allStrings then .ok payload
      else .error (.jwtInvalidError "audiences must only contain Text")
    | _ => .error (.jwtInvalidError "audiences must be a non-empty list")

/-- `RawJwt.__init__`: runs the claim validators over the payload in
source order and wraps the result.  (Only `create` and
`from_json_payload` call this.) -/
def init (payload : PyDict) : Except PyError RawJwt := do
  _ ← _validate_string_claim payload "iss"
  _ ← _validate_string_claim payload "sub"
  _ ← _validate_string_claim payload "jti"
  _ ← _validate_number_claim payload "exp"
  _ ← _validate_number_claim payload "nbf"
  _ ← _validate_number_claim payload "iat"
  let p ← _validate_audience_claim payload
  .ok { payload := p }

/-- `has_issuer`. -/
def has_issuer (j : RawJwt) : Bool := j.payload.member "iss"

/-- `has_subject`. -/
def has_subject (j : RawJwt) : Bool := j.payload.member "sub"

/-- `has_audiences`. -/
def has_audiences (j : RawJwt) : Bool := j.payload.member "aud"

/-- `has_jwt_id`. -/
def has_jwt_id (j : RawJwt) : Bool := j.payload.member "jti"

/-- `has_expiration`. -/
def has_expiration (j : RawJwt) : Bool := j.payload.member "exp"

/-- `has_not_before`. -/
def has_not_before (j : RawJwt) : Bool := j.payload.member "nbf"

/-- `has_issued_at`. -/
def has_issued_at (j : RawJwt) : Bool := j.payload.member "iat"

/-- `issuer()`: `cast(Text, self._payload['iss'])` -- `cast` is a no-op
at runtime, so this returns the stored value; a missing key raises
`KeyError`. -/
def issuer (j : RawJwt) : Except PyError PyValue :=
  match j.payload.get? "iss" with
  | some v => .ok v
  | none => .error (.keyError "iss")

/-- `subject()`. -/
def subject (j : RawJwt) : Except PyError PyValue :=
  match j.payload.get? "sub" with
  | some v => .ok v
  | none => .error (.keyError "sub")

/-- `jwt_id()`. -/
def jwt_id (j : RawJwt) : Except PyError PyValue :=
  match j.payload.get? "jti" with
  | some v => .ok v
  | none => .error (.keyError "jti")

/-- `audiences()`: `list(self._payload['aud'])` (a fresh list copy;
value-equal in the pure model). -/
def audiences (j : RawJwt) : Except PyError PyValue :=
  match j.payload.get? "aud" with
  | some v => .ok v
  | none => .error (.keyError "aud")

/-- `expiration()`: `_to_datetime(self._payload['exp'])` for the integer
timestamps the builder stores.  (`fromtimestamp` on a fractional float
timestamp, reachable only through `from_json_payload`, involves IEEE
rounding and is outside the model.) -/
def expiration (j : RawJwt) : Option PyDatetime :=
  match j.payload.get? "exp" with
  | some (.pyint n) => some (_to_datetime n)
  | _ => none

/-- `not_before()`. -/
def not_before (j : RawJwt) : Option PyDatetime :=
  match j.payload.get? "nbf" with
  | some (.pyint n) => some (_to_datetime n)
  | _ => none

/-- `issued_at()`. -/
def issued_at (j : RawJwt) : Option PyDatetime :=
  match j.payload.get? "iat" with
  | some (.pyint n) => some (_to_datetime n)
  | _ => none

/-- `custom_claim_names()`. -/
def custom_claim_names (j : RawJwt) : List String :=
  j.payload.keys.filter (fun n => n ∉ _REGISTERED_NAMES)

end RawJwt

/-! ## The `json` standard library: `json.dumps`

Executable embedding of `json.dumps` with the defaults the source uses
(`ensure_ascii=True`, separators `", "` and `": "`, no `sort_keys`). -/

/-- One decimal digit `0..9` as a character. -/
def digitChar (d : Nat) : Char := Char.ofNat (48 + d)

/-- Digit expansion worker, structurally recursive on a fuel bound so
that it reduces definitionally (any `fuel ≥ n` gives the digits). -/
def natDigitsAux (fuel : Nat) (n : Nat) : List Char :=
  match fuel with
  | 0 => []
  | fuel + 1 =>
    if n < 10 then [digitChar n]
    else natDigitsAux fuel (n / 10) ++ [digitChar (n % 10)]

/-- Decimal digits of a natural number, most significant first, no
leading zeros (single `'0'` for zero). -/
def natDigits (n : Nat) : List Char :=
  natDigitsAux (n + 1) n

/-- Decimal rendering of an integer, `-` sign included: Python's
`repr`/`json` rendering of an `int`. -/
def intDigits (n : Int) : List Char :=
  if n < 0 then '-' :: natDigits n.natAbs else natDigits n.natAbs

/-- One hexadecimal digit `0..15`, lowercase (as CPython's `\uXXXX`
escapes print it). -/
def hexDigitChar (d : Nat) : Char :=
  if d < 10 then Char.ofNat (48 + d) else Char.ofNat (87 + d)

/-- Four-digit lowercase hex of `n < 0x10000`. -/
def hex4 (n : Nat) : List Char :=
  [hexDigitChar (n / 4096 % 16), hexDigitChar (n / 256 % 16),
   hexDigitChar (n / 16 % 16), hexDigitChar (n % 16)]

/-- `ensure_ascii` escaping of one character, per CPython's
`py_encode_basestring_ascii`: the two-character escapes from
`ESCAPE_DCT`, printable ASCII (`0x20`-`0x7e`) verbatim, everything else
as `\uXXXX`, with a surrogate pair for code points above `0xFFFF`. -/
def encodeChar (c : Char) : List Char :=
  if c = '"' then ['\\', '"']
  else if c = '\\' then ['\\', '\\']
  else if c = '\n' then ['\\', 'n']
  else if c = '\r' then ['\\', 'r']
  else if c = '\t' then ['\\', 't']
  else if c.toNat = 8 then ['\\', 'b']
  else if c.toNat = 12 then ['\\', 'f']
  else if 32 ≤ c.toNat && c.toNat ≤ 126 then [c]
  else if c.toNat < 65536 then '\\' :: 'u' :: hex4 c.toNat
  else
    '\\' :: 'u' :: hex4 (55296 + (c.toNat - 65536) / 1024) ++
      ('\\' :: 'u' :: hex4 (56320 + (c.toNat - 65536) % 1024))

/-- A JSON string literal for `s`, quotes included. -/
def encodeString (s : String) : List Char :=
  '"' :: s.data.flatMap encodeChar ++ ['"']

mutual
/-- `json.dumps` of one value, as characters; fails (Python
`TypeError`) on a value outside the JSON-serializable types. -/
def dumpValue : PyValue → Except PyError (List Char)
  | .pynone => .ok ['n', 'u', 'l', 'l']
  | .pybool b => .ok (if b then ['t', 'r', 'u', 'e'] else ['f', 'a', 'l', 's', 'e'])
  | .pyint n => .ok (intDigits n)
  | .pyfloat m e => .ok (intDigits m ++ 'e' :: intDigits e)
  | .pystr s => .ok (encodeString s)
  | .pylist xs => do
    let body ← dumpElems xs
    .ok ('[' :: body ++ [']'])
  | .pydict kvs => do
    let body ← dumpMembers kvs
    .ok ('{' :: body ++ ['}'])
  | .pyobj tag =>
    .error (.typeError ("Object of type " ++ tag ++ " is not JSON serializable"))

/-- Array body, elements joined by `", "` (the default separator). -/
def dumpElems : PyList → Except PyError (List Char)
  | .nil => .ok []
  | .cons hd .nil => dumpValue hd
  | .cons hd (.cons hd2 tl) => do
    let first ← dumpValue hd
    let rest ← dumpElems (.cons hd2 tl)
    .ok (first ++ ',' :: ' ' :: rest)

/-- Object body: `"key": value` pairs joined by `", "`. -/
def dumpMembers : PyDict → Except PyError (List Char)
  | .nil => .ok []
  | .cons k v .nil => do
    let body ← dumpValue v
    .ok (encodeString k ++ ':' :: ' ' :: body)
  | .cons k v (.cons k2 v2 tl) => do
    let first ← dumpValue v
    let rest ← dumpMembers (.cons k2 v2 tl)
    .ok (encodeString k ++ ':' :: ' ' :: first ++ ',' :: ' ' :: rest)
end

/-- `json.dumps` returning a Python `str`. -/
def json_dumps (v : PyValue) : Except PyError String := do
  let cs ← dumpValue v
  .ok (String.mk cs)

/-! ## The `json` standard library: `json.loads`

Executable embedding of `json.loads` (strict mode, default hooks).
Parser failures carry the decode message and become
`json.JSONDecodeError` -- a `ValueError`, *not* a `JwtInvalidError`.
Inputs the model cannot represent (escaped lone surrogates, the
non-finite `NaN`/`Infinity`/`-Infinity` constants) are rejected by the
model's parser even though CPython accepts them; no claim rests on such
inputs. -/

/-- JSON whitespace (the scanner's `_w` class). -/
def isJsonWs (c : Char) : Bool :=
  c = ' ' || c = '\t' || c = '\n' || c = '\r'

def skipWs (cs : List Char) : List Char :=
  match cs with
  | [] => []
  | c :: tl => if isJsonWs c then skipWs tl else c :: tl

def isDigitCh (c : Char) : Bool :=
  48 ≤ c.toNat && c.toNat ≤ 57

def digitVal (c : Char) : Nat := c.toNat - 48

/-- Hex digit value, upper or lower case (as `int(s, 16)` accepts). -/
def hexVal (c : Char) : Option Nat :=
  if 48 ≤ c.toNat && c.toNat ≤ 57 then some (c.toNat - 48)
  else if 97 ≤ c.toNat && c.toNat ≤ 102 then some (c.toNat - 87)
  else if 65 ≤ c.toNat && c.toNat ≤ 70 then some (c.toNat - 55)
  else none

/-- Value of the four hex digits of a `\uXXXX` escape. -/
def hexVal4 (a b c d : Char) : Option Nat := do
  let x ← hexVal a
  let y ← hexVal b
  let z ← hexVal c
  let w ← hexVal d
  pure (x * 4096 + y * 256 + z * 16 + w)

/-- One element of a string literal (`py_scanstring`'s loop body,
strict mode): the closing quote (`none`), or one decoded character and
the rest of the input.  Surrogate pairs are recombined exactly as
CPython does. -/
def scanOne (cs : List Char) : Except String (Option Char × List Char) :=
  match cs with
  | [] => .error "Unterminated string starting at"
  | c :: rest =>
    if c = '"' then .ok (none, rest)
    else if c = '\\' then
      match rest with
      | [] => .error "Unterminated string starting at"
      | e :: cs2 =>
        if e = 'u' then
          match cs2 with
          | h1 :: h2 :: h3 :: h4 :: cs3 =>
            match hexVal4 h1 h2 h3 h4 with
            | none => .error "Invalid hex escape"
            | some n =>
              if 55296 ≤ n ∧ n ≤ 56319 then
                match cs3 with
                | '\\' :: 'u' :: g1 :: g2 :: g3 :: g4 :: cs5 =>
                  match hexVal4 g1 g2 g3 g4 with
                  | none => .error "Lone surrogate escape is outside the model"
                  | some n2 =>
                    if 56320 ≤ n2 ∧ n2 ≤ 57343 then
                      .ok (some (Char.ofNat (65536 + (n - 55296) * 1024 + (n2 - 56320))), cs5)
                    else .error "Lone surrogate escape is outside the model"
                | _ => .error "Lone surrogate escape is outside the model"
              else if 56320 ≤ n ∧ n ≤ 57343 then
                .error "Lone surrogate escape is outside the model"
              else .ok (some (Char.ofNat n), cs3)
          | _ => .error "Invalid hex escape"
        else
          let decoded : Option Char :=
            if e = '"' then some '"'
            else if e = '\\' then some '\\'
            else if e = '/' then some '/'
            else if e = 'b' then some (Char.ofNat 8)
            else if e = 'f' then some (Char.ofNat 12)
            else if e = 'n' then some '\n'
            else if e = 'r' then some '\r'
            else if e = 't' then some '\t'
            else none
          match decoded with
          | none => .error "Invalid escape"
          | some d => .ok (some d, cs2)
    else if c.toNat < 32 then .error "Invalid control character"
    else .ok (some c, rest)

/-- The string scanner's loop: scan elements until the closing quote.
The fuel only bounds the iteration count so the recursion is structural
(and reduces definitionally); every step consumes at least one input
character, so any fuel above the input length behaves identically. -/
def parseStringBody (fuel : Nat) (cs : List Char) :
    Except String (List Char × List Char) :=
  match fuel with
  | 0 => .error "Maximum recursion depth exceeded"
  | fuel + 1 =>
    match scanOne cs with
    | .error m => .error m
    | .ok (none, rest) => .ok ([], rest)
    | .ok (some d, cs2) =>
      match parseStringBody fuel cs2 with
      | .error m => .error m
      | .ok (body, rest2) => .ok (d :: body, rest2)

/-- Greedy digit span (what the number regex's `\d*` consumes). -/
def takeDigits (cs : List Char) : List Char × List Char :=
  match cs with
  | [] => ([], [])
  | c :: tl =>
    if isDigitCh c then
      let (ds, rest) := takeDigits tl
      (c :: ds, rest)
    else ([], c :: tl)

/-- Decimal value of a digit run (left fold, as `int(s)`). -/
def digitsToNat (acc : Nat) (cs : List Char) : Nat :=
  match cs with
  | [] => acc
  | c :: tl => digitsToNat (acc * 10 + digitVal c) tl

/-- Mantissa-normalization worker, structurally recursive on a fuel
bound so that it reduces definitionally (any `fuel ≥ n` suffices). -/
def stripTensAux (fuel : Nat) (n : Nat) (e : Int) : Nat × Int :=
  match fuel with
  | 0 => (n, e)
  | fuel + 1 =>
    if n ≠ 0 ∧ n % 10 = 0 then stripTensAux fuel (n / 10) (e + 1) else (n, e)

/-- Strip factors of ten from the mantissa into the exponent; the result
is the canonical decimal form of the float literal's exact value. -/
def stripTens (n : Nat) (e : Int) : Nat × Int :=
  stripTensAux n n e

/-- The unique canonical `pyfloat` denoting `(-1)^neg * mag * 10^e`. -/
def normFloat (neg : Bool) (mag : Nat) (e : Int) : PyValue :=
  if mag = 0 then .pyfloat 0 0
  else
    let p := stripTens mag e
    .pyfloat (if neg then -(p.1 : Int) else (p.1 : Int)) p.2

/-- Fraction part: consumed only when a `.` is directly followed by at
least one digit (`NUMBER_RE`'s `(\.\d+)?`); returns value, digit count
and rest. -/
def splitFrac (cs : List Char) : Nat × Nat × List Char :=
  match cs with
  | [] => (0, 0, [])
  | c :: t =>
    if c = '.' then
      match takeDigits t with
      | ([], _) => (0, 0, c :: t)
      | (ds, rest) => (digitsToNat 0 ds, ds.length, rest)
    else (0, 0, c :: t)

/-- Exponent part: consumed only when `e`/`E` (with optional sign) is
followed by at least one digit (`NUMBER_RE`'s `([eE][-+]?\d+)?`). -/
def splitExp (cs : List Char) : Option Int × List Char :=
  match cs with
  | [] => (none, [])
  | e :: t =>
    if e = 'e' ∨ e = 'E' then
      match t with
      | [] => (none, e :: t)
      | c :: u =>
        if c = '-' then
          match takeDigits u with
          | ([], _) => (none, e :: t)
          | (ds, rest) => (some (-(digitsToNat 0 ds : Int)), rest)
        else if c = '+' then
          match takeDigits u with
          | ([], _) => (none, e :: t)
          | (ds, rest) => (some ((digitsToNat 0 ds : Int)), rest)
        else
          match takeDigits (c :: u) with
          | ([], _) => (none, e :: t)
          | (ds, rest) => (some ((digitsToNat 0 ds : Int)), rest)
    else (none, e :: t)

/-- The tail of a number token: optional fraction and exponent, then
the int/float decision.  An integer literal yields a Python `int`; a
literal with fraction or exponent a `float` whose exact decimal value
is kept canonically. -/
def finishNumber (neg : Bool) (intPart : Nat) (cs2 : List Char) :
    Except String (PyValue × List Char) :=
  let fr := splitFrac cs2
  let ex := splitExp fr.2.2
  match fr.2.1, ex.1 with
  | 0, none =>
    .ok (.pyint (if neg then -(intPart : Int) else (intPart : Int)), ex.2)
  | k, oe =>
    let mantissa := intPart * 10 ^ k + fr.1
    .ok (normFloat neg mantissa ((oe.getD 0) - (k : Int)), ex.2)

/-- The digits of a number token after the optional sign: a single `0`
or a nonzero-led run (`NUMBER_RE`'s `(?:0|[1-9]\d*)`). -/
def parseNumMag (neg : Bool) (c : Char) (t : List Char) :
    Except String (PyValue × List Char) :=
  if c = '0' then finishNumber neg 0 t
  else if isDigitCh c then
    match takeDigits (c :: t) with
    | (ds, rest) => finishNumber neg (digitsToNat 0 ds) rest
  else .error "Expecting value"

/-- Number token (`NUMBER_RE`): optional minus sign, then magnitude. -/
def parseNumber (cs : List Char) : Except String (PyValue × List Char) :=
  match cs with
  | [] => .error "Expecting value"
  | c0 :: t0 =>
    if c0 = '-' then
      match t0 with
      | [] => .error "Expecting value"
      | c :: t => parseNumMag true c t
    else parseNumMag false c0 t0

/-- Insert one parsed pair as `dict.__setitem__` does: replace in place
or append. -/
def insertPair (d : PyDict) (k : String) (v : PyValue) : PyDict :=
  if d.member k then d.set k v else d.append k v

def dedupAux (acc : PyDict) (pairs : PyDict) : PyDict :=
  match pairs with
  | .nil => acc
  | .cons k v tl => dedupAux (insertPair acc k v) tl

/-- Build the Python dict from the parsed pair sequence (`dict(pairs)`
semantics: first occurrence keeps its position, last value wins). -/
def dedupMembers (pairs : PyDict) : PyDict :=
  dedupAux .nil pairs

mutual
/-- `scan_once`: one JSON value, leading whitespace allowed (the scanner
skips whitespace at every token boundary; the model folds that into the
value parser). -/
def parseValue (fuel : Nat) (cs : List Char) : Except String (PyValue × List Char) :=
  match fuel with
  | 0 => .error "Maximum recursion depth exceeded"
  | fuel + 1 =>
    match skipWs cs with
    | [] => .error "Expecting value"
    | c :: cs1 =>
      if c = '{' then do
        let (kvs, rest) ← parseMembers fuel cs1
        .ok (.pydict (dedupMembers kvs), rest)
      else if c = '[' then do
        let (xs, rest) ← parseElems fuel cs1
        .ok (.pylist xs, rest)
      else if c = '"' then do
        let (body, rest) ← parseStringBody (cs1.length + 1) cs1
        .ok (.pystr (String.mk body), rest)
      else if c = 't' then
        match cs1 with
        | 'r' :: 'u' :: 'e' :: rest => .ok (.pybool true, rest)
        | _ => .error "Expecting value"
      else if c = 'f' then
        match cs1 with
        | 'a' :: 'l' :: 's' :: 'e' :: rest => .ok (.pybool false, rest)
        | _ => .error "Expecting value"
      else if c = 'n' then
        match cs1 with
        | 'u' :: 'l' :: 'l' :: rest => .ok (.pynone, rest)
        | _ => .error "Expecting value"
      else if c = '-' ∨ isDigitCh c then parseNumber (c :: cs1)
      else .error "Expecting value"

/-- `JSONArray` after the `[`. -/
def parseElems (fuel : Nat) (cs : List Char) : Except String (PyList × List Char) :=
  match fuel with
  | 0 => .error "Maximum recursion depth exceeded"
  | fuel + 1 =>
    match skipWs cs with
    | ']' :: rest => .ok (.nil, rest)
    | cs1 => do
      let (v, cs2) ← parseValue fuel cs1
      let (tl, rest) ← parseElemsRest fuel cs2
      .ok (.cons v tl, rest)

/-- `JSONArray`'s delimiter loop. -/
def parseElemsRest (fuel : Nat) (cs : List Char) : Except String (PyList × List Char) :=
  match fuel with
  | 0 => .error "Maximum recursion depth exceeded"
  | fuel + 1 =>
    match skipWs cs with
    | ']' :: rest => .ok (.nil, rest)
    | ',' :: cs2 => do
      let (v, cs3) ← parseValue fuel cs2
      let (tl, rest) ← parseElemsRest fuel cs3
      .ok (.cons v tl, rest)
    | _ => .error "Expecting comma delimiter"

/-- `JSONObject` after the `{`. -/
def parseMembers (fuel : Nat) (cs : List Char) : Except String (PyDict × List Char) :=
  match fuel with
  | 0 => .error "Maximum recursion depth exceeded"
  | fuel + 1 =>
    match skipWs cs with
    | '}' :: rest => .ok (.nil, rest)
    | '"' :: cs1 => do
      let (key, cs2) ← parseStringBody (cs1.length + 1) cs1
      match skipWs cs2 with
      | ':' :: cs3 => do
        let (v, cs4) ← parseValue fuel cs3
        let (tl, rest) ← parseMembersRest fuel cs4
        .ok (.cons (String.mk key) v tl, rest)
      | _ => .error "Expecting colon delimiter"
    | _ => .error "Expecting property name enclosed in double quotes"

/-- `JSONObject`'s delimiter loop. -/
def parseMembersRest (fuel : Nat) (cs : List Char) : Except String (PyDict × List Char) :=
  match fuel with
  | 0 => .error "Maximum recursion depth exceeded"
  | fuel + 1 =>
    match skipWs cs with
    | '}' :: rest => .ok (.nil, rest)
    | ',' :: cs2 =>
      match skipWs cs2 with
      | '"' :: cs3 => do
        let (key, cs4) ← parseStringBody (cs3.length + 1) cs3
        match skipWs cs4 with
        | ':' :: cs5 => do
          let (v, cs6) ← parseValue fuel cs5
          let (tl, rest) ← parseMembersRest fuel cs6
          .ok (.cons (String.mk key) v tl, rest)
        | _ => .error "Expecting colon delimiter"
      | _ => .error "Expecting property name enclosed in double quotes"
    | _ => .error "Expecting comma delimiter"
end

/-- `json.loads`: parse one value, then require only whitespace after
it (else `Extra data`).  Failures are `json.JSONDecodeError`s. -/
def json_loads (s : String) : Except PyError PyValue :=
  match parseValue (s.data.length + 1) s.data with
  | .error m => .error (.jsonDecodeError m)
  | .ok (v, rest) =>
    match skipWs rest with
    | [] => .ok v
    | _ => .error (.jsonDecodeError "Extra data")

/-! ## `copy.deepcopy` and the remaining `RawJwt` operations -/

mutual
/-- `copy.deepcopy`: a structurally recursive clone.  On the pure value
level the clone equals the original; the aliasing content of the deep
copy is treated in the identity-annotated model further below. -/
def pyDeepcopy : PyValue → PyValue
  | .pynone => .pynone
  | .pybool b => .pybool b
  | .pyint n => .pyint n
  | .pyfloat m e => .pyfloat m e
  | .pystr s => .pystr s
  | .pylist xs => .pylist (pyDeepcopyL xs)
  | .pydict kvs => .pydict (pyDeepcopyD kvs)
  | .pyobj t => .pyobj t
def pyDeepcopyL : PyList → PyList
  | .nil => .nil
  | .cons hd tl => .cons (pyDeepcopy hd) (pyDeepcopyL tl)
def pyDeepcopyD : PyDict → PyDict
  | .nil => .nil
  | .cons k v tl => .cons k (pyDeepcopy v) (pyDeepcopyD tl)
end

namespace RawJwt

/-- `custom_claim(name)`: rejects registered names, raises `KeyError`
for an absent claim, returns `copy.deepcopy` of a `list`/`dict` value
and the value itself otherwise. -/
def custom_claim (j : RawJwt) (name : String) : Except PyError PyValue := do
  _ ← _validate_custom_claim_name name
  match j.payload.get? name with
  | none => .error (.keyError name)
  | some value =>
    match value with
    | .pylist _ => .ok (pyDeepcopy value)
    | .pydict _ => .ok (pyDeepcopy value)
    | _ => .ok value

/-- `json_payload()`: `json.dumps(self._payload)`. -/
def json_payload (j : RawJwt) : Except PyError String :=
  json_dumps (.pydict j.payload)

/-- The value-storing part of one iteration of the custom-claims loop
inside `create`: scalars are stored as-is, lists and dicts as
`json.loads(json.dumps(value))`, anything else is rejected with the
invalid-claim error. -/
def store_custom_value (name : String) (value : PyValue) : Except PyError PyValue :=
  match value with
  | .pynone => pure value
  | .pybool b => pure (PyValue.pybool b)
  | .pyint n => pure (PyValue.pyint n)
  | .pyfloat m e => pure (PyValue.pyfloat m e)
  | .pystr s => pure (PyValue.pystr s)
  | .pylist xs => do
    let s ← json_dumps (.pylist xs)
    json_loads s
  | .pydict kvs => do
    let s ← json_dumps (.pydict kvs)
    json_loads s
  | .pyobj _ => .error (.jwtInvalidError ("claim " ++ name ++ " has unknown type"))

/-- The custom-claims loop inside `create`: names are checked against
the registered set (the `isinstance(name, Text)` check always passes,
the model's keys being strings), then the value is stored. -/
def add_custom_claims (payload : PyDict) (claims : PyDict) : Except PyError PyDict :=
  match claims with
  | .nil => .ok payload
  | .cons name value tl => do
    _ ← _validate_custom_claim_name name
    let stored ← store_custom_value name value
    add_custom_claims (payload.append name stored) tl

/-- `if issuer:` from `create` -- a `None` or empty-string issuer is
falsy and silently dropped. -/
def step_issuer (issuer : Option String) (p : PyDict) : PyDict :=
  match issuer with
  | some s => if s = "" then p else p.append "iss" (.pystr s)
  | none => p

/-- `if subject:` from `create`. -/
def step_subject (subject : Option String) (p : PyDict) : PyDict :=
  match subject with
  | some s => if s = "" then p else p.append "sub" (.pystr s)
  | none => p

/-- `if jwt_id is not None:` from `create` -- the empty string IS
stored. -/
def step_jwt_id (jwt_id : Option String) (p : PyDict) : PyDict :=
  match jwt_id with
  | some s => p.append "jti" (.pystr s)
  | none => p

/-- `if audiences is not None: payload['aud'] = copy.copy(audiences)`
from `create` -- stored as passed (shallow copy); its shape is checked
only by `__init__`. -/
def step_audiences (audiences : Option PyValue) (p : PyDict) : PyDict :=
  match audiences with
  | some v => p.append "aud" v
  | none => p

/-- `if expiration:` from `create` -- a datetime instance is always
truthy. -/
def step_expiration (expiration : Option PyDatetime) (p : PyDict) :
    Except PyError PyDict :=
  match expiration with
  | some t => do
    let n ← _from_datetime t
    pure (p.append "exp" (.pyint n))
  | none => pure p

/-- `if not_before:` from `create`. -/
def step_not_before (not_before : Option PyDatetime) (p : PyDict) :
    Except PyError PyDict :=
  match not_before with
  | some t => do
    let n ← _from_datetime t
    pure (p.append "nbf" (.pyint n))
  | none => pure p

/-- `if issued_at:` from `create`. -/
def step_issued_at (issued_at : Option PyDatetime) (p : PyDict) :
    Except PyError PyDict :=
  match issued_at with
  | some t => do
    let n ← _from_datetime t
    pure (p.append "iat" (.pyint n))
  | none => pure p

/-- `if custom_claims:` from `create` -- `None` or an empty mapping is
falsy and skipped. -/
def step_customs (custom_claims : Option PyDict) (p : PyDict) :
    Except PyError PyDict :=
  match custom_claims with
  | some kvs => if kvs.isEmpty then pure p else add_custom_claims p kvs
  | none => pure p

/-- The payload-assembly part of `RawJwt.create`: the source's `if`
statements in order, each embedded as its own `step_*` function above
(split out of `create` for the proofs; `create` is exactly this
followed by `__init__`). -/
def create_payload (issuer : Option String) (subject : Option String)
    (audiences : Option PyValue) (jwt_id : Option String)
    (expiration : Option PyDatetime) (not_before : Option PyDatetime)
    (issued_at : Option PyDatetime) (custom_claims : Option PyDict) :
    Except PyError PyDict := do
  let p4 := step_audiences audiences
    (step_jwt_id jwt_id (step_subject subject (step_issuer issuer .nil)))
  let p5 ← step_expiration expiration p4
  let p6 ← step_not_before not_before p5
  let p7 ← step_issued_at issued_at p6
  step_customs custom_claims p7

/-- `RawJwt.create`: assembles the payload in source order and runs
`__init__` on it. -/
def create (issuer : Option String) (subject : Option String)
    (audiences : Option PyValue) (jwt_id : Option String)
    (expiration : Option PyDatetime) (not_before : Option PyDatetime)
    (issued_at : Option PyDatetime) (custom_claims : Option PyDict) :
    Except PyError RawJwt := do
  let p ← create_payload issuer subject audiences jwt_id expiration not_before
    issued_at custom_claims
  RawJwt.init p

/-- `RawJwt.from_json_payload`: `json.loads` then `__init__`.  A decode
failure propagates as the `JSONDecodeError` it is; a top-level value
that is not a JSON object cannot make a payload dict (see the module
comment on CPython's duck typing). -/
def from_json_payload (payload : String) : Except PyError RawJwt := do
  let v ← json_loads payload
  match v with
  | .pydict kvs => RawJwt.init kvs
  | _ => .error (.typeError "argument of type is not a dict")

end RawJwt

/-- `tink.jwt.raw_jwt_from_json_payload` (from `jwt/__init__.py`). -/
def raw_jwt_from_json_payload (payload : String) : Except PyError RawJwt :=
  RawJwt.from_json_payload payload

/-- `tink.jwt.new_raw_jwt` (from `jwt/__init__.py`). -/
def new_raw_jwt (issuer : Option String) (subject : Option String)
    (audiences : Option PyValue) (jwt_id : Option String)
    (expiration : Option PyDatetime) (not_before : Option PyDatetime)
    (issued_at : Option PyDatetime) (custom_claims : Option PyDict) :
    Except PyError RawJwt :=
  RawJwt.create issuer subject audiences jwt_id expiration not_before issued_at custom_claims

/-! ## Predicates used by the claim statements -/

/-- The result failed with a `JwtInvalidError`. -/
def isJwtInvalid {α : Type} (r : Except PyError α) : Bool :=
  match r with
  | .error (.jwtInvalidError _) => true
  | _ => false

/-- The result failed with a `TypeError`. -/
def isTypeError {α : Type} (r : Except PyError α) : Bool :=
  match r with
  | .error (.typeError _) => true
  | _ => false

/-- The result failed with a `json.JSONDecodeError`. -/
def isDecodeError {α : Type} (r : Except PyError α) : Bool :=
  match r with
  | .error (.jsonDecodeError _) => true
  | _ => false

/-- The result succeeded. -/
def isOkE {α : Type} (r : Except PyError α) : Bool :=
  match r with
  | .ok _ => true
  | _ => false

/-- `isinstance(x, (int, float))` -- a Python number (bools included,
`bool` being an `int` subclass). -/
def isNumberValue (v : PyValue) : Bool :=
  match v with
  | .pyint _ => true
  | .pyfloat _ _ => true
  | .pybool _ => true
  | _ => false

/-- The value is a number denoting a whole number of seconds (an
integer value).  `pyfloat m e` denotes `m * 10^e`. -/
def isWholeSecondsValue (v : PyValue) : Bool :=
  match v with
  | .pyint _ => true
  | .pybool _ => true
  | .pyfloat m e =>
    if 0 ≤ e then true else m % ((10 : Int) ^ (-e).toNat) == 0
  | _ => false

/-- The value is a string or a non-empty list of strings (the accepted
`aud` inputs). -/
def isStrOrNonemptyStrList (v : PyValue) : Bool :=
  match v with
  | .pystr _ => true
  | .pylist l => !l.isEmpty && l.allStrings
  | _ => false

/-- Canonical mantissa/exponent pair: the forms that denote an actual
Python float uniquely (`json_loads` only ever produces these). -/
def floatCanonical (m e : Int) : Bool :=
  if m = 0 then e == 0 else !(m % 10 == 0)

mutual
/-- No `pyobj` anywhere: exactly the values `json.dumps` serializes. -/
def noObjV : PyValue → Bool
  | .pynone => true
  | .pybool _ => true
  | .pyint _ => true
  | .pyfloat _ _ => true
  | .pystr _ => true
  | .pylist xs => noObjL xs
  | .pydict kvs => noObjD kvs
  | .pyobj _ => false
def noObjL : PyList → Bool
  | .nil => true
  | .cons hd tl => noObjV hd && noObjL tl
def noObjD : PyDict → Bool
  | .nil => true
  | .cons _ v tl => noObjV v && noObjD tl
end

mutual
/-- JSON-canonical values: serializable, floats in canonical form, dict
keys pairwise distinct at every level.  These are exactly the shapes a
real Python value takes after a `json` round trip, and the domain on
which the embedded codec round-trips. -/
def wfV : PyValue → Bool
  | .pynone => true
  | .pybool _ => true
  | .pyint _ => true
  | .pyfloat m e => floatCanonical m e
  | .pystr _ => true
  | .pylist xs => wfL xs
  | .pydict kvs => wfD kvs
  | .pyobj _ => false
def wfL : PyList → Bool
  | .nil => true
  | .cons hd tl => wfV hd && wfL tl
def wfD : PyDict → Bool
  | .nil => true
  | .cons k v tl => !tl.member k && wfV v && wfD tl
end

mutual
/-- Fuel sufficient for `parseValue` on this value's printed form. -/
def needV : PyValue → Nat
  | .pylist xs => 1 + needL xs
  | .pydict kvs => 1 + needD kvs
  | _ => 1
def needL : PyList → Nat
  | .nil => 1
  | .cons hd tl => 1 + max (needV hd) (needL tl)
def needD : PyDict → Nat
  | .nil => 1
  | .cons _ v tl => 1 + max (needV v) (needD tl)
end

/-- The character after a printed JSON number in any position `json.dumps`
puts one: a delimiter or the end of input.  Under this condition the
number token is parsed back without absorbing following characters. -/
def followOk (cs : List Char) : Bool :=
  match cs with
  | [] => true
  | c :: _ => c = ',' || c = ']' || c = '}'

/-- Keys pairwise distinct and every directly stored float canonical:
the well-formedness of a `custom_claims` argument that an actual Python
`dict` of `float`s satisfies by construction (the model's mantissa/
exponent pairs are many-to-one on values; Python floats are not). -/
def wfScalarFloats (kvs : PyDict) : Bool :=
  match kvs with
  | .nil => true
  | .cons _ (.pyfloat m e) tl => floatCanonical m e && wfScalarFloats tl
  | .cons _ _ tl => wfScalarFloats tl

/-- Well-formedness of the `custom_claims` argument. -/
def CustomsWF (custom_claims : Option PyDict) : Bool :=
  match custom_claims with
  | none => true
  | some kvs => kvs.keysNodup && wfScalarFloats kvs

/-- A claim set obtained from one of the two construction paths: built
by `create`/`new_raw_jwt` (from arguments a real Python caller can
pass), or parsed by `from_json_payload`. -/
def ValidlyConstructed (j : RawJwt) : Prop :=
  (∃ issuer subject audiences jwt_id expiration not_before issued_at custom_claims,
    CustomsWF custom_claims = true ∧
    RawJwt.create issuer subject audiences jwt_id expiration not_before issued_at
      custom_claims = .ok j)
  ∨ (∃ s, RawJwt.from_json_payload s = .ok j)

/-! ## Object identities: the mutable-aliasing content of `deepcopy`

The pure value model cannot express "mutating the returned object".
`IdValue` is `PyValue` with every *mutable* node (list, dict) carrying a
Python object identity; scalars are immutable in Python and need none.
In-place mutation is `setChildrenV i xs kvs`: every node whose identity
is `i` gets its contents replaced.  `copy.deepcopy` is `idCopyV next`:
a structural clone whose nodes all carry fresh identities `≥ next`.
That the identities of the copy are disjoint from those of the store is
exactly the guarantee that mutation through the copy cannot reach the
store. -/

mutual
inductive IdValue : Type where
  | inone
  | ibool (b : Bool)
  | iint (n : Int)
  | ifloat (m : Int) (e : Int)
  | istr (s : String)
  | ilist (id : Nat) (xs : IdList)
  | idict (id : Nat) (kvs : IdDict)
  deriving DecidableEq
inductive IdList : Type where
  | nil
  | cons (hd : IdValue) (tl : IdList)
  deriving DecidableEq
inductive IdDict : Type where
  | nil
  | cons (key : String) (val : IdValue) (tl : IdDict)
  deriving DecidableEq
end

mutual
/-- Forget the identities. -/
def eraseIdV : IdValue → PyValue
  | .inone => .pynone
  | .ibool b => .pybool b
  | .iint n => .pyint n
  | .ifloat m e => .pyfloat m e
  | .istr s => .pystr s
  | .ilist _ xs => .pylist (eraseIdL xs)
  | .idict _ kvs => .pydict (eraseIdD kvs)
def eraseIdL : IdList → PyList
  | .nil => .nil
  | .cons hd tl => .cons (eraseIdV hd) (eraseIdL tl)
def eraseIdD : IdDict → PyDict
  | .nil => .nil
  | .cons k v tl => .cons k (eraseIdV v) (eraseIdD tl)
end

mutual
/-- All object identities in the value. -/
def idsV : IdValue → List Nat
  | .ilist i xs => i :: idsL xs
  | .idict i kvs => i :: idsD kvs
  | _ => []
def idsL : IdList → List Nat
  | .nil => []
  | .cons hd tl => idsV hd ++ idsL tl
def idsD : IdDict → List Nat
  | .nil => []
  | .cons _ v tl => idsV v ++ idsD tl
end

/-- Every identity below the allocation counter (true of every object
graph the runtime has built so far). -/
def idsBelow (n : Nat) (v : IdValue) : Bool :=
  (idsV v).all (fun i => i < n)

mutual
/-- `copy.deepcopy` with explicit identity allocation: clones the
structure, giving every cloned node a fresh identity; returns the clone
and the next free identity. -/
def idCopyV (next : Nat) : IdValue → IdValue × Nat
  | .inone => (.inone, next)
  | .ibool b => (.ibool b, next)
  | .iint n => (.iint n, next)
  | .ifloat m e => (.ifloat m e, next)
  | .istr s => (.istr s, next)
  | .ilist _ xs =>
    let p := idCopyL (next + 1) xs
    (.ilist next p.1, p.2)
  | .idict _ kvs =>
    let p := idCopyD (next + 1) kvs
    (.idict next p.1, p.2)
def idCopyL (next : Nat) : IdList → IdList × Nat
  | .nil => (.nil, next)
  | .cons hd tl =>
    let p := idCopyV next hd
    let q := idCopyL p.2 tl
    (.cons p.1 q.1, q.2)
def idCopyD (next : Nat) : IdDict → IdDict × Nat
  | .nil => (.nil, next)
  | .cons k v tl =>
    let p := idCopyV next v
    let q := idCopyD p.2 tl
    (.cons k p.1 q.1, q.2)
end

mutual
/-- In-place mutation: replace the contents of every node whose
identity is `i` (by `xs` for a list node, `kvs` for a dict node). -/
def setChildrenV (i : Nat) (xs : IdList) (kvs : IdDict) : IdValue → IdValue
  | .ilist j ys => if j = i then .ilist j xs else .ilist j (setChildrenL i xs kvs ys)
  | .idict j ws => if j = i then .idict j kvs else .idict j (setChildrenD i xs kvs ws)
  | v => v
def setChildrenL (i : Nat) (xs : IdList) (kvs : IdDict) : IdList → IdList
  | .nil => .nil
  | .cons hd tl => .cons (setChildrenV i xs kvs hd) (setChildrenL i xs kvs tl)
def setChildrenD (i : Nat) (xs : IdList) (kvs : IdDict) : IdDict → IdDict
  | .nil => .nil
  | .cons k v tl => .cons k (setChildrenV i xs kvs v) (setChildrenD i xs kvs tl)
end

/-- The value `custom_claim` hands back, at the identity level: a deep
copy for a list/dict value, the (immutable) value itself otherwise. -/
def idCustomClaim (store : IdValue) (next : Nat) : IdValue × Nat :=
  match store with
  | .ilist _ _ => idCopyV next store
  | .idict _ _ => idCopyV next store
  | _ => (store, next)

/-- The stored value is a mutable compound (list or dict). -/
def isCompound (v : IdValue) : Bool :=
  match v with
  | .ilist _ _ => true
  | .idict _ _ => true
  | _ => false

/-! ## Auxiliary definitions for the proofs -/

/-- Concatenation of two association lists (used to describe the
effect of building a dict from distinct keys). -/
def PyDict.concat (a b : PyDict) : PyDict :=
  match a with
  | .nil => b
  | .cons k v tl => .cons k v (tl.concat b)

/-- What `", ".join` contributes after the first array element: the
printed elements of `xs`, each preceded by `", "`. -/
def dumpElemsTail : PyList → Except PyError (List Char)
  | .nil => .ok []
  | .cons hd tl => do
    let first ← dumpValue hd
    let rest ← dumpElemsTail tl
    .ok (',' :: ' ' :: (first ++ rest))

/-- What `", ".join` contributes after the first object member. -/
def dumpMembersTail : PyDict → Except PyError (List Char)
  | .nil => .ok []
  | .cons k v tl => do
    let body ← dumpValue v
    let rest ← dumpMembersTail tl
    .ok (',' :: ' ' :: (encodeString k ++ ':' :: ' ' :: (body ++ rest)))

/-- Every value in the dict is JSON-canonical (`wfV`). -/
def valuesWF (kvs : PyDict) : Bool :=
  match kvs with
  | .nil => true
  | .cons _ v tl => wfV v && valuesWF tl

/-- `wfD` with the value check waived for the `aud` key: the state of a
payload assembled by `create_payload`, whose `aud` entry is whatever the
caller passed and is shaped up only by `__init__`. -/
def wfDExceptAud (kvs : PyDict) : Bool :=
  match kvs with
  | .nil => true
  | .cons k v tl => !tl.member k && (k == "aud" || wfV v) && wfDExceptAud tl

/-! ## Non-recursive dispatch bodies of the parser

Each parser function, applied at `fuel + 1`, first skips whitespace and
then dispatches on the head character.  The following non-recursive
definitions name those dispatch bodies so that symbolic-fuel unfolding
equations (`parseValue_succ` and friends, proved below) can drive the
round-trip proof one token at a time. -/

/-- Dispatch body of `parseValue` with the head character at hand. -/
def parseValueCore (fuel : Nat) (c : Char) (cs1 : List Char) :
    Except String (PyValue × List Char) :=
  if c = '{' then do
    let (kvs, rest) ← parseMembers fuel cs1
    .ok (.pydict (dedupMembers kvs), rest)
  else if c = '[' then do
    let (xs, rest) ← parseElems fuel cs1
    .ok (.pylist xs, rest)
  else if c = '"' then do
    let (body, rest) ← parseStringBody (cs1.length + 1) cs1
    .ok (.pystr (String.mk body), rest)
  else if c = 't' then
    match cs1 with
    | 'r' :: 'u' :: 'e' :: rest => .ok (.pybool true, rest)
    | _ => .error "Expecting value"
  else if c = 'f' then
    match cs1 with
    | 'a' :: 'l' :: 's' :: 'e' :: rest => .ok (.pybool false, rest)
    | _ => .error "Expecting value"
  else if c = 'n' then
    match cs1 with
    | 'u' :: 'l' :: 'l' :: rest => .ok (.pynone, rest)
    | _ => .error "Expecting value"
  else if c = '-' ∨ isDigitCh c then parseNumber (c :: cs1)
  else .error "Expecting value"

/-- Dispatch body of `parseElems`: either the closing bracket or a first
element followed by the delimiter loop. -/
def parseElemsValue (fuel : Nat) (cs1 : List Char) :
    Except String (PyList × List Char) := do
  let (v, cs2) ← parseValue fuel cs1
  let (tl, rest) ← parseElemsRest fuel cs2
  .ok (.cons v tl, rest)

/-- Key/value member of an object: the string body after the opening
quote, a colon, a value, then the member delimiter loop. -/
def parseMemberKV (fuel : Nat) (cs1 : List Char) :
    Except String (PyDict × List Char) := do
  let (key, cs2) ← parseStringBody (cs1.length + 1) cs1
  match skipWs cs2 with
  | ':' :: cs3 => do
    let (v, cs4) ← parseValue fuel cs3
    let (tl, rest) ← parseMembersRest fuel cs4
    .ok (.cons (String.mk key) v tl, rest)
  | _ => .error "Expecting colon delimiter"

/-! ## Claim theorems: concrete evaluations -/

/-- C10: passing the empty string as issuer or subject does not fail and
does not store the claim (`if issuer:` truthiness silently drops it),
while the empty string as jwt_id is stored (`is not None`), so
`has_jwt_id()` is true and `jwt_id()` returns `""`. -/
theorem C10_empty_string_issuer_subject_vs_jwt_id :
    ∃ j, RawJwt.create (some "") (some "") none (some "") none none none none = .ok j ∧
      j.has_issuer = false ∧ j.has_subject = false ∧
      j.has_jwt_id = true ∧ j.jwt_id = .ok (.pystr "") :=
  ⟨⟨.cons "jti" (.pystr "") .nil⟩, rfl, rfl, rfl, rfl, rfl⟩

/-- C2 counterexample: on the non-JSON input `"{"`, `from_json_payload`
does fail, but with the `json.JSONDecodeError` that `json.loads` raises
(a `ValueError`), not with the invalid-claim (`JwtInvalidError`) kind:
the source does not catch the decode error. -/
theorem C2_counterexample :
    isOkE (RawJwt.from_json_payload "\x7b") = false ∧
    isDecodeError (RawJwt.from_json_payload "\x7b") = true ∧
    isJwtInvalid (RawJwt.from_json_payload "\x7b") = false :=
  ⟨rfl, rfl, rfl⟩

/-- C3 counterexample: `from_json_payload` accepts `exp` equal to the
JSON number `123.5`, which is not a whole number of seconds, so the
claimed integer-seconds invariant does not hold on the parse path
(`_validate_number_claim` accepts any `int` or `float`). -/
theorem C3_counterexample :
    RawJwt.from_json_payload "\x7b\"exp\": 123.5\x7d" =
      .ok ⟨.cons "exp" (.pyfloat 1235 (-1)) .nil⟩ ∧
    isWholeSecondsValue (.pyfloat 1235 (-1)) = false :=
  ⟨rfl, rfl⟩

/-- C5 counterexample: a `custom_claims` mapping that contains the
registered name `iss` but whose earlier entry holds a non-serializable
object inside a list makes `create` fail with the serializer's
`TypeError` (raised by `json.dumps` before the registered name is
reached), not with the invalid-claim error the claim promises. -/
theorem C5_counterexample :
    isOkE (RawJwt.create none none none none none none none
      (some (.cons "a" (.pylist (.cons (.pyobj "object") .nil))
        (.cons "iss" (.pyint 1) .nil)))) = false ∧
    isJwtInvalid (RawJwt.create none none none none none none none
      (some (.cons "a" (.pylist (.cons (.pyobj "object") .nil))
        (.cons "iss" (.pyint 1) .nil)))) = false ∧
    isTypeError (RawJwt.create none none none none none none none
      (some (.cons "a" (.pylist (.cons (.pyobj "object") .nil))
        (.cons "iss" (.pyint 1) .nil)))) = true :=
  ⟨rfl, rfl, rfl⟩

/-- C7 counterexample: for the instant half a second before the epoch
(`1969-12-31T23:59:59.5+00:00`), `int(t.timestamp())` truncates toward
zero and stores `exp = 0`, while the floor of the timestamp is `-1`:
the stored value is not the floor for negative fractional instants. -/
theorem C7_counterexample :
    RawJwt.create none none none none (some ⟨-1, 500000, some 0⟩) none none none =
      .ok ⟨.cons "exp" (.pyint 0) .nil⟩ ∧
    Int.fdiv (PyDatetime.timestampMicros ⟨-1, 500000, some 0⟩ 0) 1000000 = -1 ∧
    (0 : Int) ≠ -1 :=
  ⟨rfl, rfl, by decide⟩

/-- C8 counterexample: a custom claim whose value is a list containing a
non-serializable object makes `create` fail with `json.dumps`'s
`TypeError`, not with the invalid-claim (`JwtInvalidError`) kind the
claim promises for nested unrepresentable values. -/
theorem C8_counterexample :
    isOkE (RawJwt.create none none none none none none none
      (some (.cons "a" (.pylist (.cons (.pyobj "object") .nil)) .nil))) = false ∧
    isJwtInvalid (RawJwt.create none none none none none none none
      (some (.cons "a" (.pylist (.cons (.pyobj "object") .nil)) .nil))) = false ∧
    isTypeError (RawJwt.create none none none none none none none
      (some (.cons "a" (.pylist (.cons (.pyobj "object") .nil)) .nil))) = true :=
  ⟨rfl, rfl, rfl⟩

/-! ## Supporting lemmas: dictionaries -/

/-- Spine induction for `PyDict` (the mutual recursor has several
motives; dictionary-shape lemmas only need the spine). -/
theorem PyDict.spineInduction {motive : PyDict → Prop} (hnil : motive .nil)
    (hcons : ∀ k v tl, motive tl → motive (.cons k v tl)) : ∀ d, motive d
  | .nil => hnil
  | .cons k v tl => hcons k v tl (PyDict.spineInduction hnil hcons tl)

/-- Spine induction for `PyList`. -/
theorem PyList.spineInductionList {motive : PyList → Prop} (hnil : motive .nil)
    (hcons : ∀ hd tl, motive tl → motive (.cons hd tl)) : ∀ l, motive l
  | .nil => hnil
  | .cons hd tl => hcons hd tl (PyList.spineInductionList hnil hcons tl)

theorem PyDict.get?_set_self (d : PyDict) (k : String) (v : PyValue) :
    (d.set k v).get? k = some v := by
  induction d using PyDict.spineInduction with
  | hnil => simp [PyDict.set, PyDict.get?]
  | hcons k2 w tl ih =>
    by_cases h : k2 = k
    · simp [PyDict.set, PyDict.get?, h]
    · simp [PyDict.set, PyDict.get?, h, ih]

theorem PyDict.get?_set_ne (d : PyDict) (k k2 : String) (v : PyValue) (h : k2 ≠ k) :
    (d.set k v).get? k2 = d.get? k2 := by
  induction d using PyDict.spineInduction with
  | hnil => simp [PyDict.set, PyDict.get?, Ne.symm h]
  | hcons k3 w tl ih =>
    by_cases h3 : k3 = k
    · subst h3
      simp [PyDict.set, PyDict.get?, Ne.symm h]
    · simp only [PyDict.set, if_neg h3, PyDict.get?]
      by_cases h2 : k3 = k2 <;> simp [h2, ih]

theorem PyDict.get?_append_self (d : PyDict) (k : String) (v : PyValue)
    (h : d.member k = false) : (d.append k v).get? k = some v := by
  induction d using PyDict.spineInduction with
  | hnil => simp [PyDict.append, PyDict.get?]
  | hcons k2 w tl ih =>
    simp [PyDict.member] at h
    simp [PyDict.append, PyDict.get?, h.1, ih h.2]

theorem PyDict.get?_append_ne (d : PyDict) (k k2 : String) (v : PyValue) (h : k2 ≠ k) :
    (d.append k v).get? k2 = d.get? k2 := by
  induction d using PyDict.spineInduction with
  | hnil => simp [PyDict.append, PyDict.get?, Ne.symm h]
  | hcons k3 w tl ih =>
    by_cases h2 : k3 = k2 <;> simp [PyDict.append, PyDict.get?, h2, ih]

theorem PyDict.member_append (d : PyDict) (k k2 : String) (v : PyValue) :
    (d.append k v).member k2 = (d.member k2 || k = k2) := by
  induction d using PyDict.spineInduction with
  | hnil => simp [PyDict.append, PyDict.member]
  | hcons k3 w tl ih =>
    by_cases h : k3 = k2 <;> simp [PyDict.append, PyDict.member, h, ih]

theorem PyDict.member_set (d : PyDict) (k k2 : String) (v : PyValue) :
    (d.set k v).member k2 = (d.member k2 || k = k2) := by
  induction d using PyDict.spineInduction with
  | hnil => simp [PyDict.set, PyDict.member]
  | hcons k3 w tl ih =>
    by_cases h3 : k3 = k
    · subst h3
      by_cases h : k3 = k2 <;> simp_all [PyDict.set, PyDict.member]
    · simp only [PyDict.set, if_neg h3, PyDict.member]
      by_cases h : k3 = k2
      · simp [h]
      · simp [h, ih]

theorem PyDict.get?_none_of_not_member (d : PyDict) (k : String)
    (h : d.member k = false) : d.get? k = none := by
  induction d using PyDict.spineInduction with
  | hnil => simp [PyDict.get?]
  | hcons k2 w tl ih =>
    simp [PyDict.member] at h
    simp [PyDict.get?, h.1, ih h.2]

theorem PyDict.member_of_get?_some (d : PyDict) (k : String) (v : PyValue)
    (h : d.get? k = some v) : d.member k = true := by
  induction d using PyDict.spineInduction with
  | hnil => simp [PyDict.get?] at h
  | hcons k2 w tl ih =>
    by_cases h2 : k2 = k <;> simp_all [PyDict.get?, PyDict.member]

/-! ## Supporting lemmas: truncation toward zero -/

/-- Behavioural characterization of `int(x)` on the microsecond scale:
`Int.tdiv T 1000000` is the whole-second part, truncated toward zero. -/
theorem tdiv_micros_char (T : Int) :
    (0 ≤ T → (T.tdiv 1000000) * 1000000 ≤ T ∧ T < (T.tdiv 1000000) * 1000000 + 1000000) ∧
    (T < 0 → T ≤ (T.tdiv 1000000) * 1000000 ∧ (T.tdiv 1000000) * 1000000 < T + 1000000) := by
  cases T with
  | ofNat t =>
    have h1 := Nat.div_add_mod t 1000000
    have h2 := Nat.mod_lt t (y := 1000000) (by omega)
    have h3 : Int.tdiv (Int.ofNat t) 1000000 = Int.ofNat (t / 1000000) := rfl
    rw [h3]
    simp only [Int.ofNat_eq_natCast]
    constructor
    · intro _
      constructor <;> [omega; omega]
    · intro hneg
      omega
  | negSucc m =>
    have h1 := Nat.div_add_mod (m + 1) 1000000
    have h2 := Nat.mod_lt (m + 1) (y := 1000000) (by omega)
    have h3 : Int.tdiv (Int.negSucc m) 1000000 = -Int.ofNat ((m + 1) / 1000000) := rfl
    rw [h3]
    simp only [Int.ofNat_eq_natCast, Int.negSucc_eq]
    constructor
    · intro hpos
      omega
    · intro _
      constructor <;> omega

/-- `create` with only an offset-aware expiration: the stored `exp` is
`int(t.timestamp())`. -/
theorem create_exp_only_eq (wall off : Int) (us : Nat) :
    RawJwt.create none none none none (some ⟨wall, us, some off⟩) none none none =
      .ok ⟨.cons "exp"
        (.pyint (Int.tdiv ((wall - off) * 1000000 + us) 1000000)) .nil⟩ := rfl

/-- `create` with only an offset-aware `not_before`: the stored `nbf` is
`int(t.timestamp())`. -/
theorem create_nbf_only_eq (wall off : Int) (us : Nat) :
    RawJwt.create none none none none none (some ⟨wall, us, some off⟩) none none =
      .ok ⟨.cons "nbf"
        (.pyint (Int.tdiv ((wall - off) * 1000000 + us) 1000000)) .nil⟩ := rfl

/-- `create` with only an offset-aware `issued_at`: the stored `iat` is
`int(t.timestamp())`. -/
theorem create_iat_only_eq (wall off : Int) (us : Nat) :
    RawJwt.create none none none none none none (some ⟨wall, us, some off⟩) none =
      .ok ⟨.cons "iat"
        (.pyint (Int.tdiv ((wall - off) * 1000000 + us) 1000000)) .nil⟩ := rfl

/-- The datetime rebuilt by a time getter from the stored truncated
timestamp denotes the same instant as the aware input to the second:
within one second always, exactly when the input lies on a whole
second. -/
theorem stored_time_close (wall off : Int) (us : Nat) :
    ((_to_datetime (Int.tdiv ((wall - off) * 1000000 + us) 1000000)).timestampMicros 0 -
       PyDatetime.timestampMicros ⟨wall, us, some off⟩ off < 1000000 ∧
     PyDatetime.timestampMicros ⟨wall, us, some off⟩ off -
       (_to_datetime (Int.tdiv ((wall - off) * 1000000 + us) 1000000)).timestampMicros 0
         < 1000000) ∧
    (us = 0 →
      (_to_datetime (Int.tdiv ((wall - off) * 1000000 + us) 1000000)).timestampMicros 0 =
        PyDatetime.timestampMicros ⟨wall, us, some off⟩ off) := by
  constructor
  · have h := tdiv_micros_char ((wall - off) * 1000000 + us)
    simp only [PyDatetime.timestampMicros, _to_datetime]
    rcases le_or_lt 0 ((wall - off) * 1000000 + (us : Int)) with hpos | hneg
    · have := h.1 hpos
      omega
    · have := h.2 hneg
      omega
  · intro h0
    subst h0
    simp only [PyDatetime.timestampMicros, _to_datetime]
    have h5 : Int.tdiv ((wall - off) * 1000000 + ((0 : Nat) : Int)) 1000000 = wall - off := by
      have := Int.mul_tdiv_cancel (wall - off) (b := 1000000) (by omega)
      simpa using this
    rw [h5]
    ring

/-- C6: building with any of the three timestamp inputs (`expiration`,
`not_before`, `issued_at`) lacking tzinfo fails with the invalid-claim
error; building with the same wall-clock instant carrying an explicit
UTC offset succeeds, and the corresponding getter (`expiration()`,
`not_before()`, `issued_at()`) returns a timezone-aware UTC datetime
denoting the same instant to the second (within one second always,
exactly when the input lies on a whole second). -/
theorem C6_timezone_requirement (wall off : Int) (us : Nat) :
    (RawJwt.create none none none none (some ⟨wall, us, none⟩) none none none =
      .error (.jwtInvalidError "datetime must have tzinfo") ∧
     ∃ j dt, RawJwt.create none none none none (some ⟨wall, us, some off⟩) none none
        none = .ok j ∧
      j.has_expiration = true ∧ j.expiration = some dt ∧ dt.tzoffset = some 0 ∧
      (dt.timestampMicros 0 - PyDatetime.timestampMicros ⟨wall, us, some off⟩ off
         < 1000000 ∧
       PyDatetime.timestampMicros ⟨wall, us, some off⟩ off - dt.timestampMicros 0
         < 1000000) ∧
      (us = 0 → dt.timestampMicros 0 =
        PyDatetime.timestampMicros ⟨wall, us, some off⟩ off)) ∧
    (RawJwt.create none none none none none (some ⟨wall, us, none⟩) none none =
      .error (.jwtInvalidError "datetime must have tzinfo") ∧
     ∃ j dt, RawJwt.create none none none none none (some ⟨wall, us, some off⟩) none
        none = .ok j ∧
      j.has_not_before = true ∧ j.not_before = some dt ∧ dt.tzoffset = some 0 ∧
      (dt.timestampMicros 0 - PyDatetime.timestampMicros ⟨wall, us, some off⟩ off
         < 1000000 ∧
       PyDatetime.timestampMicros ⟨wall, us, some off⟩ off - dt.timestampMicros 0
         < 1000000) ∧
      (us = 0 → dt.timestampMicros 0 =
        PyDatetime.timestampMicros ⟨wall, us, some off⟩ off)) ∧
    (RawJwt.create none none none none none none (some ⟨wall, us, none⟩) none =
      .error (.jwtInvalidError "datetime must have tzinfo") ∧
     ∃ j dt, RawJwt.create none none none none none none (some ⟨wall, us, some off⟩)
        none = .ok j ∧
      j.has_issued_at = true ∧ j.issued_at = some dt ∧ dt.tzoffset = some 0 ∧
      (dt.timestampMicros 0 - PyDatetime.timestampMicros ⟨wall, us, some off⟩ off
         < 1000000 ∧
       PyDatetime.timestampMicros ⟨wall, us, some off⟩ off - dt.timestampMicros 0
         < 1000000) ∧
      (us = 0 → dt.timestampMicros 0 =
        PyDatetime.timestampMicros ⟨wall, us, some off⟩ off)) := by
  have hclose := stored_time_close wall off us
  refine ⟨⟨rfl, ?_⟩, ⟨rfl, ?_⟩, ⟨rfl, ?_⟩⟩
  · exact ⟨_, _, create_exp_only_eq wall off us, rfl, rfl, rfl, hclose.1, hclose.2⟩
  · exact ⟨_, _, create_nbf_only_eq wall off us, rfl, rfl, rfl, hclose.1, hclose.2⟩
  · exact ⟨_, _, create_iat_only_eq wall off us, rfl, rfl, rfl, hclose.1, hclose.2⟩

/-- C6 witness at the concrete instant `wall = 100, off = 3600, us = 0`,
for each of the three timestamp inputs. -/
theorem C6_timezone_requirement_witness :
    (RawJwt.create none none none none (some ⟨100, 0, none⟩) none none none =
      .error (.jwtInvalidError "datetime must have tzinfo") ∧
     ∃ j dt, RawJwt.create none none none none (some ⟨100, 0, some 3600⟩) none none
        none = .ok j ∧
      j.has_expiration = true ∧ j.expiration = some dt ∧ dt.tzoffset = some 0 ∧
      (dt.timestampMicros 0 - PyDatetime.timestampMicros ⟨100, 0, some 3600⟩ 3600
         < 1000000 ∧
       PyDatetime.timestampMicros ⟨100, 0, some 3600⟩ 3600 - dt.timestampMicros 0
         < 1000000) ∧
      ((0 : Nat) = 0 → dt.timestampMicros 0 =
        PyDatetime.timestampMicros ⟨100, 0, some 3600⟩ 3600)) ∧
    (RawJwt.create none none none none none (some ⟨100, 0, none⟩) none none =
      .error (.jwtInvalidError "datetime must have tzinfo") ∧
     ∃ j dt, RawJwt.create none none none none none (some ⟨100, 0, some 3600⟩) none
        none = .ok j ∧
      j.has_not_before = true ∧ j.not_before = some dt ∧ dt.tzoffset = some 0 ∧
      (dt.timestampMicros 0 - PyDatetime.timestampMicros ⟨100, 0, some 3600⟩ 3600
         < 1000000 ∧
       PyDatetime.timestampMicros ⟨100, 0, some 3600⟩ 3600 - dt.timestampMicros 0
         < 1000000) ∧
      ((0 : Nat) = 0 → dt.timestampMicros 0 =
        PyDatetime.timestampMicros ⟨100, 0, some 3600⟩ 3600)) ∧
    (RawJwt.create none none none none none none (some ⟨100, 0, none⟩) none =
      .error (.jwtInvalidError "datetime must have tzinfo") ∧
     ∃ j dt, RawJwt.create none none none none none none (some ⟨100, 0, some 3600⟩)
        none = .ok j ∧
      j.has_issued_at = true ∧ j.issued_at = some dt ∧ dt.tzoffset = some 0 ∧
      (dt.timestampMicros 0 - PyDatetime.timestampMicros ⟨100, 0, some 3600⟩ 3600
         < 1000000 ∧
       PyDatetime.timestampMicros ⟨100, 0, some 3600⟩ 3600 - dt.timestampMicros 0
         < 1000000) ∧
      ((0 : Nat) = 0 → dt.timestampMicros 0 =
        PyDatetime.timestampMicros ⟨100, 0, some 3600⟩ 3600)) :=
  C6_timezone_requirement 100 3600 0

/-- C7 amended: the stored timestamp is the input's epoch timestamp
truncated *toward zero* (Python `int()`), which coincides with the floor
exactly on the non-negative side; for negative timestamps it is the
ceiling-like toward-zero value. -/
theorem C7_amended_truncation (wall off : Int) (us : Nat) :
    ∃ k, _from_datetime ⟨wall, us, some off⟩ = .ok k ∧
      (0 ≤ PyDatetime.timestampMicros ⟨wall, us, some off⟩ off →
        k * 1000000 ≤ PyDatetime.timestampMicros ⟨wall, us, some off⟩ off ∧
        PyDatetime.timestampMicros ⟨wall, us, some off⟩ off < k * 1000000 + 1000000 ∧
        k = Int.fdiv (PyDatetime.timestampMicros ⟨wall, us, some off⟩ off) 1000000) ∧
      (PyDatetime.timestampMicros ⟨wall, us, some off⟩ off < 0 →
        PyDatetime.timestampMicros ⟨wall, us, some off⟩ off ≤ k * 1000000 ∧
        k * 1000000 < PyDatetime.timestampMicros ⟨wall, us, some off⟩ off + 1000000) := by
  refine ⟨_, rfl, ?_, ?_⟩
  · intro hpos
    have h := (tdiv_micros_char (PyDatetime.timestampMicros ⟨wall, us, some off⟩ off)).1 hpos
    refine ⟨h.1, h.2, ?_⟩
    exact (Int.fdiv_eq_tdiv hpos (by omega)).symm
  · intro hneg
    exact (tdiv_micros_char (PyDatetime.timestampMicros ⟨wall, us, some off⟩ off)).2 hneg

/-- C7 amended witness at the pre-epoch instant of the counterexample. -/
theorem C7_amended_truncation_witness :
    ∃ k, _from_datetime ⟨-1, 500000, some 0⟩ = .ok k ∧
      (0 ≤ PyDatetime.timestampMicros ⟨-1, 500000, some 0⟩ 0 →
        k * 1000000 ≤ PyDatetime.timestampMicros ⟨-1, 500000, some 0⟩ 0 ∧
        PyDatetime.timestampMicros ⟨-1, 500000, some 0⟩ 0 < k * 1000000 + 1000000 ∧
        k = Int.fdiv (PyDatetime.timestampMicros ⟨-1, 500000, some 0⟩ 0) 1000000) ∧
      (PyDatetime.timestampMicros ⟨-1, 500000, some 0⟩ 0 < 0 →
        PyDatetime.timestampMicros ⟨-1, 500000, some 0⟩ 0 ≤ k * 1000000 ∧
        k * 1000000 < PyDatetime.timestampMicros ⟨-1, 500000, some 0⟩ 0 + 1000000) :=
  C7_amended_truncation (-1) 0 500000

/-! ## Supporting lemmas: the validators and `__init__` -/

theorem except_bind_ok {ε α β : Type} (x : α) (f : α → Except ε β) :
    (Except.ok x >>= f) = f x := rfl

theorem except_bind_err {ε α β : Type} (e : ε) (f : α → Except ε β) :
    (Except.error e >>= f : Except ε β) = Except.error e := rfl

theorem validate_string_kind (p : PyDict) (name : String) :
    RawJwt._validate_string_claim p name = .ok () ∨
    ∃ m, RawJwt._validate_string_claim p name = .error (.jwtInvalidError m) := by
  unfold RawJwt._validate_string_claim
  match p.get? name with
  | none => exact .inl rfl
  | some v =>
    cases v <;> first
      | exact .inl rfl
      | exact .inr ⟨_, rfl⟩

theorem validate_number_kind (p : PyDict) (name : String) :
    RawJwt._validate_number_claim p name = .ok () ∨
    ∃ m, RawJwt._validate_number_claim p name = .error (.jwtInvalidError m) := by
  unfold RawJwt._validate_number_claim
  match p.get? name with
  | none => exact .inl rfl
  | some v =>
    cases v <;> first
      | exact .inl rfl
      | exact .inr ⟨_, rfl⟩

theorem validate_aud_kind (p : PyDict) :
    (∃ q, RawJwt._validate_audience_claim p = .ok q) ∨
    ∃ m, RawJwt._validate_audience_claim p = .error (.jwtInvalidError m) := by
  unfold RawJwt._validate_audience_claim
  match p.get? "aud" with
  | none => exact .inl ⟨_, rfl⟩
  | some v =>
    cases v <;> first
      | exact .inl ⟨_, rfl⟩
      | exact .inr ⟨_, rfl⟩
      | skip
    case pylist l =>
      by_cases h1 : l.isEmpty <;> by_cases h2 : l.allStrings <;>
        simp [h1, h2] <;> first | exact .inl ⟨_, rfl⟩ | exact .inr ⟨_, rfl⟩

theorem validate_number_ok_iff (p : PyDict) (name : String) :
    RawJwt._validate_number_claim p name = .ok () ↔
      (∀ v, p.get? name = some v → isNumberValue v = true) := by
  unfold RawJwt._validate_number_claim
  match hg : p.get? name with
  | none => simp
  | some v =>
    cases v <;> simp [isNumberValue]

theorem validate_aud_ok_elim {p q : PyDict}
    (h : RawJwt._validate_audience_claim p = .ok q) :
    (p.get? "aud" = none ∧ q = p) ∨
    (∃ s, p.get? "aud" = some (.pystr s) ∧
      q = p.set "aud" (.pylist (.cons (.pystr s) .nil))) ∨
    (∃ l, p.get? "aud" = some (.pylist l) ∧ l.isEmpty = false ∧
      l.allStrings = true ∧ q = p) := by
  unfold RawJwt._validate_audience_claim at h
  match hg : p.get? "aud" with
  | none =>
    rw [hg] at h
    exact .inl ⟨rfl, (Except.ok.inj h).symm⟩
  | some v =>
    rw [hg] at h
    cases v with
    | pystr s => exact .inr (.inl ⟨s, rfl, (Except.ok.inj h).symm⟩)
    | pylist l =>
      by_cases h1 : l.isEmpty <;> by_cases h2 : l.allStrings <;> simp [h1, h2] at h
      exact .inr (.inr ⟨l, rfl, by simp [h1], h2, h.symm⟩)
    | pynone => simp at h
    | pybool b => simp at h
    | pyint n => simp at h
    | pyfloat m e => simp at h
    | pydict kvs => simp at h
    | pyobj t => simp at h

theorem validate_aud_intro_none {p : PyDict} (h : p.get? "aud" = none) :
    RawJwt._validate_audience_claim p = .ok p := by
  unfold RawJwt._validate_audience_claim
  rw [h]

theorem validate_aud_intro_list {p : PyDict} {l : PyList}
    (h : p.get? "aud" = some (.pylist l)) (h1 : l.isEmpty = false)
    (h2 : l.allStrings = true) :
    RawJwt._validate_audience_claim p = .ok p := by
  unfold RawJwt._validate_audience_claim
  rw [h]
  simp [h1, h2]

/-- Decompose a successful `__init__`. -/
theorem init_ok_elim {p : PyDict} {j : RawJwt} (h : RawJwt.init p = .ok j) :
    RawJwt._validate_string_claim p "iss" = .ok () ∧
    RawJwt._validate_string_claim p "sub" = .ok () ∧
    RawJwt._validate_string_claim p "jti" = .ok () ∧
    RawJwt._validate_number_claim p "exp" = .ok () ∧
    RawJwt._validate_number_claim p "nbf" = .ok () ∧
    RawJwt._validate_number_claim p "iat" = .ok () ∧
    RawJwt._validate_audience_claim p = .ok j.payload := by
  unfold RawJwt.init at h
  cases h1 : RawJwt._validate_string_claim p "iss" <;> rw [h1] at h
  case error => rw [except_bind_err] at h; exact absurd h (by simp)
  case ok u1 =>
  rw [except_bind_ok] at h
  cases h2 : RawJwt._validate_string_claim p "sub" <;> rw [h2] at h
  case error => rw [except_bind_err] at h; exact absurd h (by simp)
  case ok u2 =>
  rw [except_bind_ok] at h
  cases h3 : RawJwt._validate_string_claim p "jti" <;> rw [h3] at h
  case error => rw [except_bind_err] at h; exact absurd h (by simp)
  case ok u3 =>
  rw [except_bind_ok] at h
  cases h4 : RawJwt._validate_number_claim p "exp" <;> rw [h4] at h
  case error => rw [except_bind_err] at h; exact absurd h (by simp)
  case ok u4 =>
  rw [except_bind_ok] at h
  cases h5 : RawJwt._validate_number_claim p "nbf" <;> rw [h5] at h
  case error => rw [except_bind_err] at h; exact absurd h (by simp)
  case ok u5 =>
  rw [except_bind_ok] at h
  cases h6 : RawJwt._validate_number_claim p "iat" <;> rw [h6] at h
  case error => rw [except_bind_err] at h; exact absurd h (by simp)
  case ok u6 =>
  rw [except_bind_ok] at h
  cases h7 : RawJwt._validate_audience_claim p <;> rw [h7] at h
  case error => rw [except_bind_err] at h; exact absurd h (by simp)
  case ok q =>
  rw [except_bind_ok] at h
  have hq : q = j.payload := by
    have hje := Except.ok.inj h
    rw [← hje]
  cases u1; cases u2; cases u3; cases u4; cases u5; cases u6
  exact ⟨rfl, rfl, rfl, rfl, rfl, rfl, by rw [hq]⟩

/-- Reassemble a successful `__init__`. -/
theorem init_ok_intro {p q : PyDict}
    (h1 : RawJwt._validate_string_claim p "iss" = .ok ())
    (h2 : RawJwt._validate_string_claim p "sub" = .ok ())
    (h3 : RawJwt._validate_string_claim p "jti" = .ok ())
    (h4 : RawJwt._validate_number_claim p "exp" = .ok ())
    (h5 : RawJwt._validate_number_claim p "nbf" = .ok ())
    (h6 : RawJwt._validate_number_claim p "iat" = .ok ())
    (h7 : RawJwt._validate_audience_claim p = .ok q) :
    RawJwt.init p = .ok ⟨q⟩ := by
  unfold RawJwt.init
  rw [h1, except_bind_ok, h2, except_bind_ok, h3, except_bind_ok,
    h4, except_bind_ok, h5, except_bind_ok, h6, except_bind_ok,
    h7, except_bind_ok]

/-- `__init__` fails only with `JwtInvalidError`s. -/
theorem init_err_kind (p : PyDict) :
    (∃ j, RawJwt.init p = .ok j) ∨ isJwtInvalid (RawJwt.init p) = true := by
  unfold RawJwt.init
  rcases validate_string_kind p "iss" with h1 | ⟨m, h1⟩
  · rw [h1, except_bind_ok]
    rcases validate_string_kind p "sub" with h2 | ⟨m, h2⟩
    · rw [h2, except_bind_ok]
      rcases validate_string_kind p "jti" with h3 | ⟨m, h3⟩
      · rw [h3, except_bind_ok]
        rcases validate_number_kind p "exp" with h4 | ⟨m, h4⟩
        · rw [h4, except_bind_ok]
          rcases validate_number_kind p "nbf" with h5 | ⟨m, h5⟩
          · rw [h5, except_bind_ok]
            rcases validate_number_kind p "iat" with h6 | ⟨m, h6⟩
            · rw [h6, except_bind_ok]
              rcases validate_aud_kind p with ⟨q, h7⟩ | ⟨m, h7⟩
              · rw [h7, except_bind_ok]
                exact .inl ⟨_, rfl⟩
              · rw [h7, except_bind_err]
                exact .inr rfl
            · rw [h6, except_bind_err]
              exact .inr rfl
          · rw [h5, except_bind_err]
            exact .inr rfl
        · rw [h4, except_bind_err]
          exact .inr rfl
      · rw [h3, except_bind_err]
        exact .inr rfl
    · rw [h2, except_bind_err]
      exact .inr rfl
  · rw [h1, except_bind_err]
    exact .inr rfl

/-- `__init__` leaves every claim other than `aud` untouched. -/
theorem init_nonaud {p : PyDict} {j : RawJwt} (h : RawJwt.init p = .ok j)
    (k : String) (hk : k ≠ "aud") : j.payload.get? k = p.get? k := by
  rcases validate_aud_ok_elim (init_ok_elim h).2.2.2.2.2.2 with
    ⟨_, hq⟩ | ⟨s, _, hq⟩ | ⟨l, _, _, _, hq⟩
  · rw [hq]
  · rw [hq]
    exact PyDict.get?_set_ne p "aud" k _ hk
  · rw [hq]

/-! ## Supporting lemmas: the builder chain -/

theorem PyDict.get?_append_general (d : PyDict) (k : String) (v : PyValue) (k2 : String) :
    (d.append k v).get? k2 =
      (match d.get? k2 with
       | some w => some w
       | none => if k = k2 then some v else none) := by
  induction d using PyDict.spineInduction with
  | hnil => simp [PyDict.append, PyDict.get?]
  | hcons k3 w tl ih =>
    by_cases h : k3 = k2 <;> simp [PyDict.append, PyDict.get?, h, ih]

theorem validate_custom_ok_iff (name : String) :
    _validate_custom_claim_name name = .ok () ↔ name ∉ _REGISTERED_NAMES := by
  unfold _validate_custom_claim_name
  by_cases h : name ∈ _REGISTERED_NAMES <;> simp [h]

theorem validate_custom_err (name : String) (h : name ∈ _REGISTERED_NAMES) :
    _validate_custom_claim_name name =
      .error (.jwtInvalidError ("registered name " ++ name ++ " cannot be custom claim name")) := by
  unfold _validate_custom_claim_name
  simp [h]

theorem add_custom_ok_cons {p : PyDict} {name : String} {v : PyValue} {tl : PyDict}
    {q : PyDict} (h : RawJwt.add_custom_claims p (.cons name v tl) = .ok q) :
    name ∉ _REGISTERED_NAMES ∧
    ∃ stored, RawJwt.store_custom_value name v = .ok stored ∧
      RawJwt.add_custom_claims (p.append name stored) tl = .ok q := by
  unfold RawJwt.add_custom_claims at h
  cases h1 : _validate_custom_claim_name name <;> rw [h1] at h
  case error => rw [except_bind_err] at h; exact absurd h (by simp)
  case ok u =>
  rw [except_bind_ok] at h
  cases h2 : RawJwt.store_custom_value name v <;> rw [h2] at h
  case error => rw [except_bind_err] at h; exact absurd h (by simp)
  case ok stored =>
  rw [except_bind_ok] at h
  cases u
  exact ⟨(validate_custom_ok_iff name).1 h1, stored, rfl, h⟩

theorem add_custom_preserves_reg (cc : PyDict) : ∀ (p q : PyDict),
    RawJwt.add_custom_claims p cc = .ok q → ∀ k, k ∈ _REGISTERED_NAMES →
    q.get? k = p.get? k := by
  induction cc using PyDict.spineInduction with
  | hnil =>
    intro p q h k _
    unfold RawJwt.add_custom_claims at h
    rw [← Except.ok.inj h]
  | hcons name v tl ih =>
    intro p q h k hk
    obtain ⟨hreg, stored, _, hrest⟩ := add_custom_ok_cons h
    have hne : k ≠ name := fun he => hreg (he ▸ hk)
    rw [ih _ _ hrest k hk, PyDict.get?_append_ne _ _ _ _ hne]

/-- The custom-claims loop always fails when the mapping holds a
registered name. -/
theorem add_custom_fails_on_registered (cc : PyDict) : ∀ (p : PyDict) (name : String),
    cc.member name = true → name ∈ _REGISTERED_NAMES →
    ∃ e, RawJwt.add_custom_claims p cc = .error e := by
  induction cc using PyDict.spineInduction with
  | hnil => intro p name h _; simp [PyDict.member] at h
  | hcons k v tl ih =>
    intro p name h hreg
    unfold RawJwt.add_custom_claims
    by_cases hk : k ∈ _REGISTERED_NAMES
    · exact ⟨_, by rw [validate_custom_err k hk, except_bind_err]⟩
    · have h1 : _validate_custom_claim_name k = .ok () := (validate_custom_ok_iff k).2 hk
      rw [h1, except_bind_ok]
      have hmem : tl.member name = true := by
        simp [PyDict.member] at h
        rcases h with h | h
        · exact absurd (h ▸ hreg) hk
        · exact h
      cases h2 : RawJwt.store_custom_value k v with
      | error e => exact ⟨e, by rw [except_bind_err]⟩
      | ok stored =>
        rw [except_bind_ok]
        exact ih _ name hmem hreg

theorem step_expiration_elim {e : Option PyDatetime} {p q : PyDict}
    (h : RawJwt.step_expiration e p = .ok q) :
    q = p ∨ ∃ n, q = p.append "exp" (.pyint n) := by
  cases e with
  | none =>
    simp only [RawJwt.step_expiration] at h
    exact .inl (Except.ok.inj h).symm
  | some t =>
    simp only [RawJwt.step_expiration] at h
    cases hf : _from_datetime t <;> rw [hf] at h
    case error => rw [except_bind_err] at h; exact absurd h (by simp)
    case ok n =>
      rw [except_bind_ok] at h
      exact .inr ⟨n, (Except.ok.inj h).symm⟩

theorem step_not_before_elim {e : Option PyDatetime} {p q : PyDict}
    (h : RawJwt.step_not_before e p = .ok q) :
    q = p ∨ ∃ n, q = p.append "nbf" (.pyint n) := by
  cases e with
  | none =>
    simp only [RawJwt.step_not_before] at h
    exact .inl (Except.ok.inj h).symm
  | some t =>
    simp only [RawJwt.step_not_before] at h
    cases hf : _from_datetime t <;> rw [hf] at h
    case error => rw [except_bind_err] at h; exact absurd h (by simp)
    case ok n =>
      rw [except_bind_ok] at h
      exact .inr ⟨n, (Except.ok.inj h).symm⟩

theorem step_issued_at_elim {e : Option PyDatetime} {p q : PyDict}
    (h : RawJwt.step_issued_at e p = .ok q) :
    q = p ∨ ∃ n, q = p.append "iat" (.pyint n) := by
  cases e with
  | none =>
    simp only [RawJwt.step_issued_at] at h
    exact .inl (Except.ok.inj h).symm
  | some t =>
    simp only [RawJwt.step_issued_at] at h
    cases hf : _from_datetime t <;> rw [hf] at h
    case error => rw [except_bind_err] at h; exact absurd h (by simp)
    case ok n =>
      rw [except_bind_ok] at h
      exact .inr ⟨n, (Except.ok.inj h).symm⟩

theorem step_customs_preserves_reg {cc : Option PyDict} {p q : PyDict}
    (h : RawJwt.step_customs cc p = .ok q) (k : String) (hk : k ∈ _REGISTERED_NAMES) :
    q.get? k = p.get? k := by
  unfold RawJwt.step_customs at h
  cases cc with
  | none => rw [← Except.ok.inj h]
  | some kvs =>
    by_cases he : kvs.isEmpty <;> simp [he] at h
    · rw [show q = p from (Except.ok.inj h).symm]
    · exact add_custom_preserves_reg kvs p q h k hk

theorem step_customs_none_or_acc {cc : Option PyDict} {p q : PyDict}
    (h : RawJwt.step_customs cc p = .ok q) :
    q = p ∨ ∃ kvs, cc = some kvs ∧ kvs.isEmpty = false ∧
      RawJwt.add_custom_claims p kvs = .ok q := by
  unfold RawJwt.step_customs at h
  cases cc with
  | none => exact .inl (Except.ok.inj h).symm
  | some kvs =>
    by_cases he : kvs.isEmpty <;> simp [he] at h
    · exact .inl (Except.ok.inj h).symm
    · exact .inr ⟨kvs, rfl, by simp [he], h⟩

theorem create_payload_ok_elim {issuer subject jwt_id : Option String}
    {audiences : Option PyValue} {expiration not_before issued_at : Option PyDatetime}
    {custom_claims : Option PyDict} {p8 : PyDict}
    (h : RawJwt.create_payload issuer subject audiences jwt_id expiration not_before
      issued_at custom_claims = .ok p8) :
    ∃ p5 p6 p7,
      RawJwt.step_expiration expiration (RawJwt.step_audiences audiences
        (RawJwt.step_jwt_id jwt_id (RawJwt.step_subject subject (RawJwt.step_issuer issuer .nil)))) = .ok p5 ∧
      RawJwt.step_not_before not_before p5 = .ok p6 ∧
      RawJwt.step_issued_at issued_at p6 = .ok p7 ∧
      RawJwt.step_customs custom_claims p7 = .ok p8 := by
  simp only [RawJwt.create_payload] at h
  cases h5 : RawJwt.step_expiration expiration (RawJwt.step_audiences audiences
    (RawJwt.step_jwt_id jwt_id (RawJwt.step_subject subject (RawJwt.step_issuer issuer .nil)))) <;> rw [h5] at h
  case error => rw [except_bind_err] at h; exact absurd h (by simp)
  case ok p5 =>
  rw [except_bind_ok] at h
  cases h6 : RawJwt.step_not_before not_before p5 <;> rw [h6] at h
  case error => rw [except_bind_err] at h; exact absurd h (by simp)
  case ok p6 =>
  rw [except_bind_ok] at h
  cases h7 : RawJwt.step_issued_at issued_at p6 <;> rw [h7] at h
  case error => rw [except_bind_err] at h; exact absurd h (by simp)
  case ok p7 =>
  rw [except_bind_ok] at h
  exact ⟨p5, p6, p7, rfl, h6, h7, h⟩

theorem create_ok_elim {issuer subject jwt_id : Option String}
    {audiences : Option PyValue} {expiration not_before issued_at : Option PyDatetime}
    {custom_claims : Option PyDict} {j : RawJwt}
    (h : RawJwt.create issuer subject audiences jwt_id expiration not_before
      issued_at custom_claims = .ok j) :
    ∃ p8, RawJwt.create_payload issuer subject audiences jwt_id expiration not_before
      issued_at custom_claims = .ok p8 ∧ RawJwt.init p8 = .ok j := by
  unfold RawJwt.create at h
  cases hc : RawJwt.create_payload issuer subject audiences jwt_id expiration not_before
    issued_at custom_claims <;> rw [hc] at h
  case error => rw [except_bind_err] at h; exact absurd h (by simp)
  case ok p8 =>
  rw [except_bind_ok] at h
  exact ⟨p8, rfl, h⟩

theorem step_issuer_get_ne (i : Option String) (p : PyDict) (k : String)
    (hk : k ≠ "iss") : (RawJwt.step_issuer i p).get? k = p.get? k := by
  cases i with
  | none => rfl
  | some s =>
    unfold RawJwt.step_issuer
    by_cases h : s = "" <;>
      simp [h, PyDict.get?_append_ne _ _ _ _ hk]

theorem step_subject_get_ne (i : Option String) (p : PyDict) (k : String)
    (hk : k ≠ "sub") : (RawJwt.step_subject i p).get? k = p.get? k := by
  cases i with
  | none => rfl
  | some s =>
    unfold RawJwt.step_subject
    by_cases h : s = "" <;>
      simp [h, PyDict.get?_append_ne _ _ _ _ hk]

theorem step_jwt_id_get_ne (i : Option String) (p : PyDict) (k : String)
    (hk : k ≠ "jti") : (RawJwt.step_jwt_id i p).get? k = p.get? k := by
  cases i with
  | none => rfl
  | some s =>
    unfold RawJwt.step_jwt_id
    simp [PyDict.get?_append_ne _ _ _ _ hk]

theorem step_audiences_get_ne (a : Option PyValue) (p : PyDict) (k : String)
    (hk : k ≠ "aud") : (RawJwt.step_audiences a p).get? k = p.get? k := by
  cases a with
  | none => rfl
  | some v =>
    unfold RawJwt.step_audiences
    simp [PyDict.get?_append_ne _ _ _ _ hk]

theorem step_issuer_member_ne (i : Option String) (p : PyDict) (k : String)
    (hk : k ≠ "iss") : (RawJwt.step_issuer i p).member k = p.member k := by
  cases i with
  | none => rfl
  | some s =>
    unfold RawJwt.step_issuer
    by_cases h : s = "" <;>
      simp [h, PyDict.member_append, Ne.symm hk]

theorem step_subject_member_ne (i : Option String) (p : PyDict) (k : String)
    (hk : k ≠ "sub") : (RawJwt.step_subject i p).member k = p.member k := by
  cases i with
  | none => rfl
  | some s =>
    unfold RawJwt.step_subject
    by_cases h : s = "" <;>
      simp [h, PyDict.member_append, Ne.symm hk]

theorem step_jwt_id_member_ne (i : Option String) (p : PyDict) (k : String)
    (hk : k ≠ "jti") : (RawJwt.step_jwt_id i p).member k = p.member k := by
  cases i with
  | none => rfl
  | some s =>
    unfold RawJwt.step_jwt_id
    simp [PyDict.member_append, Ne.symm hk]

/-- The pre-timestamp payload never holds `exp`, `nbf` or `iat`. -/
theorem base4_get_time_none (issuer subject : Option String)
    (audiences : Option PyValue) (jwt_id : Option String) (nm : String)
    (hname : nm = "exp" ∨ nm = "nbf" ∨ nm = "iat") :
    (RawJwt.step_audiences audiences (RawJwt.step_jwt_id jwt_id
      (RawJwt.step_subject subject (RawJwt.step_issuer issuer .nil)))).get? nm = none := by
  have h1 : nm ≠ "iss" := by rcases hname with rfl | rfl | rfl <;> decide
  have h2 : nm ≠ "sub" := by rcases hname with rfl | rfl | rfl <;> decide
  have h3 : nm ≠ "jti" := by rcases hname with rfl | rfl | rfl <;> decide
  have h4 : nm ≠ "aud" := by rcases hname with rfl | rfl | rfl <;> decide
  rw [step_audiences_get_ne _ _ _ h4, step_jwt_id_get_ne _ _ _ h3,
    step_subject_get_ne _ _ _ h2, step_issuer_get_ne _ _ _ h1]
  rfl

/-- On the builder path the three timestamp claims are always stored as
Python `int`s (whole seconds). -/
theorem create_payload_reg_int {issuer subject jwt_id : Option String}
    {audiences : Option PyValue} {expiration not_before issued_at : Option PyDatetime}
    {custom_claims : Option PyDict} {p8 : PyDict}
    (h : RawJwt.create_payload issuer subject audiences jwt_id expiration not_before
      issued_at custom_claims = .ok p8)
    (name : String) (hname : name = "exp" ∨ name = "nbf" ∨ name = "iat") :
    ∀ v, p8.get? name = some v → ∃ n, v = .pyint n := by
  obtain ⟨p5, p6, p7, h5, h6, h7, h8⟩ := create_payload_ok_elim h
  intro v hv
  have hreg : name ∈ _REGISTERED_NAMES := by
    rcases hname with rfl | rfl | rfl <;> decide
  rw [step_customs_preserves_reg h8 name hreg] at hv
  have hbase := base4_get_time_none issuer subject audiences jwt_id name hname
  rcases step_expiration_elim h5 with rfl | ⟨n5, rfl⟩ <;>
    rcases step_not_before_elim h6 with rfl | ⟨n6, rfl⟩ <;>
      rcases step_issued_at_elim h7 with rfl | ⟨n7, rfl⟩ <;>
        rcases hname with rfl | rfl | rfl <;>
          simp [PyDict.get?_append_general, hbase] at hv <;>
            first
              | exact ⟨_, hv.symm⟩
              | exact ⟨_, hv⟩

/-- A validated payload's `aud`, when present, is a non-empty list of
strings. -/
theorem init_aud_shape {p : PyDict} {j : RawJwt} (h : RawJwt.init p = .ok j) :
    ∀ v, j.payload.get? "aud" = some v →
      ∃ l, v = .pylist l ∧ l.isEmpty = false ∧ l.allStrings = true := by
  intro v hv
  rcases validate_aud_ok_elim (init_ok_elim h).2.2.2.2.2.2 with
    ⟨hn, hq⟩ | ⟨s, hs, hq⟩ | ⟨l, hl, h1, h2, hq⟩
  · rw [hq, hn] at hv
    exact absurd hv (by simp)
  · rw [hq, PyDict.get?_set_self] at hv
    exact ⟨_, (Option.some.inj hv).symm, rfl, rfl⟩
  · rw [hq, hl] at hv
    exact ⟨l, (Option.some.inj hv).symm, h1, h2⟩

/-- `__init__` normalizes a bare-string `aud` into a singleton list. -/
theorem init_aud_normalizes {p : PyDict} {j : RawJwt} {s : String}
    (hs : p.get? "aud" = some (.pystr s)) (h : RawJwt.init p = .ok j) :
    j.payload.get? "aud" = some (.pylist (.cons (.pystr s) .nil)) := by
  rcases validate_aud_ok_elim (init_ok_elim h).2.2.2.2.2.2 with
    ⟨hn, hq⟩ | ⟨s2, hs2, hq⟩ | ⟨l, hl, h1, h2, hq⟩
  · rw [hn] at hs
    exact absurd hs (by simp)
  · have : PyValue.pystr s2 = .pystr s := Option.some.inj (hs2 ▸ hs)
    rw [hq, PyDict.get?_set_self]
    rw [PyValue.pystr.inj this]
  · rw [hl] at hs
    exact absurd (Option.some.inj hs) (by simp)

/-- An `aud` value that is neither a string nor a non-empty list of
strings makes `__init__` fail with the invalid-claim error. -/
theorem init_aud_rejects {p : PyDict} {v : PyValue}
    (hv : p.get? "aud" = some v) (hbad : isStrOrNonemptyStrList v = false) :
    isJwtInvalid (RawJwt.init p) = true := by
  rcases init_err_kind p with ⟨j, hj⟩ | hk
  · exfalso
    rcases validate_aud_ok_elim (init_ok_elim hj).2.2.2.2.2.2 with
      ⟨hn, _⟩ | ⟨s, hs, _⟩ | ⟨l, hl, h1, h2, _⟩
    · rw [hn] at hv
      exact absurd hv (by simp)
    · rw [hs] at hv
      rw [← Option.some.inj hv] at hbad
      simp [isStrOrNonemptyStrList] at hbad
    · rw [hl] at hv
      rw [← Option.some.inj hv] at hbad
      simp [isStrOrNonemptyStrList, h1, h2] at hbad
  · exact hk

/-- C3 amended: if `exp`, `nbf` or `iat` is present, its value is a
number in Python's `isinstance((int, float))` sense (which also admits
`bool`); the parse path accepts any such number, fractional values
included, and only a non-number is rejected -- with the invalid-claim
error.  The builder path always stores whole-second `int`s. -/
theorem C3_amended_number_claims (p : PyDict) (name : String)
    (hname : name = "exp" ∨ name = "nbf" ∨ name = "iat") :
    (∀ j, RawJwt.init p = .ok j → ∀ v, j.payload.get? name = some v →
      isNumberValue v = true) ∧
    (∀ v, p.get? name = some v → isNumberValue v = false →
      isJwtInvalid (RawJwt.init p) = true) ∧
    (∀ issuer subject audiences jwt_id expiration not_before issued_at custom_claims j,
      RawJwt.create issuer subject audiences jwt_id expiration not_before issued_at
        custom_claims = .ok j →
      ∀ v, j.payload.get? name = some v → ∃ n, v = .pyint n) := by
  have hnum : ∀ q (j : RawJwt), RawJwt.init q = .ok j →
      RawJwt._validate_number_claim q name = .ok () := by
    intro q j hj
    obtain ⟨_, _, _, h4, h5, h6, _⟩ := init_ok_elim hj
    rcases hname with rfl | rfl | rfl
    · exact h4
    · exact h5
    · exact h6
  have hnaud : name ≠ "aud" := by rcases hname with rfl | rfl | rfl <;> decide
  refine ⟨?_, ?_, ?_⟩
  · intro j hj v hv
    rw [init_nonaud hj name hnaud] at hv
    exact (validate_number_ok_iff p name).1 (hnum p j hj) v hv
  · intro v hv hbad
    rcases init_err_kind p with ⟨j, hj⟩ | hk
    · exact absurd ((validate_number_ok_iff p name).1 (hnum p j hj) v hv) (by simp [hbad])
    · exact hk
  · intro issuer subject audiences jwt_id expiration not_before issued_at custom_claims j hc v hv
    obtain ⟨p8, hp8, hinit⟩ := create_ok_elim hc
    rw [init_nonaud hinit name hnaud] at hv
    exact create_payload_reg_int hp8 name hname v hv

/-- C3 amended witness: a parsed claim set with `exp = 123` (whole
seconds) exercises the invariant; `exp = true` exercises nothing worse,
and a string `exp` is rejected. -/
theorem C3_amended_number_claims_witness :
    ((∀ j, RawJwt.init (.cons "exp" (.pyint 123) .nil) = .ok j →
        ∀ v, j.payload.get? "exp" = some v → isNumberValue v = true) ∧
     (∀ v, PyDict.get? (.cons "exp" (.pyint 123) .nil) "exp" = some v →
        isNumberValue v = false →
        isJwtInvalid (RawJwt.init (.cons "exp" (.pyint 123) .nil)) = true) ∧
     (∀ issuer subject audiences jwt_id expiration not_before issued_at custom_claims j,
        RawJwt.create issuer subject audiences jwt_id expiration not_before issued_at
          custom_claims = .ok j →
        ∀ v, j.payload.get? "exp" = some v → ∃ n, v = .pyint n)) :=
  C3_amended_number_claims (.cons "exp" (.pyint 123) .nil) "exp" (.inl rfl)

/-- C4: on every construction path, a present `aud` is a non-empty list
of strings; a bare-string audience (whether in a parsed payload or
passed to the builder) is normalized to a singleton list by the shared
validator; any other shape is rejected with the invalid-claim error. -/
theorem C4_audience_invariant (p : PyDict) :
    (∀ j, RawJwt.init p = .ok j → ∀ v, j.payload.get? "aud" = some v →
      ∃ l, v = .pylist l ∧ l.isEmpty = false ∧ l.allStrings = true) ∧
    (∀ s j, p.get? "aud" = some (.pystr s) → RawJwt.init p = .ok j →
      j.payload.get? "aud" = some (.pylist (.cons (.pystr s) .nil))) ∧
    (∀ v, p.get? "aud" = some v → isStrOrNonemptyStrList v = false →
      isJwtInvalid (RawJwt.init p) = true) ∧
    (∀ issuer subject jwt_id expiration not_before issued_at custom_claims s j,
      RawJwt.create issuer subject (some (.pystr s)) jwt_id expiration not_before
        issued_at custom_claims = .ok j →
      j.payload.get? "aud" = some (.pylist (.cons (.pystr s) .nil))) := by
  refine ⟨fun j hj => init_aud_shape hj,
    fun s j hs hj => init_aud_normalizes hs hj,
    fun v hv hbad => init_aud_rejects hv hbad, ?_⟩
  intro issuer subject jwt_id expiration not_before issued_at custom_claims s j hc
  obtain ⟨p8, hp8, hinit⟩ := create_ok_elim hc
  obtain ⟨p5, p6, p7, h5, h6, h7, h8⟩ := create_payload_ok_elim hp8
  have hmem : (RawJwt.step_jwt_id jwt_id (RawJwt.step_subject subject
      (RawJwt.step_issuer issuer .nil))).member "aud" = false := by
    rw [step_jwt_id_member_ne _ _ _ (by decide),
      step_subject_member_ne _ _ _ (by decide),
      step_issuer_member_ne _ _ _ (by decide)]
    rfl
  have hbase : (RawJwt.step_audiences (some (.pystr s)) (RawJwt.step_jwt_id jwt_id
      (RawJwt.step_subject subject (RawJwt.step_issuer issuer .nil)))).get? "aud" =
      some (.pystr s) := by
    unfold RawJwt.step_audiences
    exact PyDict.get?_append_self _ _ _ hmem
  have hp8aud : p8.get? "aud" = some (.pystr s) := by
    rw [step_customs_preserves_reg h8 "aud" (by decide)]
    rcases step_expiration_elim h5 with rfl | ⟨n5, rfl⟩ <;>
      rcases step_not_before_elim h6 with rfl | ⟨n6, rfl⟩ <;>
        rcases step_issued_at_elim h7 with rfl | ⟨n7, rfl⟩ <;>
          simp [PyDict.get?_append_ne _ _ _ _ (by decide : ("aud" : String) ≠ "iat"),
            PyDict.get?_append_ne _ _ _ _ (by decide : ("aud" : String) ≠ "nbf"),
            PyDict.get?_append_ne _ _ _ _ (by decide : ("aud" : String) ≠ "exp"), hbase]
  exact init_aud_normalizes hp8aud hinit

/-- C4 witness: the shared-validator clauses at a concrete normalized
payload and the builder clause at audience `"example.com"`. -/
theorem C4_audience_invariant_witness :
    ((∀ j, RawJwt.init (.cons "aud" (.pystr "example.com") .nil) = .ok j →
        ∀ v, j.payload.get? "aud" = some v →
        ∃ l, v = .pylist l ∧ l.isEmpty = false ∧ l.allStrings = true) ∧
     (∀ s j, PyDict.get? (.cons "aud" (.pystr "example.com") .nil) "aud" = some (.pystr s) →
        RawJwt.init (.cons "aud" (.pystr "example.com") .nil) = .ok j →
        j.payload.get? "aud" = some (.pylist (.cons (.pystr s) .nil))) ∧
     (∀ v, PyDict.get? (.cons "aud" (.pystr "example.com") .nil) "aud" = some v →
        isStrOrNonemptyStrList v = false →
        isJwtInvalid (RawJwt.init (.cons "aud" (.pystr "example.com") .nil)) = true) ∧
     (∀ issuer subject jwt_id expiration not_before issued_at custom_claims s j,
        RawJwt.create issuer subject (some (.pystr s)) jwt_id expiration not_before
          issued_at custom_claims = .ok j →
        j.payload.get? "aud" = some (.pylist (.cons (.pystr s) .nil)))) :=
  C4_audience_invariant (.cons "aud" (.pystr "example.com") .nil)

/-! ## Supporting lemmas: decimal digits -/

theorem digitsToNat_append (xs : List Char) : ∀ (ys : List Char) (acc : Nat),
    digitsToNat acc (xs ++ ys) = digitsToNat (digitsToNat acc xs) ys := by
  induction xs with
  | nil => intro ys acc; rfl
  | cons c tl ih => intro ys acc; exact ih ys (acc * 10 + digitVal c)

theorem digitChar_spec (d : Nat) (h : d < 10) :
    isDigitCh (digitChar d) = true ∧ digitVal (digitChar d) = d ∧
      (1 ≤ d → digitChar d ≠ '0') := by
  interval_cases d <;> refine ⟨by decide, by decide, by decide⟩

theorem natDigitsAux_spec : ∀ n fuel, n < fuel →
    (∀ c ∈ natDigitsAux fuel n, isDigitCh c = true) ∧
    (∀ acc, digitsToNat acc (natDigitsAux fuel n) =
      acc * 10 ^ (natDigitsAux fuel n).length + n) ∧
    (∃ c cs, natDigitsAux fuel n = c :: cs ∧ (1 ≤ n → c ≠ '0')) := by
  intro n
  induction n using Nat.strong_induction_on with
  | _ n ih =>
    intro fuel hfuel
    match fuel with
    | 0 => omega
    | fuel + 1 =>
      have hunf : natDigitsAux (fuel + 1) n =
          (if n < 10 then [digitChar n]
           else natDigitsAux fuel (n / 10) ++ [digitChar (n % 10)]) := rfl
      by_cases hn : n < 10
      · rw [hunf, if_pos hn]
        have hd := digitChar_spec n hn
        refine ⟨?_, ?_, ?_⟩
        · intro c hc
          simp at hc
          rw [hc]
          exact hd.1
        · intro acc
          show acc * 10 + digitVal (digitChar n) =
            acc * 10 ^ ([digitChar n]).length + n
          rw [hd.2.1]
          simp
        · exact ⟨digitChar n, [], rfl, hd.2.2⟩
      · rw [hunf, if_neg hn]
        have hq : n / 10 < n := Nat.div_lt_self (by omega) (by omega)
        have hqf : n / 10 < fuel := by
          have h1 : n / 10 * 10 ≤ n := Nat.div_mul_le_self n 10
          omega
        obtain ⟨hdig, hval, c, cs, hcons, hzero⟩ := ih (n / 10) hq fuel hqf
        have hr := digitChar_spec (n % 10) (Nat.mod_lt n (by omega))
        have hmod := Nat.div_add_mod n 10
        refine ⟨?_, ?_, ?_⟩
        · intro d hd
          simp at hd
          rcases hd with hd | hd
          · exact hdig d hd
          · rw [hd]
            exact hr.1
        · intro acc
          rw [digitsToNat_append]
          show digitsToNat acc (natDigitsAux fuel (n / 10)) * 10 + digitVal (digitChar (n % 10)) =
            acc * 10 ^ (natDigitsAux fuel (n / 10) ++ [digitChar (n % 10)]).length + n
          rw [hval acc, hr.2.1, List.length_append, List.length_singleton, pow_succ]
          ring_nf
          omega
        · refine ⟨c, cs ++ [digitChar (n % 10)], by rw [hcons]; rfl, ?_⟩
          intro _
          exact hzero (by omega)

theorem natDigits_spec (n : Nat) :
    (∀ c ∈ natDigits n, isDigitCh c = true) ∧
    (digitsToNat 0 (natDigits n) = n) ∧
    (∃ c cs, natDigits n = c :: cs ∧ (1 ≤ n → c ≠ '0')) := by
  obtain ⟨h1, h2, h3⟩ := natDigitsAux_spec n (n + 1) (by omega)
  exact ⟨h1, by simpa using h2 0, h3⟩

theorem takeDigits_append (ds : List Char) : ∀ rest,
    (∀ c ∈ ds, isDigitCh c = true) →
    (∀ c, rest.head? = some c → isDigitCh c = false) →
    takeDigits (ds ++ rest) = (ds, rest) := by
  induction ds with
  | nil =>
    intro rest _ hrest
    match rest with
    | [] => rfl
    | c :: t =>
      have := hrest c rfl
      simp [takeDigits, this]
  | cons c tl ih =>
    intro rest hds hrest
    have hc : isDigitCh c = true := hds c (by simp)
    simp [takeDigits, hc, ih rest (fun d hd => hds d (by simp [hd])) hrest]

/-! ## Supporting lemmas: the number token -/

theorem followOk_head {rest : List Char} (hf : followOk rest = true) :
    ∀ c, rest.head? = some c →
      isDigitCh c = false ∧ c ≠ '.' ∧ c ≠ 'e' ∧ c ≠ 'E' := by
  intro c hc
  match rest with
  | [] => simp at hc
  | d :: t =>
    have hd : d = c := by simpa using hc
    subst hd
    simp [followOk] at hf
    rcases hf with (rfl | rfl) | rfl <;> refine ⟨by decide, by decide, by decide, by decide⟩

theorem splitFrac_followOk {rest : List Char} (hf : followOk rest = true) :
    splitFrac rest = (0, 0, rest) := by
  match rest with
  | [] => rfl
  | d :: t =>
    have hd := followOk_head hf d rfl
    simp [splitFrac, hd.2.1]

theorem splitExp_followOk {rest : List Char} (hf : followOk rest = true) :
    splitExp rest = (none, rest) := by
  match rest with
  | [] => rfl
  | d :: t =>
    have hd := followOk_head hf d rfl
    simp [splitExp, hd.2.2.1, hd.2.2.2]

theorem finishNumber_int (neg : Bool) (intPart : Nat) {rest : List Char}
    (hf : followOk rest = true) :
    finishNumber neg intPart rest =
      .ok (.pyint (if neg then -(intPart : Int) else (intPart : Int)), rest) := by
  simp [finishNumber, splitFrac_followOk hf, splitExp_followOk hf]

theorem digit_ne_minus {c : Char} (h : isDigitCh c = true) : c ≠ '-' := by
  intro he
  rw [he] at h
  exact absurd h (by decide)

theorem digit_ne_plus {c : Char} (h : isDigitCh c = true) : c ≠ '+' := by
  intro he
  rw [he] at h
  exact absurd h (by decide)

theorem parseNumMag_nat (neg : Bool) (m : Nat) {rest : List Char}
    (hf : followOk rest = true) :
    ∀ c cs, natDigits m = c :: cs →
    parseNumMag neg c (cs ++ rest) =
      .ok (.pyint (if neg then -(m : Int) else (m : Int)), rest) := by
  intro c cs hnd
  obtain ⟨hdig, hval, c2, cs2, hcons, hzero⟩ := natDigits_spec m
  by_cases hm : m = 0
  · subst hm
    have h0 : natDigits 0 = ['0'] := rfl
    rw [h0] at hnd
    injection hnd with h1 h2
    rw [← h1, ← h2]
    show finishNumber neg 0 rest = _
    exact finishNumber_int neg 0 hf
  · have hc0 : c ≠ '0' := by
      rw [hnd] at hcons
      rw [(List.cons.inj hcons).1]
      exact hzero (by omega)
    have hcd : isDigitCh c = true := hdig c (by simp [hnd])
    have htake : takeDigits (c :: (cs ++ rest)) = (natDigits m, rest) := by
      have : c :: (cs ++ rest) = natDigits m ++ rest := by simp [hnd]
      rw [this]
      exact takeDigits_append (natDigits m) rest hdig
        (fun d hd => (followOk_head hf d hd).1)
    simp only [parseNumMag, if_neg hc0, hcd, if_pos rfl, htake]
    rw [hval]
    exact finishNumber_int neg m hf

theorem parseNumMag_nat_pos (m : Nat) {rest : List Char}
    (hf : followOk rest = true) :
    ∀ c cs, natDigits m = c :: cs →
    parseNumMag false c (cs ++ rest) = .ok (.pyint (m : Int), rest) :=
  fun c cs hnd => Eq.trans (parseNumMag_nat false m hf c cs hnd) rfl

theorem parseNumMag_nat_neg (m : Nat) {rest : List Char}
    (hf : followOk rest = true) :
    ∀ c cs, natDigits m = c :: cs →
    parseNumMag true c (cs ++ rest) = .ok (.pyint (-(m : Int)), rest) :=
  fun c cs hnd => Eq.trans (parseNumMag_nat true m hf c cs hnd) rfl

theorem parseNumber_intDigits (n : Int) {rest : List Char}
    (hf : followOk rest = true) :
    parseNumber (intDigits n ++ rest) = .ok (.pyint n, rest) := by
  obtain ⟨hdig, hval, c, cs, hcons, hzero⟩ := natDigits_spec n.natAbs
  by_cases hn : n < 0
  · have hsh : intDigits n ++ rest = '-' :: (c :: (cs ++ rest)) := by
      simp [intDigits, hn, hcons]
    rw [hsh]
    have hred : parseNumber ('-' :: (c :: (cs ++ rest))) = parseNumMag true c (cs ++ rest) := rfl
    rw [hred, parseNumMag_nat_neg n.natAbs hf c cs hcons,
      show -((n.natAbs : Int)) = n from by omega]
  · have hc : isDigitCh c = true := hdig c (by simp [hcons])
    have hsh : intDigits n ++ rest = c :: (cs ++ rest) := by
      simp [intDigits, hn, hcons]
    rw [hsh]
    have hred : parseNumber (c :: (cs ++ rest)) = parseNumMag false c (cs ++ rest) := by
      simp [parseNumber, digit_ne_minus hc]
    rw [hred, parseNumMag_nat_pos n.natAbs hf c cs hcons,
      show ((n.natAbs : Int)) = n from by omega]

theorem parseNumMag_general (neg : Bool) (m : Nat) {cs2 : List Char}
    (hstop : ∀ c, cs2.head? = some c → isDigitCh c = false) :
    ∀ c cs, natDigits m = c :: cs →
    parseNumMag neg c (cs ++ cs2) = finishNumber neg m cs2 := by
  intro c cs hnd
  obtain ⟨hdig, hval, c2, cs2x, hcons, hzero⟩ := natDigits_spec m
  by_cases hm : m = 0
  · subst hm
    have h0 : natDigits 0 = ['0'] := rfl
    rw [h0] at hnd
    injection hnd with h1 h2
    rw [← h1, ← h2]
    rfl
  · have hc0 : c ≠ '0' := by
      rw [hnd] at hcons
      rw [(List.cons.inj hcons).1]
      exact hzero (by omega)
    have hcd : isDigitCh c = true := hdig c (by simp [hnd])
    have htake : takeDigits (c :: (cs ++ cs2)) = (natDigits m, cs2) := by
      have hsh : c :: (cs ++ cs2) = natDigits m ++ cs2 := by simp [hnd]
      rw [hsh]
      exact takeDigits_append (natDigits m) cs2 hdig hstop
    simp only [parseNumMag, if_neg hc0, hcd, if_pos rfl, htake]
    rw [hval]
    simp

theorem stripTens_not_div {n : Nat} (e : Int) (h : n % 10 ≠ 0) :
    stripTens n e = (n, e) := by
  match n with
  | 0 => exact absurd rfl h
  | m + 1 =>
    show stripTensAux (m + 1) (m + 1) e = (m + 1, e)
    have hnc : ¬((m + 1 ≠ 0) ∧ (m + 1) % 10 = 0) := fun hc => h hc.2
    simp only [stripTensAux, if_neg hnc]

theorem normFloat_canonical_pos {m : Nat} {e : Int}
    (hc : floatCanonical (m : Int) e = true) : normFloat false m e = .pyfloat m e := by
  by_cases hm : m = 0
  · subst hm
    have he : e = 0 := by
      simp [floatCanonical] at hc
      exact hc
    rw [he]
    rfl
  · have hmod : m % 10 ≠ 0 := by
      simp [floatCanonical, show ((m : Int)) ≠ 0 from by omega] at hc
      omega
    simp only [normFloat, if_neg hm, stripTens_not_div e hmod]
    simp

theorem normFloat_canonical_neg {m : Nat} {e : Int} (hm : m ≠ 0)
    (hc : floatCanonical (-(m : Int)) e = true) :
    normFloat true m e = .pyfloat (-(m : Int)) e := by
  have hmod : m % 10 ≠ 0 := by
    simp [floatCanonical, show (-(m : Int)) ≠ 0 from by omega] at hc
    omega
  simp only [normFloat, if_neg hm, stripTens_not_div e hmod]
  simp

theorem splitExp_intDigits (e : Int) {rest : List Char}
    (hf : followOk rest = true) :
    splitExp ('e' :: (intDigits e ++ rest)) = (some e, rest) := by
  obtain ⟨hdig, hval, c, cs, hcons, hzero⟩ := natDigits_spec e.natAbs
  have hstop : ∀ d, rest.head? = some d → isDigitCh d = false :=
    fun d hd => (followOk_head hf d hd).1
  have htake : takeDigits (c :: (cs ++ rest)) = (natDigits e.natAbs, rest) := by
    have hsh : c :: (cs ++ rest) = natDigits e.natAbs ++ rest := by simp [hcons]
    rw [hsh]
    exact takeDigits_append _ rest hdig hstop
  by_cases he : e < 0
  · have hsh : intDigits e ++ rest = '-' :: (c :: (cs ++ rest)) := by
      simp [intDigits, he, hcons]
    rw [hsh]
    have hred : splitExp ('e' :: '-' :: (c :: (cs ++ rest))) =
        (match takeDigits (c :: (cs ++ rest)) with
         | ([], _) => (none, 'e' :: '-' :: (c :: (cs ++ rest)))
         | (ds, rest2) => (some (-(digitsToNat 0 ds : Int)), rest2)) := rfl
    rw [hred, htake, hcons]
    show (some (-(digitsToNat 0 (c :: cs) : Int)), rest) = (some e, rest)
    rw [← hcons, hval, show -((e.natAbs : Int)) = e from by omega]
  · have hcd : isDigitCh c = true := hdig c (by simp [hcons])
    have hsh : intDigits e ++ rest = c :: (cs ++ rest) := by
      simp [intDigits, he, hcons]
    rw [hsh]
    have hred : splitExp ('e' :: (c :: (cs ++ rest))) =
        (if c = '-' then
          (match takeDigits (cs ++ rest) with
           | ([], _) => (none, 'e' :: (c :: (cs ++ rest)))
           | (ds, rest2) => (some (-(digitsToNat 0 ds : Int)), rest2))
         else if c = '+' then
          (match takeDigits (cs ++ rest) with
           | ([], _) => (none, 'e' :: (c :: (cs ++ rest)))
           | (ds, rest2) => (some ((digitsToNat 0 ds : Int)), rest2))
         else
          (match takeDigits (c :: (cs ++ rest)) with
           | ([], _) => (none, 'e' :: (c :: (cs ++ rest)))
           | (ds, rest2) => (some ((digitsToNat 0 ds : Int)), rest2))) := rfl
    rw [hred, if_neg (digit_ne_minus hcd), if_neg (digit_ne_plus hcd), htake, hcons]
    show (some ((digitsToNat 0 (c :: cs) : Int)), rest) = (some e, rest)
    rw [← hcons, hval, show ((e.natAbs : Int)) = e from by omega]

theorem finishNumber_float (neg : Bool) (mag : Nat) (e : Int) {rest : List Char}
    (hf : followOk rest = true) :
    finishNumber neg mag ('e' :: (intDigits e ++ rest)) =
      .ok (normFloat neg mag e, rest) := by
  have hfr : splitFrac ('e' :: (intDigits e ++ rest)) =
      (0, 0, 'e' :: (intDigits e ++ rest)) := by
    simp [splitFrac]
  unfold finishNumber
  rw [hfr]
  simp only []
  rw [splitExp_intDigits e hf]
  simp only [Option.getD_some]
  norm_num

theorem parseNumber_floatDigits (m e : Int) {rest : List Char}
    (hf : followOk rest = true) (hc : floatCanonical m e = true) :
    parseNumber (intDigits m ++ ('e' :: (intDigits e ++ rest))) =
      .ok (.pyfloat m e, rest) := by
  obtain ⟨hdig, hval, c, cs, hcons, hzero⟩ := natDigits_spec m.natAbs
  have hstop : ∀ d, ('e' :: (intDigits e ++ rest)).head? = some d → isDigitCh d = false := by
    intro d hd
    have hde : d = 'e' := by simpa using hd.symm
    rw [hde]
    decide
  by_cases hm : m < 0
  · have hsh : intDigits m ++ ('e' :: (intDigits e ++ rest)) =
        '-' :: (c :: (cs ++ ('e' :: (intDigits e ++ rest)))) := by
      simp [intDigits, hm, hcons]
    rw [hsh]
    have hred : parseNumber ('-' :: (c :: (cs ++ ('e' :: (intDigits e ++ rest))))) =
        parseNumMag true c (cs ++ ('e' :: (intDigits e ++ rest))) := rfl
    rw [hred, parseNumMag_general true m.natAbs hstop c cs hcons,
      finishNumber_float true m.natAbs e hf,
      normFloat_canonical_neg (by omega)
        (by rw [show -((m.natAbs : Int)) = m from by omega]; exact hc),
      show -((m.natAbs : Int)) = m from by omega]
  · have hcd : isDigitCh c = true := hdig c (by simp [hcons])
    have hsh : intDigits m ++ ('e' :: (intDigits e ++ rest)) =
        c :: (cs ++ ('e' :: (intDigits e ++ rest))) := by
      simp [intDigits, hm, hcons]
    rw [hsh]
    have hred : parseNumber (c :: (cs ++ ('e' :: (intDigits e ++ rest)))) =
        parseNumMag false c (cs ++ ('e' :: (intDigits e ++ rest))) := by
      simp [parseNumber, digit_ne_minus hcd]
    rw [hred, parseNumMag_general false m.natAbs hstop c cs hcons,
      finishNumber_float false m.natAbs e hf,
      normFloat_canonical_pos
        (by rw [show ((m.natAbs : Int)) = m from by omega]; exact hc),
      show ((m.natAbs : Int)) = m from by omega]

/-! ## Supporting lemmas: string escapes -/

theorem char_valid_ranges (c : Char) :
    ¬(55296 ≤ c.toNat ∧ c.toNat ≤ 57343) ∧ c.toNat < 1114112 := by
  have h := c.valid
  simp only [UInt32.isValidChar, Nat.isValidChar] at h
  have : Char.toNat c = c.val.toNat := rfl
  rw [this]
  omega

theorem char_eq_of_toNat {c : Char} {n : Nat} (h : c.toNat = n) :
    Char.ofNat n = c := by
  rw [← h]
  exact Char.ofNat_toNat c

theorem hexVal_hexDigitChar (d : Nat) (h : d < 16) :
    hexVal (hexDigitChar d) = some d := by
  interval_cases d <;> decide

theorem hexVal4_hex4 (n : Nat) (h : n < 65536) :
    hexVal4 (hexDigitChar (n / 4096 % 16)) (hexDigitChar (n / 256 % 16))
      (hexDigitChar (n / 16 % 16)) (hexDigitChar (n % 16)) = some n := by
  unfold hexVal4
  rw [hexVal_hexDigitChar _ (by omega), hexVal_hexDigitChar _ (by omega),
    hexVal_hexDigitChar _ (by omega), hexVal_hexDigitChar _ (by omega)]
  show some (n / 4096 % 16 * 4096 + n / 256 % 16 * 256 + n / 16 % 16 * 16 + n % 16) = some n
  congr 1
  omega

theorem scanOne_lit (c : Char) (h1 : c ≠ '"') (h2 : c ≠ '\\')
    (h3 : ¬(c.toNat < 32)) (rest : List Char) :
    scanOne (c :: rest) = .ok (some c, rest) := by
  simp only [scanOne, if_neg h1, if_neg h2, if_neg h3]

theorem scanOne_u (a b c d : Char) (n : Nat)
    (hh : hexVal4 a b c d = some n)
    (hA : ¬(55296 ≤ n ∧ n ≤ 56319)) (hB : ¬(56320 ≤ n ∧ n ≤ 57343))
    (cs3 : List Char) :
    scanOne ('\\' :: 'u' :: a :: b :: c :: d :: cs3) = .ok (some (Char.ofNat n), cs3) := by
  simp only [scanOne, hh, if_neg hA, if_neg hB]
  rfl

theorem scanOne_u_pair (a b c d a2 b2 c2 d2 : Char) (n n2 : Nat)
    (hh : hexVal4 a b c d = some n) (hh2 : hexVal4 a2 b2 c2 d2 = some n2)
    (hA : 55296 ≤ n ∧ n ≤ 56319) (hB : 56320 ≤ n2 ∧ n2 ≤ 57343)
    (cs5 : List Char) :
    scanOne ('\\' :: 'u' :: a :: b :: c :: d :: '\\' :: 'u' :: a2 :: b2 :: c2 :: d2 :: cs5) =
      .ok (some (Char.ofNat (65536 + (n - 55296) * 1024 + (n2 - 56320))), cs5) := by
  simp only [scanOne, hh, if_pos hA, hh2, if_pos hB]
  rfl

theorem scanOne_encodeChar (c : Char) (rest : List Char) :
    scanOne (encodeChar c ++ rest) = .ok (some c, rest) := by
  by_cases h1 : c = '"'
  · subst h1; rfl
  by_cases h2 : c = '\\'
  · subst h2; rfl
  by_cases h3 : c = '\n'
  · subst h3; rfl
  by_cases h4 : c = '\r'
  · subst h4; rfl
  by_cases h5 : c = '\t'
  · subst h5; rfl
  by_cases h6 : c.toNat = 8
  · rw [← char_eq_of_toNat h6]; rfl
  by_cases h7 : c.toNat = 12
  · rw [← char_eq_of_toNat h7]; rfl
  by_cases h8 : (32 ≤ c.toNat && c.toNat ≤ 126) = true
  · have henc : encodeChar c = [c] := by
      simp only [encodeChar, if_neg h1, if_neg h2, if_neg h3, if_neg h4, if_neg h5,
        if_neg h6, if_neg h7, if_pos h8]
    rw [henc]
    simp only [Bool.and_eq_true, decide_eq_true_eq] at h8
    exact scanOne_lit c h1 h2 (by omega) rest
  by_cases h9 : c.toNat < 65536
  · have henc : encodeChar c = '\\' :: 'u' :: hex4 c.toNat := by
      simp only [encodeChar, if_neg h1, if_neg h2, if_neg h3, if_neg h4, if_neg h5,
        if_neg h6, if_neg h7, if_neg h8, if_pos h9]
    have hrange := char_valid_ranges c
    have hsh : encodeChar c ++ rest =
        '\\' :: 'u' :: hexDigitChar (c.toNat / 4096 % 16) :: hexDigitChar (c.toNat / 256 % 16) ::
          hexDigitChar (c.toNat / 16 % 16) :: hexDigitChar (c.toNat % 16) :: rest := by
      rw [henc]; rfl
    rw [hsh, scanOne_u _ _ _ _ c.toNat (hexVal4_hex4 c.toNat h9)
      (by omega) (by omega) rest, Char.ofNat_toNat]
  · have hrange := char_valid_ranges c
    have henc : encodeChar c =
        '\\' :: 'u' :: hex4 (55296 + (c.toNat - 65536) / 1024) ++
          ('\\' :: 'u' :: hex4 (56320 + (c.toNat - 65536) % 1024)) := by
      simp only [encodeChar, if_neg h1, if_neg h2, if_neg h3, if_neg h4, if_neg h5,
        if_neg h6, if_neg h7, if_neg h8, if_neg h9]
    have hq : (c.toNat - 65536) / 1024 < 1024 := by
      have := hrange.2
      omega
    have hr : (c.toNat - 65536) % 1024 < 1024 := Nat.mod_lt _ (by omega)
    have hsh : encodeChar c ++ rest =
        '\\' :: 'u' :: hexDigitChar ((55296 + (c.toNat - 65536) / 1024) / 4096 % 16) ::
          hexDigitChar ((55296 + (c.toNat - 65536) / 1024) / 256 % 16) ::
          hexDigitChar ((55296 + (c.toNat - 65536) / 1024) / 16 % 16) ::
          hexDigitChar ((55296 + (c.toNat - 65536) / 1024) % 16) ::
          '\\' :: 'u' :: hexDigitChar ((56320 + (c.toNat - 65536) % 1024) / 4096 % 16) ::
          hexDigitChar ((56320 + (c.toNat - 65536) % 1024) / 256 % 16) ::
          hexDigitChar ((56320 + (c.toNat - 65536) % 1024) / 16 % 16) ::
          hexDigitChar ((56320 + (c.toNat - 65536) % 1024) % 16) :: rest := by
      rw [henc]; rfl
    rw [hsh, scanOne_u_pair _ _ _ _ _ _ _ _
      (55296 + (c.toNat - 65536) / 1024) (56320 + (c.toNat - 65536) % 1024)
      (hexVal4_hex4 _ (by omega)) (hexVal4_hex4 _ (by omega))
      (by omega) (by omega) rest]
    have hceq : 65536 + (55296 + (c.toNat - 65536) / 1024 - 55296) * 1024 +
        (56320 + (c.toNat - 65536) % 1024 - 56320) = c.toNat := by
      have h10 := Nat.div_add_mod (c.toNat - 65536) 1024
      omega
    rw [hceq, Char.ofNat_toNat]

theorem encodeChar_ne_nil (c : Char) : encodeChar c ≠ [] := by
  intro h
  have hs := scanOne_encodeChar c []
  rw [h] at hs
  exact absurd hs (by simp [scanOne])

theorem parseStringBody_encode (s : List Char) : ∀ (fuel : Nat) (rest : List Char),
    (s.flatMap encodeChar).length < fuel →
    parseStringBody fuel ((s.flatMap encodeChar) ++ '"' :: rest) = .ok (s, rest) := by
  induction s with
  | nil =>
    intro fuel rest hf
    match fuel with
    | fuel + 1 => rfl
  | cons c tl ih =>
    intro fuel rest hf
    have hlen : 1 ≤ (encodeChar c).length := by
      have := encodeChar_ne_nil c
      cases hc : encodeChar c with
      | nil => exact absurd hc this
      | cons a as => simp [hc]
    rw [show ((c :: tl).flatMap encodeChar).length =
        (encodeChar c).length + (tl.flatMap encodeChar).length from by
      simp [List.flatMap_cons, List.length_append]] at hf
    match fuel with
    | 0 => omega
    | fuel + 1 =>
      have hsh : ((c :: tl).flatMap encodeChar) ++ '"' :: rest =
          encodeChar c ++ ((tl.flatMap encodeChar) ++ '"' :: rest) := by
        simp [List.flatMap_cons]
      rw [hsh]
      show (match scanOne (encodeChar c ++ ((tl.flatMap encodeChar) ++ '"' :: rest)) with
            | .error m => .error m
            | .ok (none, r) => .ok ([], r)
            | .ok (some d, cs2) =>
              match parseStringBody fuel cs2 with
              | .error m => .error m
              | .ok (body, r2) => .ok (d :: body, r2)) =
        (.ok (c :: tl, rest) : Except String (List Char × List Char))
      rw [scanOne_encodeChar c ((tl.flatMap encodeChar) ++ '"' :: rest)]
      show (match parseStringBody fuel ((tl.flatMap encodeChar) ++ '"' :: rest) with
            | .error m => .error m
            | .ok (body, r2) => .ok (c :: body, r2)) =
        (.ok (c :: tl, rest) : Except String (List Char × List Char))
      rw [ih fuel rest (by omega)]

/-! ## Parser unfolding equations at symbolic fuel -/

theorem skipWs_cons_ws {c : Char} (t : List Char) (h : isJsonWs c = true) :
    skipWs (c :: t) = skipWs t := by
  simp [skipWs, h]

theorem skipWs_not_ws {c : Char} (t : List Char) (h : isJsonWs c = false) :
    skipWs (c :: t) = c :: t := by
  simp [skipWs, h]

theorem parseValue_succ (fuel : Nat) (cs : List Char) :
    parseValue (fuel + 1) cs = match skipWs cs with
      | [] => .error "Expecting value"
      | c :: cs1 => parseValueCore fuel c cs1 := rfl

theorem parseElems_succ (fuel : Nat) (cs : List Char) :
    parseElems (fuel + 1) cs = match skipWs cs with
      | ']' :: rest => .ok (.nil, rest)
      | cs1 => parseElemsValue fuel cs1 := rfl

theorem parseElemsRest_succ (fuel : Nat) (cs : List Char) :
    parseElemsRest (fuel + 1) cs = match skipWs cs with
      | ']' :: rest => .ok (.nil, rest)
      | ',' :: cs2 => parseElemsValue fuel cs2
      | _ => .error "Expecting comma delimiter" := rfl

theorem parseMembers_succ (fuel : Nat) (cs : List Char) :
    parseMembers (fuel + 1) cs = match skipWs cs with
      | '}' :: rest => .ok (.nil, rest)
      | '"' :: cs1 => parseMemberKV fuel cs1
      | _ => .error "Expecting property name enclosed in double quotes" := rfl

theorem parseMembersRest_succ (fuel : Nat) (cs : List Char) :
    parseMembersRest (fuel + 1) cs = match skipWs cs with
      | '}' :: rest => .ok (.nil, rest)
      | ',' :: cs2 =>
        (match skipWs cs2 with
         | '"' :: cs3 => parseMemberKV fuel cs3
         | _ => .error "Expecting property name enclosed in double quotes")
      | _ => .error "Expecting comma delimiter" := rfl

theorem parseValue_at {cs : List Char} {c : Char} {cs1 : List Char} (fuel : Nat)
    (h : skipWs cs = c :: cs1) :
    parseValue (fuel + 1) cs = parseValueCore fuel c cs1 := by
  rw [parseValue_succ, h]

theorem parseElems_close {cs rest : List Char} (fuel : Nat)
    (h : skipWs cs = ']' :: rest) :
    parseElems (fuel + 1) cs = .ok (.nil, rest) := by
  rw [parseElems_succ, h]
  rfl

theorem parseElems_value {cs : List Char} {c : Char} {cs1 : List Char} (fuel : Nat)
    (h : skipWs cs = c :: cs1) (hc : c ≠ ']') :
    parseElems (fuel + 1) cs = parseElemsValue fuel (c :: cs1) := by
  rw [parseElems_succ, h]
  split
  · next rest heq =>
    injection heq with h1 _
    exact absurd h1 hc
  · rfl

theorem parseElemsRest_close {cs rest : List Char} (fuel : Nat)
    (h : skipWs cs = ']' :: rest) :
    parseElemsRest (fuel + 1) cs = .ok (.nil, rest) := by
  rw [parseElemsRest_succ, h]
  rfl

theorem parseElemsRest_comma {cs cs2 : List Char} (fuel : Nat)
    (h : skipWs cs = ',' :: cs2) :
    parseElemsRest (fuel + 1) cs = parseElemsValue fuel cs2 := by
  rw [parseElemsRest_succ, h]
  rfl

theorem parseMembers_close {cs rest : List Char} (fuel : Nat)
    (h : skipWs cs = '}' :: rest) :
    parseMembers (fuel + 1) cs = .ok (.nil, rest) := by
  rw [parseMembers_succ, h]
  rfl

theorem parseMembers_key {cs cs1 : List Char} (fuel : Nat)
    (h : skipWs cs = '"' :: cs1) :
    parseMembers (fuel + 1) cs = parseMemberKV fuel cs1 := by
  rw [parseMembers_succ, h]
  rfl

theorem parseMembersRest_close {cs rest : List Char} (fuel : Nat)
    (h : skipWs cs = '}' :: rest) :
    parseMembersRest (fuel + 1) cs = .ok (.nil, rest) := by
  rw [parseMembersRest_succ, h]
  rfl

theorem parseMembersRest_comma {cs cs2 cs3 : List Char} (fuel : Nat)
    (h : skipWs cs = ',' :: cs2) (h2 : skipWs cs2 = '\x22' :: cs3) :
    parseMembersRest (fuel + 1) cs = parseMemberKV fuel cs3 := by
  rw [parseMembersRest_succ, h]
  show (match skipWs cs2 with
    | '\x22' :: cs3 => parseMemberKV fuel cs3
    | _ => Except.error "Expecting property name enclosed in double quotes") =
    parseMemberKV fuel cs3
  rw [h2]
  rfl

/-! ## Printed length bounds and totality of the printer -/

theorem needV_pos (v : PyValue) : 1 ≤ needV v := by
  cases v <;> simp [needV]

theorem needL_pos (xs : PyList) : 1 ≤ needL xs := by
  cases xs <;> simp [needL]

theorem needD_pos (kvs : PyDict) : 1 ≤ needD kvs := by
  cases kvs <;> simp [needD]

mutual
theorem needV_le_len (v : PyValue) :
    ∀ out, dumpValue v = .ok out → needV v ≤ out.length + 1 := by
  cases v with
  | pylist xs =>
    intro out h
    cases hb : dumpElems xs with
    | error e =>
      rw [dumpValue, hb, except_bind_err] at h
      exact absurd h (by simp)
    | ok body =>
      rw [dumpValue, hb, except_bind_ok] at h
      obtain rfl : '[' :: body ++ [']'] = out := Except.ok.inj h
      have hlen := needL_le_len xs body hb
      have h2 : ('[' :: body ++ [']']).length = body.length + 2 := by simp
      show 1 + needL xs ≤ ('[' :: body ++ [']']).length + 1
      omega
  | pydict kvs =>
    intro out h
    cases hb : dumpMembers kvs with
    | error e =>
      rw [dumpValue, hb, except_bind_err] at h
      exact absurd h (by simp)
    | ok body =>
      rw [dumpValue, hb, except_bind_ok] at h
      obtain rfl : '\x7b' :: body ++ ['\x7d'] = out := Except.ok.inj h
      have hlen := needD_le_len kvs body hb
      have h2 : ('\x7b' :: body ++ ['\x7d']).length = body.length + 2 := by simp
      show 1 + needD kvs ≤ ('\x7b' :: body ++ ['\x7d']).length + 1
      omega
  | pynone => intro out _; show 1 ≤ _; omega
  | pybool b => intro out _; show 1 ≤ _; omega
  | pyint n => intro out _; show 1 ≤ _; omega
  | pyfloat m e => intro out _; show 1 ≤ _; omega
  | pystr s => intro out _; show 1 ≤ _; omega
  | pyobj t => intro out h; exact absurd h (by simp [dumpValue])

theorem needL_le_len (xs : PyList) :
    ∀ out, dumpElems xs = .ok out → needL xs ≤ out.length + 2 := by
  cases xs with
  | nil => intro out _; show 1 ≤ _; omega
  | cons hd tl =>
    cases tl with
    | nil =>
      intro out h
      have h1 : dumpValue hd = .ok out := h
      have hv := needV_le_len hd out h1
      show 1 + max (needV hd) (needL .nil) ≤ out.length + 2
      show 1 + max (needV hd) 1 ≤ out.length + 2
      omega
    | cons hd2 tl2 =>
      intro out h
      cases h1 : dumpValue hd with
      | error e =>
        rw [dumpElems, h1, except_bind_err] at h
        exact absurd h (by simp)
      | ok first =>
        cases h2 : dumpElems (.cons hd2 tl2) with
        | error e =>
          rw [dumpElems, h1, except_bind_ok, h2, except_bind_err] at h
          exact absurd h (by simp)
        | ok rest =>
          rw [dumpElems, h1, except_bind_ok, h2, except_bind_ok] at h
          obtain rfl : first ++ ',' :: ' ' :: rest = out := Except.ok.inj h
          have hv := needV_le_len hd first h1
          have hl := needL_le_len (.cons hd2 tl2) rest h2
          have hln : (first ++ ',' :: ' ' :: rest).length =
              first.length + rest.length + 2 := by simp; omega
          show 1 + max (needV hd) (needL (.cons hd2 tl2)) ≤ _
          omega

theorem needD_le_len (kvs : PyDict) :
    ∀ out, dumpMembers kvs = .ok out → needD kvs ≤ out.length + 2 := by
  cases kvs with
  | nil => intro out _; show 1 ≤ _; omega
  | cons k v tl =>
    cases tl with
    | nil =>
      intro out h
      cases h1 : dumpValue v with
      | error e =>
        rw [dumpMembers, h1, except_bind_err] at h
        exact absurd h (by simp)
      | ok body =>
        rw [dumpMembers, h1, except_bind_ok] at h
        obtain rfl : encodeString k ++ ':' :: ' ' :: body = out := Except.ok.inj h
        have hv := needV_le_len v body h1
        have hln : (encodeString k ++ ':' :: ' ' :: body).length =
            (encodeString k).length + body.length + 2 := by simp; omega
        show 1 + max (needV v) (needD .nil) ≤ _
        show 1 + max (needV v) 1 ≤ _
        omega
    | cons k2 v2 tl2 =>
      intro out h
      cases h1 : dumpValue v with
      | error e =>
        rw [dumpMembers, h1, except_bind_err] at h
        exact absurd h (by simp)
      | ok first =>
        cases h2 : dumpMembers (.cons k2 v2 tl2) with
        | error e =>
          rw [dumpMembers, h1, except_bind_ok, h2, except_bind_err] at h
          exact absurd h (by simp)
        | ok rest =>
          rw [dumpMembers, h1, except_bind_ok, h2, except_bind_ok] at h
          obtain rfl :
              encodeString k ++ ':' :: ' ' :: first ++ ',' :: ' ' :: rest = out :=
            Except.ok.inj h
          have hv := needV_le_len v first h1
          have hl := needD_le_len (.cons k2 v2 tl2) rest h2
          have hln :
              (encodeString k ++ ':' :: ' ' :: first ++ ',' :: ' ' :: rest).length =
              (encodeString k).length + first.length + rest.length + 4 := by simp; omega
          show 1 + max (needV v) (needD (.cons k2 v2 tl2)) ≤ _
          omega
end

mutual
theorem dumpV_ok (v : PyValue) :
    noObjV v = true → ∃ out, dumpValue v = .ok out := by
  cases v with
  | pylist xs =>
    intro h
    obtain ⟨body, hb⟩ := dumpL_ok xs (by simpa [noObjV] using h)
    exact ⟨'[' :: body ++ [']'], by rw [dumpValue, hb, except_bind_ok]⟩
  | pydict kvs =>
    intro h
    obtain ⟨body, hb⟩ := dumpD_ok kvs (by simpa [noObjV] using h)
    exact ⟨'\x7b' :: body ++ ['\x7d'], by rw [dumpValue, hb, except_bind_ok]⟩
  | pynone => intro _; exact ⟨_, rfl⟩
  | pybool b => intro _; exact ⟨_, rfl⟩
  | pyint n => intro _; exact ⟨_, rfl⟩
  | pyfloat m e => intro _; exact ⟨_, rfl⟩
  | pystr s => intro _; exact ⟨_, rfl⟩
  | pyobj t => intro h; exact absurd h (by simp [noObjV])

theorem dumpL_ok (xs : PyList) :
    noObjL xs = true → ∃ out, dumpElems xs = .ok out := by
  cases xs with
  | nil => intro _; exact ⟨[], rfl⟩
  | cons hd tl =>
    intro h
    have hh : noObjV hd = true := by
      have h2 := h; simp [noObjL] at h2; exact h2.1
    have ht : noObjL tl = true := by
      have h2 := h; simp [noObjL] at h2; exact h2.2
    obtain ⟨first, h1⟩ := dumpV_ok hd hh
    cases tl with
    | nil => exact ⟨first, h1⟩
    | cons hd2 tl2 =>
      obtain ⟨rest, h2⟩ := dumpL_ok (.cons hd2 tl2) ht
      exact ⟨first ++ ',' :: ' ' :: rest,
        by rw [dumpElems, h1, except_bind_ok, h2, except_bind_ok]⟩

theorem dumpD_ok (kvs : PyDict) :
    noObjD kvs = true → ∃ out, dumpMembers kvs = .ok out := by
  cases kvs with
  | nil => intro _; exact ⟨[], rfl⟩
  | cons k v tl =>
    intro h
    have hh : noObjV v = true := by
      have h2 := h; simp [noObjD] at h2; exact h2.1
    have ht : noObjD tl = true := by
      have h2 := h; simp [noObjD] at h2; exact h2.2
    obtain ⟨body, h1⟩ := dumpV_ok v hh
    cases tl with
    | nil =>
      exact ⟨encodeString k ++ ':' :: ' ' :: body,
        by rw [dumpMembers, h1, except_bind_ok]⟩
    | cons k2 v2 tl2 =>
      obtain ⟨rest, h2⟩ := dumpD_ok (.cons k2 v2 tl2) ht
      exact ⟨encodeString k ++ ':' :: ' ' :: body ++ ',' :: ' ' :: rest,
        by rw [dumpMembers, h1, except_bind_ok, h2, except_bind_ok]⟩
end

/-! ## `dict(pairs)` on distinct keys is the identity, and preserves
well-formedness -/

theorem concat_nil (acc : PyDict) : acc.concat .nil = acc := by
  induction acc using PyDict.spineInduction with
  | hnil => rfl
  | hcons k v tl ih => simp [PyDict.concat, ih]

theorem append_concat (acc : PyDict) (k : String) (v : PyValue) (tl : PyDict) :
    (acc.append k v).concat tl = acc.concat (.cons k v tl) := by
  induction acc using PyDict.spineInduction with
  | hnil => rfl
  | hcons k2 w acc2 ih => simp [PyDict.append, PyDict.concat, ih]

theorem dedupAux_fresh (pairs : PyDict) : ∀ acc : PyDict,
    pairs.keysNodup = true →
    (∀ k2, pairs.member k2 = true → acc.member k2 = false) →
    dedupAux acc pairs = acc.concat pairs := by
  induction pairs using PyDict.spineInduction with
  | hnil => intro acc _ _; rw [concat_nil]; rfl
  | hcons k v tl ih =>
    intro acc hnd hfresh
    have hk : acc.member k = false := hfresh k (by simp [PyDict.member])
    have hnd' : (!tl.member k && tl.keysNodup) = true := hnd
    simp only [Bool.and_eq_true, Bool.not_eq_true'] at hnd'
    have hstep : dedupAux acc (.cons k v tl) = dedupAux (insertPair acc k v) tl := rfl
    have hins : insertPair acc k v = acc.append k v := by
      simp [insertPair, hk]
    rw [hstep, hins, ih (acc.append k v) hnd'.2 ?_, append_concat]
    intro k2 hk2
    rw [PyDict.member_append]
    have hne : k ≠ k2 := by
      intro he
      subst he
      exact absurd hk2 (by simp [hnd'.1])
    simp [hne, hfresh k2 (by simp [PyDict.member, hk2])]

theorem dedup_id (kvs : PyDict) (h : kvs.keysNodup = true) :
    dedupMembers kvs = kvs :=
  dedupAux_fresh kvs .nil h (fun _ _ => rfl)

theorem wfD_nodup (d : PyDict) (h : wfD d = true) : d.keysNodup = true := by
  induction d using PyDict.spineInduction with
  | hnil => rfl
  | hcons k v tl ih =>
    have h' : (!tl.member k && (wfV v && wfD tl)) = true := by
      have h2 : ((!tl.member k && wfV v) && wfD tl) = true := h
      simp only [Bool.and_eq_true] at h2 ⊢
      exact ⟨h2.1.1, h2.1.2, h2.2⟩
    simp only [Bool.and_eq_true] at h'
    show (!tl.member k && tl.keysNodup) = true
    simp [h'.1, ih h'.2.2]

theorem wfD_cons_elim {k : String} {v : PyValue} {tl : PyDict}
    (h : wfD (.cons k v tl) = true) :
    tl.member k = false ∧ wfV v = true ∧ wfD tl = true := by
  have h2 : ((!tl.member k && wfV v) && wfD tl) = true := h
  simp only [Bool.and_eq_true, Bool.not_eq_true'] at h2
  exact ⟨h2.1.1, h2.1.2, h2.2⟩

theorem wfD_cons_intro {k : String} {v : PyValue} {tl : PyDict}
    (h1 : tl.member k = false) (h2 : wfV v = true) (h3 : wfD tl = true) :
    wfD (.cons k v tl) = true := by
  show ((!tl.member k && wfV v) && wfD tl) = true
  simp [h1, h2, h3]

theorem set_wf_mem (d : PyDict) (k : String) (v : PyValue)
    (hd : wfD d = true) (hv : wfV v = true) (hm : d.member k = true) :
    wfD (d.set k v) = true := by
  induction d using PyDict.spineInduction with
  | hnil => exact absurd hm (by simp [PyDict.member])
  | hcons k2 w tl ih =>
    obtain ⟨hmem, hw, htl⟩ := wfD_cons_elim hd
    by_cases he : k2 = k
    · subst he
      rw [show PyDict.set (.cons k2 w tl) k2 v = .cons k2 v tl from by
        simp [PyDict.set]]
      exact wfD_cons_intro hmem hv htl
    · rw [show PyDict.set (.cons k2 w tl) k v = .cons k2 w (tl.set k v) from by
        simp [PyDict.set, he]]
      have hm' : tl.member k = true := by
        simpa [PyDict.member, he] using hm
      refine wfD_cons_intro ?_ hw (ih htl hm')
      rw [PyDict.member_set]
      have hne : k ≠ k2 := fun hx => he hx.symm
      simp [hmem, hne]

theorem append_wf (d : PyDict) (k : String) (v : PyValue)
    (hd : wfD d = true) (hv : wfV v = true) (hm : d.member k = false) :
    wfD (d.append k v) = true := by
  induction d using PyDict.spineInduction with
  | hnil => exact wfD_cons_intro (by simp [PyDict.member]) hv rfl
  | hcons k2 w tl ih =>
    obtain ⟨hmem, hw, htl⟩ := wfD_cons_elim hd
    have hm2 : ((k2 = k : Bool) || tl.member k) = false := hm
    simp only [Bool.or_eq_false_iff] at hm2
    rw [show PyDict.append (.cons k2 w tl) k v = .cons k2 w (tl.append k v) from rfl]
    refine wfD_cons_intro ?_ hw (ih htl hm2.2)
    rw [PyDict.member_append]
    have hne : k ≠ k2 := by
      intro he
      subst he
      simp at hm2
    simp [hmem, hne]

theorem insertPair_wf (acc : PyDict) (k : String) (v : PyValue)
    (ha : wfD acc = true) (hv : wfV v = true) :
    wfD (insertPair acc k v) = true := by
  by_cases hm : acc.member k = true
  · rw [show insertPair acc k v = acc.set k v from by simp [insertPair, hm]]
    exact set_wf_mem acc k v ha hv hm
  · have hm' : acc.member k = false := by
      cases hx : acc.member k
      · rfl
      · exact absurd hx hm
    rw [show insertPair acc k v = acc.append k v from by simp [insertPair, hm']]
    exact append_wf acc k v ha hv hm'

theorem dedupAux_wf (pairs : PyDict) : ∀ acc : PyDict,
    wfD acc = true → valuesWF pairs = true → wfD (dedupAux acc pairs) = true := by
  induction pairs using PyDict.spineInduction with
  | hnil => intro acc ha _; exact ha
  | hcons k v tl ih =>
    intro acc ha hvals
    have hv2 : (wfV v && valuesWF tl) = true := hvals
    simp only [Bool.and_eq_true] at hv2
    exact ih (insertPair acc k v) (insertPair_wf acc k v ha hv2.1) hv2.2

theorem dedup_wf (pairs : PyDict) (h : valuesWF pairs = true) :
    wfD (dedupMembers pairs) = true :=
  dedupAux_wf pairs .nil rfl h

/-! ## Head characters of printed values -/

theorem digit_not_delim {c : Char} (h : isDigitCh c = true) :
    isJsonWs c = false ∧ c ≠ ']' ∧ c ≠ '\x7d' ∧ c ≠ ',' := by
  refine ⟨?_, ?_, ?_, ?_⟩
  · cases hx : isJsonWs c
    · rfl
    · simp only [isJsonWs, Bool.or_eq_true, decide_eq_true_eq] at hx
      rcases hx with ((h1 | h1) | h1) | h1 <;> (rw [h1] at h; exact absurd h (by decide))
  · intro he; subst he; exact absurd h (by decide)
  · intro he; subst he; exact absurd h (by decide)
  · intro he; subst he; exact absurd h (by decide)

theorem intDigits_head (n : Int) :
    ∃ c t, intDigits n = c :: t ∧ (c = '-' ∨ isDigitCh c = true) := by
  obtain ⟨h1, _, c, cs, hcons, _⟩ := natDigits_spec n.natAbs
  by_cases hn : n < 0
  · exact ⟨'-', natDigits n.natAbs, by simp [intDigits, hn], .inl rfl⟩
  · refine ⟨c, cs, by simp [intDigits, hn, hcons], .inr ?_⟩
    exact h1 c (by simp [hcons])

theorem num_head_not_delim {c : Char} (h : c = '-' ∨ isDigitCh c = true) :
    isJsonWs c = false ∧ c ≠ ']' ∧ c ≠ '\x7d' ∧ c ≠ ',' := by
  rcases h with rfl | hd
  · exact ⟨rfl, by decide, by decide, by decide⟩
  · exact digit_not_delim hd

theorem dumpValue_head {v : PyValue} {out : List Char}
    (h : dumpValue v = .ok out) :
    ∃ c t, out = c :: t ∧ isJsonWs c = false ∧ c ≠ ']' ∧ c ≠ '\x7d' ∧ c ≠ ',' := by
  cases v with
  | pynone =>
    obtain rfl : ['n','u','l','l'] = out := Except.ok.inj h
    exact ⟨'n', _, rfl, rfl, by decide, by decide, by decide⟩
  | pybool b =>
    cases b
    · obtain rfl : ['f','a','l','s','e'] = out := Except.ok.inj h
      exact ⟨'f', _, rfl, rfl, by decide, by decide, by decide⟩
    · obtain rfl : ['t','r','u','e'] = out := Except.ok.inj h
      exact ⟨'t', _, rfl, rfl, by decide, by decide, by decide⟩
  | pyint n =>
    obtain rfl : intDigits n = out := Except.ok.inj h
    obtain ⟨c, t, hct, hc⟩ := intDigits_head n
    obtain ⟨w1, w2, w3, w4⟩ := num_head_not_delim hc
    exact ⟨c, t, hct, w1, w2, w3, w4⟩
  | pyfloat m e =>
    obtain rfl : intDigits m ++ 'e' :: intDigits e = out := Except.ok.inj h
    obtain ⟨c, t, hct, hc⟩ := intDigits_head m
    obtain ⟨w1, w2, w3, w4⟩ := num_head_not_delim hc
    exact ⟨c, t ++ 'e' :: intDigits e, by rw [hct]; rfl, w1, w2, w3, w4⟩
  | pystr s =>
    obtain rfl : encodeString s = out := Except.ok.inj h
    exact ⟨'\x22', s.data.flatMap encodeChar ++ ['\x22'], rfl, rfl,
      by decide, by decide, by decide⟩
  | pylist xs =>
    cases hb : dumpElems xs with
    | error e => rw [dumpValue, hb, except_bind_err] at h; exact absurd h (by simp)
    | ok body =>
      rw [dumpValue, hb, except_bind_ok] at h
      obtain rfl : '[' :: body ++ [']'] = out := Except.ok.inj h
      exact ⟨'[', body ++ [']'], rfl, rfl, by decide, by decide, by decide⟩
  | pydict kvs =>
    cases hb : dumpMembers kvs with
    | error e => rw [dumpValue, hb, except_bind_err] at h; exact absurd h (by simp)
    | ok body =>
      rw [dumpValue, hb, except_bind_ok] at h
      obtain rfl : '\x7b' :: body ++ ['\x7d'] = out := Except.ok.inj h
      exact ⟨'\x7b', body ++ ['\x7d'], rfl, rfl, by decide, by decide, by decide⟩
  | pyobj t => exact absurd h (by simp [dumpValue])

/-! ## The printer in delimiter-loop form -/

theorem dumpElems_cons (hd : PyValue) (tl : PyList) :
    dumpElems (.cons hd tl) = (do
      let first ← dumpValue hd
      let rest ← dumpElemsTail tl
      Except.ok (first ++ rest)) := by
  induction tl using PyList.spineInductionList generalizing hd with
  | hnil =>
    show dumpValue hd = _
    cases h1 : dumpValue hd with
    | error e => simp [except_bind_err, except_bind_ok]
    | ok first =>
      rw [except_bind_ok]
      show _ = (do
        let rest ← dumpElemsTail PyList.nil
        Except.ok (first ++ rest))
      rw [show dumpElemsTail PyList.nil = .ok [] from rfl, except_bind_ok]
      simp
  | hcons hd2 tl2 ih =>
    show (do
      let first ← dumpValue hd
      let rest ← dumpElems (.cons hd2 tl2)
      Except.ok (first ++ ',' :: ' ' :: rest)) = _
    rw [ih hd2]
    rw [show dumpElemsTail (.cons hd2 tl2) = (do
      let f2 ← dumpValue hd2
      let r2 ← dumpElemsTail tl2
      Except.ok (',' :: ' ' :: (f2 ++ r2))) from rfl]
    cases h1 : dumpValue hd with
    | error e => simp [except_bind_err, except_bind_ok]
    | ok first =>
      rw [except_bind_ok, except_bind_ok]
      cases h2 : dumpValue hd2 with
      | error e => simp [except_bind_err, except_bind_ok]
      | ok f2 =>
        rw [except_bind_ok, except_bind_ok]
        cases h3 : dumpElemsTail tl2 with
        | error e => simp [except_bind_err, except_bind_ok]
        | ok r2 =>
          simp [except_bind_ok]

theorem dumpMembers_cons (k : String) (v : PyValue) (tl : PyDict) :
    dumpMembers (.cons k v tl) = (do
      let body ← dumpValue v
      let rest ← dumpMembersTail tl
      Except.ok (encodeString k ++ ':' :: ' ' :: (body ++ rest))) := by
  induction tl using PyDict.spineInduction generalizing k v with
  | hnil =>
    show (do
      let body ← dumpValue v
      Except.ok (encodeString k ++ ':' :: ' ' :: body)) = _
    rw [show dumpMembersTail PyDict.nil = .ok [] from rfl]
    cases h1 : dumpValue v with
    | error e => simp [except_bind_err, except_bind_ok]
    | ok body =>
      rw [except_bind_ok, except_bind_ok, except_bind_ok]
      simp
  | hcons k2 v2 tl2 ih =>
    show (do
      let first ← dumpValue v
      let rest ← dumpMembers (.cons k2 v2 tl2)
      Except.ok (encodeString k ++ ':' :: ' ' :: first ++ ',' :: ' ' :: rest)) = _
    rw [ih k2 v2]
    rw [show dumpMembersTail (.cons k2 v2 tl2) = (do
      let b2 ← dumpValue v2
      let r2 ← dumpMembersTail tl2
      Except.ok (',' :: ' ' :: (encodeString k2 ++ ':' :: ' ' :: (b2 ++ r2))))
      from rfl]
    cases h1 : dumpValue v with
    | error e => simp [except_bind_err, except_bind_ok]
    | ok first =>
      rw [except_bind_ok, except_bind_ok]
      cases h2 : dumpValue v2 with
      | error e => simp [except_bind_err, except_bind_ok]
      | ok b2 =>
        rw [except_bind_ok, except_bind_ok]
        cases h3 : dumpMembersTail tl2 with
        | error e => simp [except_bind_err, except_bind_ok]
        | ok r2 =>
          simp [except_bind_ok]

theorem dumpElemsTail_shape {xs : PyList} {tout : List Char}
    (h : dumpElemsTail xs = .ok tout) :
    (xs = .nil ∧ tout = []) ∨ ∃ t, tout = ',' :: ' ' :: t := by
  cases xs with
  | nil => exact .inl ⟨rfl, (Except.ok.inj h).symm⟩
  | cons hd tl =>
    cases h1 : dumpValue hd with
    | error e => rw [dumpElemsTail, h1, except_bind_err] at h; exact absurd h (by simp)
    | ok first =>
      cases h2 : dumpElemsTail tl with
      | error e =>
        rw [dumpElemsTail, h1, except_bind_ok, h2, except_bind_err] at h
        exact absurd h (by simp)
      | ok rest =>
        rw [dumpElemsTail, h1, except_bind_ok, h2, except_bind_ok] at h
        exact .inr ⟨first ++ rest, (Except.ok.inj h).symm⟩

theorem dumpMembersTail_shape {kvs : PyDict} {tout : List Char}
    (h : dumpMembersTail kvs = .ok tout) :
    (kvs = .nil ∧ tout = []) ∨ ∃ t, tout = ',' :: ' ' :: t := by
  cases kvs with
  | nil => exact .inl ⟨rfl, (Except.ok.inj h).symm⟩
  | cons k v tl =>
    cases h1 : dumpValue v with
    | error e => rw [dumpMembersTail, h1, except_bind_err] at h; exact absurd h (by simp)
    | ok body =>
      cases h2 : dumpMembersTail tl with
      | error e =>
        rw [dumpMembersTail, h1, except_bind_ok, h2, except_bind_err] at h
        exact absurd h (by simp)
      | ok rest =>
        rw [dumpMembersTail, h1, except_bind_ok, h2, except_bind_ok] at h
        exact .inr ⟨encodeString k ++ ':' :: ' ' :: (body ++ rest),
          (Except.ok.inj h).symm⟩

/-! ## Whitespace and dispatch helpers for the round trip -/

theorem parseValue_ws {c : Char} (fuel : Nat) (cs : List Char)
    (h : isJsonWs c = true) :
    parseValue fuel (c :: cs) = parseValue fuel cs := by
  match fuel with
  | 0 => rfl
  | fuel + 1 => rw [parseValue_succ, parseValue_succ, skipWs_cons_ws _ h]

theorem parseValueCore_num (fuel : Nat) {c : Char} (cs1 : List Char)
    (h : c = '-' ∨ isDigitCh c = true) :
    parseValueCore fuel c cs1 = parseNumber (c :: cs1) := by
  have h1 : c ≠ '\x7b' := by
    rcases h with rfl | hd
    · decide
    · intro he; subst he; exact absurd hd (by decide)
  have h2 : c ≠ '[' := by
    rcases h with rfl | hd
    · decide
    · intro he; subst he; exact absurd hd (by decide)
  have h3 : c ≠ '\x22' := by
    rcases h with rfl | hd
    · decide
    · intro he; subst he; exact absurd hd (by decide)
  have h4 : c ≠ 't' := by
    rcases h with rfl | hd
    · decide
    · intro he; subst he; exact absurd hd (by decide)
  have h5 : c ≠ 'f' := by
    rcases h with rfl | hd
    · decide
    · intro he; subst he; exact absurd hd (by decide)
  have h6 : c ≠ 'n' := by
    rcases h with rfl | hd
    · decide
    · intro he; subst he; exact absurd hd (by decide)
  have h7 : (c = '-' ∨ isDigitCh c = true) := h
  simp only [parseValueCore, if_neg h1, if_neg h2, if_neg h3, if_neg h4,
    if_neg h5, if_neg h6, if_pos h7]

/-! ## The round trip: parse of print -/

theorem rt_kv (f : Nat)
    (HV : ∀ v out rest, wfV v = true → dumpValue v = .ok out → needV v ≤ f →
      followOk rest = true → parseValue f (out ++ rest) = .ok (v, rest))
    (HDR : ∀ kvs tout rest, wfD kvs = true → dumpMembersTail kvs = .ok tout →
      needD kvs ≤ f → parseMembersRest f (tout ++ '\x7d' :: rest) = .ok (kvs, rest))
    (k : String) (v : PyValue) (tl : PyDict) (body t2out rest : List Char)
    (hv : wfV v = true) (htl : wfD tl = true)
    (h1 : dumpValue v = .ok body) (h2 : dumpMembersTail tl = .ok t2out)
    (hnv : needV v ≤ f) (hntl : needD tl ≤ f) :
    parseMemberKV f (k.data.flatMap encodeChar ++ '\x22' ::
      (':' :: ' ' :: (body ++ (t2out ++ '\x7d' :: rest)))) =
      .ok (.cons k v tl, rest) := by
  simp only [parseMemberKV]
  have hsb := parseStringBody_encode k.data
    ((k.data.flatMap encodeChar ++ '\x22' ::
      (':' :: ' ' :: (body ++ (t2out ++ '\x7d' :: rest)))).length + 1)
    (':' :: ' ' :: (body ++ (t2out ++ '\x7d' :: rest)))
    (by simp; omega)
  rw [hsb, except_bind_ok]
  show (do
    let (v2, cs4) ← parseValue f (' ' :: (body ++ (t2out ++ '\x7d' :: rest)))
    let (tl2, r2) ← parseMembersRest f cs4
    Except.ok ((PyDict.cons (String.mk k.data) v2 tl2 : PyDict), r2)) =
    Except.ok ((PyDict.cons k v tl : PyDict), rest)
  rw [parseValue_ws f (body ++ (t2out ++ '\x7d' :: rest)) (by decide)]
  have hfol : followOk (t2out ++ '\x7d' :: rest) = true := by
    rcases dumpMembersTail_shape h2 with ⟨_, rfl⟩ | ⟨t2, rfl⟩ <;> rfl
  rw [HV v body (t2out ++ '\x7d' :: rest) hv h1 hnv hfol, except_bind_ok]
  show (do
    let (tl2, r2) ← parseMembersRest f (t2out ++ '\x7d' :: rest)
    Except.ok ((PyDict.cons (String.mk k.data) v tl2 : PyDict), r2)) =
    Except.ok ((PyDict.cons k v tl : PyDict), rest)
  rw [HDR tl t2out rest htl h2 hntl, except_bind_ok]

/-- The embedded `json` codec round-trips on canonical values: parsing
the printed form of a well-formed value returns the value exactly,
provided the fuel covers the value's nesting depth. -/
theorem rt_all : ∀ fuel : Nat,
    (∀ v out rest, wfV v = true → dumpValue v = .ok out → needV v ≤ fuel →
      followOk rest = true → parseValue fuel (out ++ rest) = .ok (v, rest)) ∧
    (∀ xs out rest, wfL xs = true → dumpElems xs = .ok out → needL xs ≤ fuel →
      parseElems fuel (out ++ ']' :: rest) = .ok (xs, rest)) ∧
    (∀ xs tout rest, wfL xs = true → dumpElemsTail xs = .ok tout → needL xs ≤ fuel →
      parseElemsRest fuel (tout ++ ']' :: rest) = .ok (xs, rest)) ∧
    (∀ kvs out rest, wfD kvs = true → dumpMembers kvs = .ok out → needD kvs ≤ fuel →
      parseMembers fuel (out ++ '\x7d' :: rest) = .ok (kvs, rest)) ∧
    (∀ kvs tout rest, wfD kvs = true → dumpMembersTail kvs = .ok tout →
      needD kvs ≤ fuel →
      parseMembersRest fuel (tout ++ '\x7d' :: rest) = .ok (kvs, rest)) := by
  intro fuel
  induction fuel using Nat.strong_induction_on with
  | _ fuel ih =>
  match fuel with
  | 0 =>
    refine ⟨?_, ?_, ?_, ?_, ?_⟩
    · intro v out rest _ _ hneed _
      have h1 := needV_pos v
      exact absurd hneed (by omega)
    · intro xs out rest _ _ hneed
      have h1 := needL_pos xs
      exact absurd hneed (by omega)
    · intro xs tout rest _ _ hneed
      have h1 := needL_pos xs
      exact absurd hneed (by omega)
    · intro kvs out rest _ _ hneed
      have h1 := needD_pos kvs
      exact absurd hneed (by omega)
    · intro kvs tout rest _ _ hneed
      have h1 := needD_pos kvs
      exact absurd hneed (by omega)
  | f + 1 =>
    obtain ⟨HV, HL, HLR, HD, HDR⟩ := ih f (Nat.lt_succ_self f)
    refine ⟨?_, ?_, ?_, ?_, ?_⟩
    · -- parseValue of a printed value
      intro v out rest hwf hdump hneed hfol
      cases v with
      | pynone =>
        obtain rfl : ['n','u','l','l'] = out := Except.ok.inj hdump
        exact (parseValue_at f (show skipWs (['n','u','l','l'] ++ rest) =
          'n' :: (['u','l','l'] ++ rest) from rfl)).trans rfl
      | pybool b =>
        cases b with
        | false =>
          obtain rfl : ['f','a','l','s','e'] = out := Except.ok.inj hdump
          exact (parseValue_at f (show skipWs (['f','a','l','s','e'] ++ rest) =
            'f' :: (['a','l','s','e'] ++ rest) from rfl)).trans rfl
        | true =>
          obtain rfl : ['t','r','u','e'] = out := Except.ok.inj hdump
          exact (parseValue_at f (show skipWs (['t','r','u','e'] ++ rest) =
            't' :: (['r','u','e'] ++ rest) from rfl)).trans rfl
      | pyint n =>
        obtain rfl : intDigits n = out := Except.ok.inj hdump
        obtain ⟨c, t, hct, hc⟩ := intDigits_head n
        have hws : isJsonWs c = false := (num_head_not_delim hc).1
        rw [hct]
        have hskip : skipWs ((c :: t) ++ rest) = c :: (t ++ rest) := by
          rw [show ((c :: t) ++ rest) = c :: (t ++ rest) from rfl, skipWs_not_ws _ hws]
        rw [parseValue_at f hskip, parseValueCore_num f _ hc]
        rw [show c :: (t ++ rest) = intDigits n ++ rest from by rw [hct]; rfl]
        exact parseNumber_intDigits n hfol
      | pyfloat m e =>
        obtain rfl : intDigits m ++ 'e' :: intDigits e = out := Except.ok.inj hdump
        have hcan : floatCanonical m e = true := hwf
        obtain ⟨c, t, hct, hc⟩ := intDigits_head m
        have hws : isJsonWs c = false := (num_head_not_delim hc).1
        have hre : (intDigits m ++ 'e' :: intDigits e) ++ rest =
            c :: (t ++ ('e' :: (intDigits e ++ rest))) := by
          rw [hct]; simp
        rw [hre]
        rw [parseValue_at f (skipWs_not_ws _ hws), parseValueCore_num f _ hc]
        rw [show c :: (t ++ ('e' :: (intDigits e ++ rest))) =
            intDigits m ++ ('e' :: (intDigits e ++ rest)) from by rw [hct]; rfl]
        exact parseNumber_floatDigits m e hfol hcan
      | pystr s =>
        obtain rfl : encodeString s = out := Except.ok.inj hdump
        have hre : encodeString s ++ rest =
            '\x22' :: (s.data.flatMap encodeChar ++ '\x22' :: rest) := by
          simp [encodeString]
        rw [hre]
        rw [parseValue_at f (skipWs_not_ws _ (by decide))]
        show (do
          let (body, r) ← parseStringBody
            ((s.data.flatMap encodeChar ++ '\x22' :: rest).length + 1)
            (s.data.flatMap encodeChar ++ '\x22' :: rest)
          Except.ok ((PyValue.pystr (String.mk body) : PyValue), r)) =
          Except.ok ((PyValue.pystr s : PyValue), rest)
        rw [parseStringBody_encode s.data
          ((s.data.flatMap encodeChar ++ '\x22' :: rest).length + 1) rest
          (by simp; omega), except_bind_ok]
      | pylist xs =>
        have hwl : wfL xs = true := hwf
        cases hb : dumpElems xs with
        | error e =>
          rw [dumpValue, hb, except_bind_err] at hdump
          exact absurd hdump (by simp)
        | ok body =>
          rw [dumpValue, hb, except_bind_ok] at hdump
          obtain rfl : '[' :: body ++ [']'] = out := Except.ok.inj hdump
          have hre : ('[' :: body ++ [']']) ++ rest = '[' :: (body ++ ']' :: rest) := by
            simp
          rw [hre, parseValue_at f (skipWs_not_ws _ (by decide))]
          show (do
            let (xs2, r) ← parseElems f (body ++ ']' :: rest)
            Except.ok ((PyValue.pylist xs2 : PyValue), r)) =
            Except.ok ((PyValue.pylist xs : PyValue), rest)
          have hneedl : needL xs ≤ f := by
            have h2 : 1 + needL xs ≤ f + 1 := hneed
            omega
          rw [HL xs body rest hwl hb hneedl, except_bind_ok]
      | pydict kvs =>
        have hwd : wfD kvs = true := hwf
        cases hb : dumpMembers kvs with
        | error e =>
          rw [dumpValue, hb, except_bind_err] at hdump
          exact absurd hdump (by simp)
        | ok body =>
          rw [dumpValue, hb, except_bind_ok] at hdump
          obtain rfl : '\x7b' :: body ++ ['\x7d'] = out := Except.ok.inj hdump
          have hre : ('\x7b' :: body ++ ['\x7d']) ++ rest =
              '\x7b' :: (body ++ '\x7d' :: rest) := by simp
          rw [hre, parseValue_at f (skipWs_not_ws _ (by decide))]
          show (do
            let (kvs2, r) ← parseMembers f (body ++ '\x7d' :: rest)
            Except.ok ((PyValue.pydict (dedupMembers kvs2) : PyValue), r)) =
            Except.ok ((PyValue.pydict kvs : PyValue), rest)
          have hneedd : needD kvs ≤ f := by
            have h2 : 1 + needD kvs ≤ f + 1 := hneed
            omega
          rw [HD kvs body rest hwd hb hneedd, except_bind_ok]
          show Except.ok ((PyValue.pydict (dedupMembers kvs) : PyValue), rest) =
            Except.ok ((PyValue.pydict kvs : PyValue), rest)
          rw [dedup_id kvs (wfD_nodup kvs hwd)]
      | pyobj t => exact absurd hdump (by simp [dumpValue])
    · -- parseElems of a printed element list
      intro xs out rest hwf hdump hneed
      cases xs with
      | nil =>
        obtain rfl : ([] : List Char) = out := Except.ok.inj hdump
        exact parseElems_close f rfl
      | cons hd tl =>
        rw [dumpElems_cons] at hdump
        have hw2 : (wfV hd && wfL tl) = true := hwf
        simp only [Bool.and_eq_true] at hw2
        cases h1 : dumpValue hd with
        | error e =>
          rw [h1, except_bind_err] at hdump
          exact absurd hdump (by simp)
        | ok ov =>
          cases h2 : dumpElemsTail tl with
          | error e =>
            rw [h1, except_bind_ok, h2, except_bind_err] at hdump
            exact absurd hdump (by simp)
          | ok tout =>
            rw [h1, except_bind_ok, h2, except_bind_ok] at hdump
            obtain rfl : ov ++ tout = out := Except.ok.inj hdump
            obtain ⟨c, t, rfl, hws, hcne, _, _⟩ := dumpValue_head h1
            have hre : ((c :: t) ++ tout) ++ ']' :: rest =
                c :: (t ++ (tout ++ ']' :: rest)) := by simp
            rw [hre, parseElems_value f (skipWs_not_ws _ hws) hcne]
            show (do
              let (v, cs2) ← parseValue f (c :: (t ++ (tout ++ ']' :: rest)))
              let (l, r) ← parseElemsRest f cs2
              Except.ok ((PyList.cons v l : PyList), r)) =
              Except.ok ((PyList.cons hd tl : PyList), rest)
            have hfol : followOk (tout ++ ']' :: rest) = true := by
              rcases dumpElemsTail_shape h2 with ⟨_, rfl⟩ | ⟨t2, rfl⟩ <;> rfl
            have hneedv : needV hd ≤ f := by
              have hx : 1 + max (needV hd) (needL tl) ≤ f + 1 := hneed
              omega
            have hneedtl : needL tl ≤ f := by
              have hx : 1 + max (needV hd) (needL tl) ≤ f + 1 := hneed
              omega
            rw [show c :: (t ++ (tout ++ ']' :: rest)) =
                (c :: t) ++ (tout ++ ']' :: rest) from rfl,
              HV hd (c :: t) (tout ++ ']' :: rest) hw2.1 h1 hneedv hfol,
              except_bind_ok]
            show (do
              let (l, r) ← parseElemsRest f (tout ++ ']' :: rest)
              Except.ok ((PyList.cons hd l : PyList), r)) =
              Except.ok ((PyList.cons hd tl : PyList), rest)
            rw [HLR tl tout rest hw2.2 h2 hneedtl, except_bind_ok]
    · -- parseElemsRest of a printed tail
      intro xs tout rest hwf hdump hneed
      cases xs with
      | nil =>
        obtain rfl : ([] : List Char) = tout := Except.ok.inj hdump
        exact parseElemsRest_close f rfl
      | cons hd tl =>
        have hw2 : (wfV hd && wfL tl) = true := hwf
        simp only [Bool.and_eq_true] at hw2
        cases h1 : dumpValue hd with
        | error e =>
          rw [dumpElemsTail, h1, except_bind_err] at hdump
          exact absurd hdump (by simp)
        | ok ov =>
          cases h2 : dumpElemsTail tl with
          | error e =>
            rw [dumpElemsTail, h1, except_bind_ok, h2, except_bind_err] at hdump
            exact absurd hdump (by simp)
          | ok t2out =>
            rw [dumpElemsTail, h1, except_bind_ok, h2, except_bind_ok] at hdump
            obtain rfl : ',' :: ' ' :: (ov ++ t2out) = tout := Except.ok.inj hdump
            have hre : (',' :: ' ' :: (ov ++ t2out)) ++ ']' :: rest =
                ',' :: (' ' :: (ov ++ (t2out ++ ']' :: rest))) := by simp
            rw [hre, parseElemsRest_comma f
              (show skipWs (',' :: (' ' :: (ov ++ (t2out ++ ']' :: rest)))) =
                ',' :: (' ' :: (ov ++ (t2out ++ ']' :: rest))) from rfl)]
            show (do
              let (v, cs2) ← parseValue f (' ' :: (ov ++ (t2out ++ ']' :: rest)))
              let (l, r) ← parseElemsRest f cs2
              Except.ok ((PyList.cons v l : PyList), r)) =
              Except.ok ((PyList.cons hd tl : PyList), rest)
            rw [parseValue_ws f (ov ++ (t2out ++ ']' :: rest)) (by decide)]
            have hfol : followOk (t2out ++ ']' :: rest) = true := by
              rcases dumpElemsTail_shape h2 with ⟨_, rfl⟩ | ⟨t2, rfl⟩ <;> rfl
            have hneedv : needV hd ≤ f := by
              have hx : 1 + max (needV hd) (needL tl) ≤ f + 1 := hneed
              omega
            have hneedtl : needL tl ≤ f := by
              have hx : 1 + max (needV hd) (needL tl) ≤ f + 1 := hneed
              omega
            rw [HV hd ov (t2out ++ ']' :: rest) hw2.1 h1 hneedv hfol, except_bind_ok]
            show (do
              let (l, r) ← parseElemsRest f (t2out ++ ']' :: rest)
              Except.ok ((PyList.cons hd l : PyList), r)) =
              Except.ok ((PyList.cons hd tl : PyList), rest)
            rw [HLR tl t2out rest hw2.2 h2 hneedtl, except_bind_ok]
    · -- parseMembers of a printed member list
      intro kvs out rest hwf hdump hneed
      cases kvs with
      | nil =>
        obtain rfl : ([] : List Char) = out := Except.ok.inj hdump
        exact parseMembers_close f rfl
      | cons k v tl =>
        rw [dumpMembers_cons] at hdump
        obtain ⟨hmem, hwv, hwtl⟩ := wfD_cons_elim hwf
        cases h1 : dumpValue v with
        | error e =>
          rw [h1, except_bind_err] at hdump
          exact absurd hdump (by simp)
        | ok body =>
          cases h2 : dumpMembersTail tl with
          | error e =>
            rw [h1, except_bind_ok, h2, except_bind_err] at hdump
            exact absurd hdump (by simp)
          | ok t2out =>
            rw [h1, except_bind_ok, h2, except_bind_ok] at hdump
            obtain rfl : encodeString k ++ ':' :: ' ' :: (body ++ t2out) = out :=
              Except.ok.inj hdump
            have hre : (encodeString k ++ ':' :: ' ' :: (body ++ t2out)) ++
                '\x7d' :: rest =
                '\x22' :: (k.data.flatMap encodeChar ++ '\x22' ::
                  (':' :: ' ' :: (body ++ (t2out ++ '\x7d' :: rest)))) := by
              simp [encodeString]
            rw [hre, parseMembers_key f (skipWs_not_ws _ (by decide))]
            have hneedv : needV v ≤ f := by
              have hx : 1 + max (needV v) (needD tl) ≤ f + 1 := hneed
              omega
            have hneedtl : needD tl ≤ f := by
              have hx : 1 + max (needV v) (needD tl) ≤ f + 1 := hneed
              omega
            exact rt_kv f HV HDR k v tl body t2out rest hwv hwtl h1 h2 hneedv hneedtl
    · -- parseMembersRest of a printed member tail
      intro kvs tout rest hwf hdump hneed
      cases kvs with
      | nil =>
        obtain rfl : ([] : List Char) = tout := Except.ok.inj hdump
        exact parseMembersRest_close f rfl
      | cons k v tl =>
        obtain ⟨hmem, hwv, hwtl⟩ := wfD_cons_elim hwf
        cases h1 : dumpValue v with
        | error e =>
          rw [dumpMembersTail, h1, except_bind_err] at hdump
          exact absurd hdump (by simp)
        | ok body =>
          cases h2 : dumpMembersTail tl with
          | error e =>
            rw [dumpMembersTail, h1, except_bind_ok, h2, except_bind_err] at hdump
            exact absurd hdump (by simp)
          | ok t2out =>
            rw [dumpMembersTail, h1, except_bind_ok, h2, except_bind_ok] at hdump
            obtain rfl : ',' :: ' ' ::
                (encodeString k ++ ':' :: ' ' :: (body ++ t2out)) = tout :=
              Except.ok.inj hdump
            have hre : (',' :: ' ' ::
                (encodeString k ++ ':' :: ' ' :: (body ++ t2out))) ++
                '\x7d' :: rest =
                ',' :: (' ' :: ('\x22' :: (k.data.flatMap encodeChar ++ '\x22' ::
                  (':' :: ' ' :: (body ++ (t2out ++ '\x7d' :: rest)))))) := by
              simp [encodeString]
            rw [hre, parseMembersRest_comma f
              (show skipWs (',' :: (' ' :: ('\x22' :: (k.data.flatMap encodeChar ++
                  '\x22' :: (':' :: ' ' :: (body ++ (t2out ++ '\x7d' :: rest))))))) =
                ',' :: (' ' :: ('\x22' :: (k.data.flatMap encodeChar ++
                  '\x22' :: (':' :: ' ' :: (body ++ (t2out ++ '\x7d' :: rest))))))
                from rfl)
              (show skipWs (' ' :: ('\x22' :: (k.data.flatMap encodeChar ++
                  '\x22' :: (':' :: ' ' :: (body ++ (t2out ++ '\x7d' :: rest)))))) =
                '\x22' :: (k.data.flatMap encodeChar ++
                  '\x22' :: (':' :: ' ' :: (body ++ (t2out ++ '\x7d' :: rest))))
                from rfl)]
            have hneedv : needV v ≤ f := by
              have hx : 1 + max (needV v) (needD tl) ≤ f + 1 := hneed
              omega
            have hneedtl : needD tl ≤ f := by
              have hx : 1 + max (needV v) (needD tl) ≤ f + 1 := hneed
              omega
            exact rt_kv f HV HDR k v tl body t2out rest hwv hwtl h1 h2 hneedv hneedtl

/-! ## Every parsed value is canonical (`wfV`) -/

theorem except_ok_of_bind {ε α β : Type} {x : Except ε α} {f : α → Except ε β} {b : β}
    (h : (x >>= f) = .ok b) : ∃ a, x = .ok a ∧ f a = .ok b := by
  cases x with
  | error e => rw [except_bind_err] at h; exact Except.noConfusion h
  | ok a => rw [except_bind_ok] at h; exact ⟨a, rfl, h⟩

theorem stripTensAux_wf : ∀ fuel n e, n ≠ 0 → n < 10 ^ fuel →
    (stripTensAux fuel n e).1 ≠ 0 ∧ (stripTensAux fuel n e).1 % 10 ≠ 0 := by
  intro fuel
  induction fuel with
  | zero =>
    intro n e hn hlt
    simp at hlt
    omega
  | succ f ih =>
    intro n e hn hlt
    by_cases hc : (n ≠ 0) ∧ n % 10 = 0
    · rw [show stripTensAux (f + 1) n e = stripTensAux f (n / 10) (e + 1) from by
        simp [stripTensAux, hc]]
      have hp : 10 ^ (f + 1) = 10 * 10 ^ f := by ring
      exact ih (n / 10) (e + 1) (by omega) (by omega)
    · rw [show stripTensAux (f + 1) n e = (n, e) from by simp [stripTensAux, hc]]
      exact ⟨hn, fun hmod => hc ⟨hn, hmod⟩⟩

theorem normFloat_wf (neg : Bool) (mag : Nat) (e : Int) :
    ∃ m2 e2, normFloat neg mag e = .pyfloat m2 e2 ∧ floatCanonical m2 e2 = true := by
  by_cases hm : mag = 0
  · subst hm
    exact ⟨0, 0, by simp [normFloat], by decide⟩
  · obtain ⟨h1, h2⟩ := stripTensAux_wf mag mag e hm (Nat.lt_pow_self (show 1 < 10 by omega) mag)
    refine ⟨if neg then -((stripTens mag e).1 : Int) else ((stripTens mag e).1 : Int),
      (stripTens mag e).2, by simp [normFloat, hm], ?_⟩
    have h1' : (stripTens mag e).1 ≠ 0 := h1
    have h2' : (stripTens mag e).1 % 10 ≠ 0 := h2
    cases neg with
    | false =>
      simp [floatCanonical, show ((stripTens mag e).1 : Int) ≠ 0 from by omega]
      omega
    | true =>
      simp [floatCanonical, show -((stripTens mag e).1 : Int) ≠ 0 from by omega]
      omega

theorem finishNumber_wf (neg : Bool) (ip : Nat) (cs2 : List Char)
    {v : PyValue} {rest : List Char}
    (h : finishNumber neg ip cs2 = .ok (v, rest)) : wfV v = true := by
  simp only [finishNumber] at h
  split at h
  · obtain ⟨hv, _⟩ := Prod.mk.injEq .. ▸ Except.ok.inj h
    rw [← hv]
    rfl
  · obtain ⟨m2, e2, hn, hc⟩ := normFloat_wf neg
      (ip * 10 ^ (splitFrac cs2).2.1 + (splitFrac cs2).1)
      (((splitExp (splitFrac cs2).2.2).1.getD 0) - ((splitFrac cs2).2.1 : Int))
    rw [hn] at h
    obtain ⟨hv, _⟩ := Prod.mk.injEq .. ▸ Except.ok.inj h
    rw [← hv]
    exact hc

theorem parseNumMag_wf (neg : Bool) (c : Char) (t : List Char)
    {v : PyValue} {rest : List Char}
    (h : parseNumMag neg c t = .ok (v, rest)) : wfV v = true := by
  simp only [parseNumMag] at h
  split_ifs at h with h1 h2
  · exact finishNumber_wf neg 0 t h
  · cases htd : takeDigits (c :: t) with
    | mk ds r =>
      rw [htd] at h
      exact finishNumber_wf neg (digitsToNat 0 ds) r h

theorem parseNumber_wf (cs : List Char) {v : PyValue} {rest : List Char}
    (h : parseNumber cs = .ok (v, rest)) : wfV v = true := by
  cases cs with
  | nil => exact Except.noConfusion h
  | cons c0 t0 =>
    simp only [parseNumber] at h
    split_ifs at h with h1
    · cases t0 with
      | nil => exact Except.noConfusion h
      | cons c t => exact parseNumMag_wf true c t h
    · exact parseNumMag_wf false c0 t0 h

theorem parse_wf_all : ∀ fuel : Nat,
    (∀ cs v rest, parseValue fuel cs = .ok (v, rest) → wfV v = true) ∧
    (∀ cs xs rest, parseElems fuel cs = .ok (xs, rest) → wfL xs = true) ∧
    (∀ cs xs rest, parseElemsRest fuel cs = .ok (xs, rest) → wfL xs = true) ∧
    (∀ cs kvs rest, parseMembers fuel cs = .ok (kvs, rest) → valuesWF kvs = true) ∧
    (∀ cs kvs rest, parseMembersRest fuel cs = .ok (kvs, rest) →
      valuesWF kvs = true) := by
  intro fuel
  induction fuel using Nat.strong_induction_on with
  | _ fuel ih =>
  match fuel with
  | 0 =>
    refine ⟨?_, ?_, ?_, ?_, ?_⟩ <;> intro cs a rest h <;> exact Except.noConfusion h
  | f + 1 =>
    obtain ⟨PV, PL, PLR, PD, PDR⟩ := ih f (Nat.lt_succ_self f)
    have hkv : ∀ cs kvs rest, parseMemberKV f cs = .ok (kvs, rest) →
        valuesWF kvs = true := by
      intro cs kvs rest h
      simp only [parseMemberKV] at h
      obtain ⟨⟨key, cs2⟩, hsb, h⟩ := except_ok_of_bind h
      cases hsw : skipWs cs2 with
      | nil => rw [hsw] at h; exact Except.noConfusion h
      | cons c cs3 =>
        rw [hsw] at h
        split at h
        · obtain ⟨⟨v, cs4⟩, hpv, h⟩ := except_ok_of_bind h
          obtain ⟨⟨tl, r⟩, hpr, h⟩ := except_ok_of_bind h
          have hq := Except.ok.inj h
          have hv : PyDict.cons (String.mk key) v tl = kvs := congrArg Prod.fst hq
          rw [← hv]
          show (wfV v && valuesWF tl) = true
          simp [PV _ v cs4 hpv, PDR _ tl r hpr]
        · exact Except.noConfusion h
    have hEV : ∀ cs xs rest, parseElemsValue f cs = .ok (xs, rest) →
        wfL xs = true := by
      intro cs xs rest h
      simp only [parseElemsValue] at h
      obtain ⟨⟨v, cs2⟩, hpv, h⟩ := except_ok_of_bind h
      obtain ⟨⟨tl, r⟩, hpr, h⟩ := except_ok_of_bind h
      have hq := Except.ok.inj h
      have hv : PyList.cons v tl = xs := congrArg Prod.fst hq
      rw [← hv]
      show (wfV v && wfL tl) = true
      simp [PV _ v cs2 hpv, PLR _ tl r hpr]
    have hcore : ∀ c cs1 v rest, parseValueCore f c cs1 = .ok (v, rest) →
        wfV v = true := by
      intro c cs1 v rest h
      simp only [parseValueCore] at h
      split_ifs at h with h1 h2 h3 h4 h5 h6 h7
      · obtain ⟨⟨kvs, r⟩, hm, h⟩ := except_ok_of_bind h
        have hq := Except.ok.inj h
        have hv : PyValue.pydict (dedupMembers kvs) = v := congrArg Prod.fst hq
        rw [← hv]
        show wfD (dedupMembers kvs) = true
        exact dedup_wf kvs (PD cs1 kvs r hm)
      · obtain ⟨⟨xs, r⟩, hm, h⟩ := except_ok_of_bind h
        have hq := Except.ok.inj h
        have hv : PyValue.pylist xs = v := congrArg Prod.fst hq
        rw [← hv]
        show wfL xs = true
        exact PL cs1 xs r hm
      · obtain ⟨⟨body, r⟩, hm, h⟩ := except_ok_of_bind h
        have hq := Except.ok.inj h
        have hv : PyValue.pystr (String.mk body) = v := congrArg Prod.fst hq
        rw [← hv]
        rfl
      · split at h
        · have hv : PyValue.pybool true = v := congrArg Prod.fst (Except.ok.inj h)
          rw [← hv]
          rfl
        · exact Except.noConfusion h
      · split at h
        · have hv : PyValue.pybool false = v := congrArg Prod.fst (Except.ok.inj h)
          rw [← hv]
          rfl
        · exact Except.noConfusion h
      · split at h
        · have hv : PyValue.pynone = v := congrArg Prod.fst (Except.ok.inj h)
          rw [← hv]
          rfl
        · exact Except.noConfusion h
      · exact parseNumber_wf (c :: cs1) h
    refine ⟨?_, ?_, ?_, ?_, ?_⟩
    · intro cs v rest h
      rw [parseValue_succ] at h
      cases hsw : skipWs cs with
      | nil => rw [hsw] at h; exact Except.noConfusion h
      | cons c cs1 => rw [hsw] at h; exact hcore c cs1 v rest h
    · intro cs xs rest h
      rw [parseElems_succ] at h
      cases hsw : skipWs cs with
      | nil => rw [hsw] at h; exact hEV [] xs rest h
      | cons c cs1 =>
        rw [hsw] at h
        split at h
        · have hv : PyList.nil = xs := congrArg Prod.fst (Except.ok.inj h)
          rw [← hv]
          rfl
        · exact hEV _ xs rest h
    · intro cs xs rest h
      rw [parseElemsRest_succ] at h
      cases hsw : skipWs cs with
      | nil => rw [hsw] at h; exact Except.noConfusion h
      | cons c cs1 =>
        rw [hsw] at h
        split at h
        · have hv : PyList.nil = xs := congrArg Prod.fst (Except.ok.inj h)
          rw [← hv]
          rfl
        · exact hEV _ xs rest h
        · exact Except.noConfusion h
    · intro cs kvs rest h
      rw [parseMembers_succ] at h
      cases hsw : skipWs cs with
      | nil => rw [hsw] at h; exact Except.noConfusion h
      | cons c cs1 =>
        rw [hsw] at h
        split at h
        · have hv : PyDict.nil = kvs := congrArg Prod.fst (Except.ok.inj h)
          rw [← hv]
          rfl
        · exact hkv _ kvs rest h
        · exact Except.noConfusion h
    · intro cs kvs rest h
      rw [parseMembersRest_succ] at h
      cases hsw : skipWs cs with
      | nil => rw [hsw] at h; exact Except.noConfusion h
      | cons c cs1 =>
        rw [hsw] at h
        split at h
        · have hv : PyDict.nil = kvs := congrArg Prod.fst (Except.ok.inj h)
          rw [← hv]
          rfl
        · rename_i cs2 _
          cases hsw2 : skipWs cs2 with
          | nil => rw [hsw2] at h; exact Except.noConfusion h
          | cons d cs3 =>
            rw [hsw2] at h
            split at h
            · exact hkv _ kvs rest h
            · exact Except.noConfusion h
        · exact Except.noConfusion h

/-! ## `json.loads (json.dumps v) = v` on canonical values -/

mutual
theorem wfV_noObj (v : PyValue) : wfV v = true → noObjV v = true := by
  cases v with
  | pylist xs =>
    intro h
    exact wfL_noObj xs h
  | pydict kvs =>
    intro h
    exact wfD_noObj kvs h
  | pynone => intro _; rfl
  | pybool b => intro _; rfl
  | pyint n => intro _; rfl
  | pyfloat m e => intro _; rfl
  | pystr s => intro _; rfl
  | pyobj t => intro h; exact absurd h (by simp [wfV])

theorem wfL_noObj (xs : PyList) : wfL xs = true → noObjL xs = true := by
  cases xs with
  | nil => intro _; rfl
  | cons hd tl =>
    intro h
    have h2 : (wfV hd && wfL tl) = true := h
    simp only [Bool.and_eq_true] at h2
    show (noObjV hd && noObjL tl) = true
    simp [wfV_noObj hd h2.1, wfL_noObj tl h2.2]

theorem wfD_noObj (kvs : PyDict) : wfD kvs = true → noObjD kvs = true := by
  cases kvs with
  | nil => intro _; rfl
  | cons k v tl =>
    intro h
    obtain ⟨_, hv, htl⟩ := wfD_cons_elim h
    show (noObjV v && noObjD tl) = true
    simp [wfV_noObj v hv, wfD_noObj tl htl]
end

theorem json_dumps_total (v : PyValue) (hwf : wfV v = true) :
    ∃ s, json_dumps v = .ok s := by
  obtain ⟨out, hd⟩ := dumpV_ok v (wfV_noObj v hwf)
  exact ⟨String.mk out, by rw [json_dumps, hd, except_bind_ok]⟩

theorem json_loads_dumps (v : PyValue) (hwf : wfV v = true) {s : String}
    (h : json_dumps v = .ok s) : json_loads s = .ok v := by
  cases hd : dumpValue v with
  | error e =>
    rw [json_dumps, hd, except_bind_err] at h
    exact Except.noConfusion h
  | ok out =>
    rw [json_dumps, hd, except_bind_ok] at h
    obtain rfl : String.mk out = s := Except.ok.inj h
    have hfuel : needV v ≤ out.length + 1 := needV_le_len v out hd
    have hrt := (rt_all (out.length + 1)).1 v out [] hwf hd hfuel rfl
    rw [List.append_nil] at hrt
    show (match parseValue (out.length + 1) out with
      | .error m => .error (PyError.jsonDecodeError m)
      | .ok (v2, rest) =>
        match skipWs rest with
        | [] => .ok v2
        | _ => .error (PyError.jsonDecodeError "Extra data")) = Except.ok v
    rw [hrt]
    rfl

theorem json_loads_wf {s : String} {v : PyValue} (h : json_loads s = .ok v) :
    wfV v = true := by
  revert h
  show (match parseValue (s.data.length + 1) s.data with
    | .error m => .error (PyError.jsonDecodeError m)
    | .ok (v2, rest) =>
      match skipWs rest with
      | [] => .ok v2
      | _ => .error (PyError.jsonDecodeError "Extra data")) = Except.ok v →
    wfV v = true
  intro h
  cases hp : parseValue (s.data.length + 1) s.data with
  | error m => rw [hp] at h; exact Except.noConfusion h
  | ok p =>
    obtain ⟨v2, rest⟩ := p
    rw [hp] at h
    have h2 : (match skipWs rest with
      | [] => Except.ok v2
      | _ => .error (PyError.jsonDecodeError "Extra data")) = Except.ok v := h
    cases hsw : skipWs rest with
    | nil =>
      rw [hsw] at h2
      obtain rfl : v2 = v := Except.ok.inj h2
      exact (parse_wf_all (s.data.length + 1)).1 s.data v2 rest hp
    | cons c t => rw [hsw] at h2; exact Except.noConfusion h2

/-! ## The payload of a live claim set is canonical -/

theorem member_get?_some (d : PyDict) (k : String) (h : d.member k = true) :
    ∃ v, d.get? k = some v := by
  induction d using PyDict.spineInduction with
  | hnil => exact absurd h (by simp [PyDict.member])
  | hcons k2 w tl ih =>
    by_cases he : k2 = k
    · exact ⟨w, by simp [PyDict.get?, he]⟩
    · have h2 : tl.member k = true := by simpa [PyDict.member, he] using h
      obtain ⟨v, hv⟩ := ih h2
      exact ⟨v, by simp [PyDict.get?, he, hv]⟩

theorem member_false_of_get?_none (d : PyDict) (k : String)
    (h : d.get? k = none) : d.member k = false := by
  cases hm : d.member k
  · rfl
  · obtain ⟨v, hv⟩ := member_get?_some d k hm
    rw [hv] at h
    exact Option.noConfusion h

theorem wfDEA_cons_elim {k : String} {v : PyValue} {tl : PyDict}
    (h : wfDExceptAud (.cons k v tl) = true) :
    tl.member k = false ∧ (k = "aud" ∨ wfV v = true) ∧ wfDExceptAud tl = true := by
  have h2 : ((!tl.member k && ((k == "aud") || wfV v)) && wfDExceptAud tl) = true := h
  simp only [Bool.and_eq_true, Bool.or_eq_true, Bool.not_eq_true'] at h2
  refine ⟨h2.1.1, ?_, h2.2⟩
  rcases h2.1.2 with hq | hw
  · exact .inl (by simpa using hq)
  · exact .inr hw

theorem wfDEA_cons_intro {k : String} {v : PyValue} {tl : PyDict}
    (h1 : tl.member k = false) (h2 : k = "aud" ∨ wfV v = true)
    (h3 : wfDExceptAud tl = true) : wfDExceptAud (.cons k v tl) = true := by
  show ((!tl.member k && ((k == "aud") || wfV v)) && wfDExceptAud tl) = true
  rcases h2 with rfl | hw
  · simp [h1, h3]
  · simp [h1, h3, hw]

theorem append_wfEA (p : PyDict) (k : String) (v : PyValue)
    (hp : wfDExceptAud p = true) (hv : k = "aud" ∨ wfV v = true)
    (hm : p.member k = false) : wfDExceptAud (p.append k v) = true := by
  induction p using PyDict.spineInduction with
  | hnil => exact wfDEA_cons_intro (by simp [PyDict.member]) hv rfl
  | hcons k2 w tl ih =>
    obtain ⟨hmem, hw, htl⟩ := wfDEA_cons_elim hp
    have hm2 : ((k2 = k : Bool) || tl.member k) = false := hm
    simp only [Bool.or_eq_false_iff] at hm2
    rw [show PyDict.append (.cons k2 w tl) k v = .cons k2 w (tl.append k v) from rfl]
    refine wfDEA_cons_intro ?_ hw (ih htl hm2.2)
    rw [PyDict.member_append]
    have hne : k ≠ k2 := by
      intro he
      subst he
      simp at hm2
    simp [hmem, hne]

theorem wfDEA_to_wfD (p : PyDict) (hp : wfDExceptAud p = true)
    (hna : p.member "aud" = false) : wfD p = true := by
  induction p using PyDict.spineInduction with
  | hnil => rfl
  | hcons k v tl ih =>
    obtain ⟨hmem, hw, htl⟩ := wfDEA_cons_elim hp
    have hm2 : ((k = "aud" : Bool) || tl.member "aud") = false := hna
    simp only [Bool.or_eq_false_iff] at hm2
    rcases hw with rfl | hwv
    · simp at hm2
    · exact wfD_cons_intro hmem hwv (ih htl hm2.2)

theorem setAud_wf (p : PyDict) (v : PyValue)
    (hp : wfDExceptAud p = true) (hv : wfV v = true) :
    wfD (p.set "aud" v) = true := by
  induction p using PyDict.spineInduction with
  | hnil => exact wfD_cons_intro (by simp [PyDict.member]) hv rfl
  | hcons k w tl ih =>
    obtain ⟨hmem, hw, htl⟩ := wfDEA_cons_elim hp
    by_cases he : k = "aud"
    · subst he
      rw [show PyDict.set (.cons "aud" w tl) "aud" v = .cons "aud" v tl from by
        simp [PyDict.set]]
      exact wfD_cons_intro hmem hv (wfDEA_to_wfD tl htl hmem)
    · rw [show PyDict.set (.cons k w tl) "aud" v = .cons k w (tl.set "aud" v) from by
        simp [PyDict.set, he]]
      rcases hw with rfl | hwv
      · exact absurd rfl he
      · refine wfD_cons_intro ?_ hwv (ih htl)
        rw [PyDict.member_set]
        have hne : "aud" ≠ k := fun hx => he hx.symm
        simp [hmem, hne]

theorem wfDEA_get_aud (p : PyDict) {v : PyValue}
    (hp : wfDExceptAud p = true) (hg : p.get? "aud" = some v)
    (hv : wfV v = true) : wfD p = true := by
  induction p using PyDict.spineInduction with
  | hnil => rfl
  | hcons k w tl ih =>
    obtain ⟨hmem, hw, htl⟩ := wfDEA_cons_elim hp
    by_cases he : k = "aud"
    · subst he
      have hvw : w = v := by simpa [PyDict.get?] using hg
      subst hvw
      exact wfD_cons_intro hmem hv (wfDEA_to_wfD tl htl hmem)
    · have hg2 : tl.get? "aud" = some v := by simpa [PyDict.get?, he] using hg
      rcases hw with rfl | hwv
      · exact absurd rfl he
      · exact wfD_cons_intro hmem hwv (ih htl hg2)

theorem allStrings_wfL (l : PyList) (h : l.allStrings = true) : wfL l = true := by
  induction l using PyList.spineInductionList with
  | hnil => rfl
  | hcons hd tl ih =>
    cases hd with
    | pystr s =>
      show (true && wfL tl) = true
      simp [ih (by simpa [PyList.allStrings] using h)]
    | pynone => exact absurd h (by simp [PyList.allStrings])
    | pybool b => exact absurd h (by simp [PyList.allStrings])
    | pyint n => exact absurd h (by simp [PyList.allStrings])
    | pyfloat m e => exact absurd h (by simp [PyList.allStrings])
    | pylist xs => exact absurd h (by simp [PyList.allStrings])
    | pydict kvs => exact absurd h (by simp [PyList.allStrings])
    | pyobj t => exact absurd h (by simp [PyList.allStrings])

/-- A payload that is canonical except possibly at `aud` becomes fully
canonical after a successful `__init__` (which validates or normalizes
`aud`). -/
theorem init_wf_exceptAud {p : PyDict} {j : RawJwt}
    (hp : wfDExceptAud p = true) (h : RawJwt.init p = .ok j) :
    wfD j.payload = true := by
  obtain ⟨_, _, _, _, _, _, haud⟩ := init_ok_elim h
  rcases validate_aud_ok_elim haud with ⟨hg, hq⟩ | ⟨s, hg, hq⟩ | ⟨l, hg, _, hstr, hq⟩
  · rw [hq]
    exact wfDEA_to_wfD p hp (member_false_of_get?_none p "aud" hg)
  · rw [hq]
    exact setAud_wf p _ hp (by show (true && true) = true; rfl)
  · rw [hq]
    exact wfDEA_get_aud p hp hg (allStrings_wfL l hstr)

theorem wfD_to_wfDEA (p : PyDict) (hp : wfD p = true) : wfDExceptAud p = true := by
  induction p using PyDict.spineInduction with
  | hnil => rfl
  | hcons k v tl ih =>
    obtain ⟨hmem, hv, htl⟩ := wfD_cons_elim hp
    exact wfDEA_cons_intro hmem (.inr hv) (ih htl)

theorem wfScalarFloats_cons_elim {name : String} {v : PyValue} {tl : PyDict}
    (h : wfScalarFloats (.cons name v tl) = true) :
    (∀ m e, v = .pyfloat m e → floatCanonical m e = true) ∧
    wfScalarFloats tl = true := by
  cases v with
  | pyfloat m e =>
    have h2 : (floatCanonical m e && wfScalarFloats tl) = true := h
    simp only [Bool.and_eq_true] at h2
    refine ⟨?_, h2.2⟩
    intro m2 e2 he
    obtain ⟨rfl, rfl⟩ : m = m2 ∧ e = e2 := by
      constructor <;> injection he <;> assumption
    exact h2.1
  | pynone => exact ⟨fun m e he => PyValue.noConfusion he, h⟩
  | pybool b => exact ⟨fun m e he => PyValue.noConfusion he, h⟩
  | pyint n => exact ⟨fun m e he => PyValue.noConfusion he, h⟩
  | pystr s => exact ⟨fun m e he => PyValue.noConfusion he, h⟩
  | pylist xs => exact ⟨fun m e he => PyValue.noConfusion he, h⟩
  | pydict kvs => exact ⟨fun m e he => PyValue.noConfusion he, h⟩
  | pyobj t => exact ⟨fun m e he => PyValue.noConfusion he, h⟩

theorem store_custom_wf {name : String} {v sv : PyValue}
    (h : RawJwt.store_custom_value name v = .ok sv)
    (hfl : ∀ m e, v = .pyfloat m e → floatCanonical m e = true) :
    wfV sv = true := by
  cases v with
  | pynone => obtain rfl : PyValue.pynone = sv := Except.ok.inj h; rfl
  | pybool b => obtain rfl : PyValue.pybool b = sv := Except.ok.inj h; rfl
  | pyint n => obtain rfl : PyValue.pyint n = sv := Except.ok.inj h; rfl
  | pystr s => obtain rfl : PyValue.pystr s = sv := Except.ok.inj h; rfl
  | pyfloat m e =>
    obtain rfl : PyValue.pyfloat m e = sv := Except.ok.inj h
    exact hfl m e rfl
  | pylist xs =>
    obtain ⟨s, _, hl⟩ := except_ok_of_bind h
    exact json_loads_wf hl
  | pydict kvs =>
    obtain ⟨s, _, hl⟩ := except_ok_of_bind h
    exact json_loads_wf hl
  | pyobj t => exact Except.noConfusion h

theorem add_custom_wfEA (cc : PyDict) : ∀ p : PyDict,
    wfDExceptAud p = true → cc.keysNodup = true → wfScalarFloats cc = true →
    (∀ k, cc.member k = true → p.member k = false ∨ k ∈ _REGISTERED_NAMES) →
    ∀ q, RawJwt.add_custom_claims p cc = .ok q → wfDExceptAud q = true ∧
      (∀ k, q.member k = true → p.member k = true ∨ cc.member k = true) := by
  induction cc using PyDict.spineInduction with
  | hnil =>
    intro p hEA _ _ _ q h
    obtain rfl : p = q := Except.ok.inj h
    exact ⟨hEA, fun k hk => .inl hk⟩
  | hcons name value tl ih =>
    intro p hEA hnd hsf hmem q h
    simp only [RawJwt.add_custom_claims] at h
    cases hval : _validate_custom_claim_name name with
    | error e =>
      rw [hval, except_bind_err] at h
      exact Except.noConfusion h
    | ok u =>
      cases u
      rw [hval, except_bind_ok] at h
      obtain ⟨sv, hst, h⟩ := except_ok_of_bind h
      have hnreg : name ∉ _REGISTERED_NAMES := (validate_custom_ok_iff name).mp hval
      obtain ⟨hfl, hsf'⟩ := wfScalarFloats_cons_elim hsf
      have hnd' : (!tl.member name && tl.keysNodup) = true := hnd
      simp only [Bool.and_eq_true, Bool.not_eq_true'] at hnd'
      have hfresh : p.member name = false := by
        rcases hmem name (by simp [PyDict.member]) with hf | hr
        · exact hf
        · exact absurd hr hnreg
      have hEA' : wfDExceptAud (p.append name sv) = true :=
        append_wfEA p name sv hEA (.inr (store_custom_wf hst hfl)) hfresh
      have hmem' : ∀ k, tl.member k = true →
          (p.append name sv).member k = false ∨ k ∈ _REGISTERED_NAMES := by
        intro k hk
        rcases hmem k (by simp [PyDict.member, hk]) with hf | hr
        · left
          rw [PyDict.member_append]
          have hne : name ≠ k := by
            intro he
            subst he
            rw [hnd'.1] at hk
            exact Bool.noConfusion hk
          simp [hf, hne]
        · exact .inr hr
      obtain ⟨hq, hqm⟩ := ih (p.append name sv) hEA' hnd'.2 hsf' hmem' q h
      refine ⟨hq, ?_⟩
      intro k hk
      rcases hqm k hk with hpk | htk
      · rw [PyDict.member_append] at hpk
        simp only [Bool.or_eq_true] at hpk
        rcases hpk with hpk | hnk
        · exact .inl hpk
        · right
          show ((name = k : Bool) || tl.member k) = true
          simp only [Bool.or_eq_true]
          exact .inl hnk
      · right
        show ((name = k : Bool) || tl.member k) = true
        simp [htk]

theorem step_issuer_member (i : Option String) (p : PyDict) (k : String)
    (h : (RawJwt.step_issuer i p).member k = true) :
    p.member k = true ∨ k = "iss" := by
  cases i with
  | none => exact .inl h
  | some s =>
    by_cases hs : s = ""
    · simp only [RawJwt.step_issuer, if_pos hs] at h
      exact .inl h
    · simp only [RawJwt.step_issuer, if_neg hs] at h
      rw [PyDict.member_append] at h
      simp only [Bool.or_eq_true] at h
      rcases h with h | h
      · exact .inl h
      · have hk : "iss" = k := by simpa using h
        exact .inr hk.symm

theorem step_subject_member (i : Option String) (p : PyDict) (k : String)
    (h : (RawJwt.step_subject i p).member k = true) :
    p.member k = true ∨ k = "sub" := by
  cases i with
  | none => exact .inl h
  | some s =>
    by_cases hs : s = ""
    · simp only [RawJwt.step_subject, if_pos hs] at h
      exact .inl h
    · simp only [RawJwt.step_subject, if_neg hs] at h
      rw [PyDict.member_append] at h
      simp only [Bool.or_eq_true] at h
      rcases h with h | h
      · exact .inl h
      · have hk : "sub" = k := by simpa using h
        exact .inr hk.symm

theorem step_jwt_id_member (i : Option String) (p : PyDict) (k : String)
    (h : (RawJwt.step_jwt_id i p).member k = true) :
    p.member k = true ∨ k = "jti" := by
  cases i with
  | none => exact .inl h
  | some s =>
    simp only [RawJwt.step_jwt_id] at h
    rw [PyDict.member_append] at h
    simp only [Bool.or_eq_true] at h
    rcases h with h | h
    · exact .inl h
    · have hk : "jti" = k := by simpa using h
      exact .inr hk.symm

theorem step_audiences_member (a : Option PyValue) (p : PyDict) (k : String)
    (h : (RawJwt.step_audiences a p).member k = true) :
    p.member k = true ∨ k = "aud" := by
  cases a with
  | none => exact .inl h
  | some v =>
    simp only [RawJwt.step_audiences] at h
    rw [PyDict.member_append] at h
    simp only [Bool.or_eq_true] at h
    rcases h with h | h
    · exact .inl h
    · have hk : "aud" = k := by simpa using h
      exact .inr hk.symm

theorem step_issuer_wfEA (i : Option String) (p : PyDict)
    (hp : wfDExceptAud p = true) (hf : p.member "iss" = false) :
    wfDExceptAud (RawJwt.step_issuer i p) = true := by
  cases i with
  | none => exact hp
  | some s =>
    by_cases hs : s = ""
    · simp only [RawJwt.step_issuer, if_pos hs]
      exact hp
    · simp only [RawJwt.step_issuer, if_neg hs]
      exact append_wfEA p "iss" (.pystr s) hp (.inr rfl) hf

theorem step_subject_wfEA (i : Option String) (p : PyDict)
    (hp : wfDExceptAud p = true) (hf : p.member "sub" = false) :
    wfDExceptAud (RawJwt.step_subject i p) = true := by
  cases i with
  | none => exact hp
  | some s =>
    by_cases hs : s = ""
    · simp only [RawJwt.step_subject, if_pos hs]
      exact hp
    · simp only [RawJwt.step_subject, if_neg hs]
      exact append_wfEA p "sub" (.pystr s) hp (.inr rfl) hf

theorem step_jwt_id_wfEA (i : Option String) (p : PyDict)
    (hp : wfDExceptAud p = true) (hf : p.member "jti" = false) :
    wfDExceptAud (RawJwt.step_jwt_id i p) = true := by
  cases i with
  | none => exact hp
  | some s => exact append_wfEA p "jti" (.pystr s) hp (.inr rfl) hf

theorem step_audiences_wfEA (a : Option PyValue) (p : PyDict)
    (hp : wfDExceptAud p = true) (hf : p.member "aud" = false) :
    wfDExceptAud (RawJwt.step_audiences a p) = true := by
  cases a with
  | none => exact hp
  | some v => exact append_wfEA p "aud" v hp (.inl rfl) hf

theorem p4_keys (issuer subject : Option String) (audiences : Option PyValue)
    (jwt_id : Option String) (k : String)
    (h : (RawJwt.step_audiences audiences (RawJwt.step_jwt_id jwt_id
      (RawJwt.step_subject subject (RawJwt.step_issuer issuer .nil)))).member k
      = true) :
    k = "iss" ∨ k = "sub" ∨ k = "jti" ∨ k = "aud" := by
  rcases step_audiences_member _ _ _ h with h3 | rfl
  · rcases step_jwt_id_member _ _ _ h3 with h2 | rfl
    · rcases step_subject_member _ _ _ h2 with h1 | rfl
      · rcases step_issuer_member _ _ _ h1 with h0 | rfl
        · exact absurd h0 (by simp [PyDict.member])
        · exact .inl rfl
      · exact .inr (.inl rfl)
    · exact .inr (.inr (.inl rfl))
  · exact .inr (.inr (.inr rfl))

theorem p4_wfEA (issuer subject : Option String) (audiences : Option PyValue)
    (jwt_id : Option String) :
    wfDExceptAud (RawJwt.step_audiences audiences (RawJwt.step_jwt_id jwt_id
      (RawJwt.step_subject subject (RawJwt.step_issuer issuer .nil)))) = true := by
  have h1 : wfDExceptAud (RawJwt.step_issuer issuer .nil) = true :=
    step_issuer_wfEA issuer .nil rfl rfl
  have hf2 : (RawJwt.step_issuer issuer .nil).member "sub" = false := by
    cases hm : (RawJwt.step_issuer issuer .nil).member "sub"
    · rfl
    · rcases step_issuer_member _ _ _ hm with h0 | h0
      · exact absurd h0 (by simp [PyDict.member])
      · exact absurd h0 (by decide)
  have h2 : wfDExceptAud (RawJwt.step_subject subject
      (RawJwt.step_issuer issuer .nil)) = true :=
    step_subject_wfEA subject _ h1 hf2
  have hf3 : (RawJwt.step_subject subject
      (RawJwt.step_issuer issuer .nil)).member "jti" = false := by
    cases hm : (RawJwt.step_subject subject (RawJwt.step_issuer issuer .nil)).member "jti"
    · rfl
    · rcases step_subject_member _ _ _ hm with h0 | h0
      · rcases step_issuer_member _ _ _ h0 with h9 | h9
        · exact absurd h9 (by simp [PyDict.member])
        · exact absurd h9 (by decide)
      · exact absurd h0 (by decide)
  have h3 : wfDExceptAud (RawJwt.step_jwt_id jwt_id (RawJwt.step_subject subject
      (RawJwt.step_issuer issuer .nil))) = true :=
    step_jwt_id_wfEA jwt_id _ h2 hf3
  have hf4 : (RawJwt.step_jwt_id jwt_id (RawJwt.step_subject subject
      (RawJwt.step_issuer issuer .nil))).member "aud" = false := by
    cases hm : (RawJwt.step_jwt_id jwt_id (RawJwt.step_subject subject
      (RawJwt.step_issuer issuer .nil))).member "aud"
    · rfl
    · rcases step_jwt_id_member _ _ _ hm with h0 | h0
      · rcases step_subject_member _ _ _ h0 with h9 | h9
        · rcases step_issuer_member _ _ _ h9 with h8 | h8
          · exact absurd h8 (by simp [PyDict.member])
          · exact absurd h8 (by decide)
        · exact absurd h9 (by decide)
      · exact absurd h0 (by decide)
  exact step_audiences_wfEA audiences _ h3 hf4

theorem time_step_propagate {p q : PyDict} {nm : String} {L : List String}
    (helim : q = p ∨ ∃ n : Int, q = p.append nm (.pyint n))
    (hEA : wfDExceptAud p = true)
    (hk : ∀ k, p.member k = true → k ∈ L)
    (hnm : nm ∉ L) :
    wfDExceptAud q = true ∧ (∀ k, q.member k = true → k ∈ nm :: L) := by
  rcases helim with rfl | ⟨n, rfl⟩
  · exact ⟨hEA, fun k hkk => List.mem_cons_of_mem _ (hk k hkk)⟩
  · have hfresh : p.member nm = false := by
      cases hm : p.member nm
      · rfl
      · exact absurd (hk nm hm) hnm
    refine ⟨append_wfEA p nm _ hEA (.inr rfl) hfresh, ?_⟩
    intro k hkk
    rw [PyDict.member_append] at hkk
    simp only [Bool.or_eq_true] at hkk
    rcases hkk with hkk | hkk
    · exact List.mem_cons_of_mem _ (hk k hkk)
    · have hke : nm = k := by simpa using hkk
      rw [← hke]
      exact List.mem_cons_self _ _

/-- The payload assembled by `create` is canonical except possibly at
`aud` (whose raw value `__init__` will vet), provided the custom-claims
argument is a well-formed Python dict. -/
theorem create_payload_wfEA {issuer subject : Option String}
    {audiences : Option PyValue} {jwt_id : Option String}
    {expiration not_before issued_at : Option PyDatetime}
    {custom_claims : Option PyDict} {p8 : PyDict}
    (h : RawJwt.create_payload issuer subject audiences jwt_id expiration not_before
      issued_at custom_claims = .ok p8)
    (hcc : CustomsWF custom_claims = true) :
    wfDExceptAud p8 = true := by
  obtain ⟨p5, p6, p7, h5, h6, h7, h8⟩ := create_payload_ok_elim h
  have h4EA := p4_wfEA issuer subject audiences jwt_id
  have h4k : ∀ k, (RawJwt.step_audiences audiences (RawJwt.step_jwt_id jwt_id
      (RawJwt.step_subject subject (RawJwt.step_issuer issuer .nil)))).member k
      = true → k ∈ ["iss", "sub", "jti", "aud"] := by
    intro k hk
    rcases p4_keys issuer subject audiences jwt_id k hk with rfl | rfl | rfl | rfl <;>
      decide
  obtain ⟨h5EA, h5k⟩ := time_step_propagate (step_expiration_elim h5) h4EA h4k
    (by decide)
  obtain ⟨h6EA, h6k⟩ := time_step_propagate (step_not_before_elim h6) h5EA h5k
    (by decide)
  obtain ⟨h7EA, h7k⟩ := time_step_propagate (step_issued_at_elim h7) h6EA h6k
    (by decide)
  have h7reg : ∀ k, p7.member k = true → k ∈ _REGISTERED_NAMES := by
    intro k hkk
    have h9 := h7k k hkk
    simp only [List.mem_cons] at h9
    rcases h9 with rfl | rfl | rfl | rfl | rfl | rfl | rfl | h9
    · decide
    · decide
    · decide
    · decide
    · decide
    · decide
    · decide
    · exact absurd h9 (by simp)
  cases custom_claims with
  | none =>
    obtain rfl : p7 = p8 := Except.ok.inj h8
    exact h7EA
  | some kvs =>
    have hcc2 : (kvs.keysNodup && wfScalarFloats kvs) = true := hcc
    simp only [Bool.and_eq_true] at hcc2
    by_cases hemp : kvs.isEmpty = true
    · simp only [RawJwt.step_customs, if_pos hemp] at h8
      obtain rfl : p7 = p8 := Except.ok.inj h8
      exact h7EA
    · simp only [RawJwt.step_customs, if_neg hemp] at h8
      have hmem : ∀ k, kvs.member k = true →
          p7.member k = false ∨ k ∈ _REGISTERED_NAMES := by
        intro k _
        cases hm : p7.member k
        · exact .inl rfl
        · exact .inr (h7reg k hm)
      exact (add_custom_wfEA kvs p7 h7EA hcc2.1 hcc2.2 hmem p8 h8).1

theorem validate_string_congr {p q : PyDict} (name : String)
    (h : p.get? name = q.get? name) :
    RawJwt._validate_string_claim p name = RawJwt._validate_string_claim q name := by
  unfold RawJwt._validate_string_claim
  rw [h]

theorem validate_number_congr {p q : PyDict} (name : String)
    (h : p.get? name = q.get? name) :
    RawJwt._validate_number_claim p name = RawJwt._validate_number_claim q name := by
  unfold RawJwt._validate_number_claim
  rw [h]

/-- `__init__` is idempotent on the payload it produced: the validators
all pass again and `aud`, already normalized, is left unchanged. -/
theorem init_idempotent {p : PyDict} {j : RawJwt} (h : RawJwt.init p = .ok j) :
    RawJwt.init j.payload = .ok j := by
  obtain ⟨h1, h2, h3, h4, h5, h6, h7⟩ := init_ok_elim h
  rcases validate_aud_ok_elim h7 with ⟨hg, hq⟩ | ⟨s, hg, hq⟩ | ⟨l, hg, hni, hstr, hq⟩
  · rw [hq]; exact h
  · cases j with
    | mk pay =>
      have hq2 : pay = p.set "aud" (.pylist (.cons (.pystr s) .nil)) := hq
      show RawJwt.init pay = .ok ⟨pay⟩
      rw [hq2]
      have hne : ∀ nm : String, nm ≠ "aud" →
          (p.set "aud" (.pylist (.cons (.pystr s) .nil))).get? nm = p.get? nm := by
        intro nm hnm
        exact PyDict.get?_set_ne p "aud" nm _ hnm
      have hgaud : (p.set "aud" (.pylist (.cons (.pystr s) .nil))).get? "aud" =
          some (.pylist (.cons (.pystr s) .nil)) :=
        PyDict.get?_set_self p "aud" _
      exact init_ok_intro
        (by rw [validate_string_congr "iss" (hne "iss" (by decide))]; exact h1)
        (by rw [validate_string_congr "sub" (hne "sub" (by decide))]; exact h2)
        (by rw [validate_string_congr "jti" (hne "jti" (by decide))]; exact h3)
        (by rw [validate_number_congr "exp" (hne "exp" (by decide))]; exact h4)
        (by rw [validate_number_congr "nbf" (hne "nbf" (by decide))]; exact h5)
        (by rw [validate_number_congr "iat" (hne "iat" (by decide))]; exact h6)
        (validate_aud_intro_list hgaud rfl rfl)
  · rw [hq]; exact h

theorem from_json_payload_ok_elim {s : String} {j : RawJwt}
    (h : RawJwt.from_json_payload s = .ok j) :
    ∃ kvs, json_loads s = .ok (.pydict kvs) ∧ RawJwt.init kvs = .ok j := by
  unfold RawJwt.from_json_payload at h
  obtain ⟨v, hl, h⟩ := except_ok_of_bind h
  cases v with
  | pydict kvs => exact ⟨kvs, hl, h⟩
  | pynone => exact Except.noConfusion h
  | pybool b => exact Except.noConfusion h
  | pyint n => exact Except.noConfusion h
  | pyfloat m e => exact Except.noConfusion h
  | pystr s2 => exact Except.noConfusion h
  | pylist xs => exact Except.noConfusion h
  | pyobj t => exact Except.noConfusion h

/-- Both construction paths leave a canonical payload on which
`__init__` succeeds again, returning the same claim set. -/
theorem valid_elim (j : RawJwt) (hv : ValidlyConstructed j) :
    wfD j.payload = true ∧ RawJwt.init j.payload = .ok j := by
  rcases hv with ⟨i, s, a, ji, e, n, ia, cc, hcc, hcr⟩ | ⟨s, hp⟩
  · obtain ⟨p8, hp8, hinit⟩ := create_ok_elim hcr
    exact ⟨init_wf_exceptAud (create_payload_wfEA hp8 hcc) hinit,
      init_idempotent hinit⟩
  · obtain ⟨kvs, hl, hinit⟩ := from_json_payload_ok_elim hp
    have hwf : wfD kvs = true := json_loads_wf hl
    exact ⟨init_wf_exceptAud (wfD_to_wfDEA kvs hwf) hinit, init_idempotent hinit⟩

/-- C1: for every validly constructed claim set `j` (built by
`create`/`new_raw_jwt` from well-formed arguments, or parsed by
`from_json_payload`), `json_payload` succeeds and feeding its output
back through `from_json_payload` succeeds and returns the same claim
set -- in particular the claim-name-to-value mapping is identical. -/
theorem C1_serialization_roundtrip (j : RawJwt) (hv : ValidlyConstructed j) :
    ∃ s, RawJwt.json_payload j = .ok s ∧ RawJwt.from_json_payload s = .ok j := by
  obtain ⟨hwf, hinit⟩ := valid_elim j hv
  have hwfv : wfV (.pydict j.payload) = true := hwf
  obtain ⟨s, hs⟩ := json_dumps_total (.pydict j.payload) hwfv
  refine ⟨s, hs, ?_⟩
  have hl := json_loads_dumps (.pydict j.payload) hwfv hs
  show (do
    let v ← json_loads s
    match v with
    | .pydict kvs => RawJwt.init kvs
    | _ => .error (.typeError "argument of type is not a dict")) = .ok j
  rw [hl, except_bind_ok]
  exact hinit

theorem C1_serialization_roundtrip_witness :
    ∃ j, ValidlyConstructed j ∧
      ∃ s, RawJwt.json_payload j = .ok s ∧ RawJwt.from_json_payload s = .ok j := by
  have hc : RawJwt.create (some "joe") none none none none none none none =
      .ok ⟨.cons "iss" (.pystr "joe") .nil⟩ := rfl
  have hval : ValidlyConstructed ⟨.cons "iss" (.pystr "joe") .nil⟩ :=
    .inl ⟨some "joe", none, none, none, none, none, none, none, rfl, hc⟩
  exact ⟨_, hval, C1_serialization_roundtrip _ hval⟩

/-! ## C2: decode failures propagate as `JSONDecodeError` -/

theorem json_loads_err_shape {s : String} {e : PyError}
    (h : json_loads s = .error e) : ∃ m, e = .jsonDecodeError m := by
  revert h
  show (match parseValue (s.data.length + 1) s.data with
    | .error m => .error (PyError.jsonDecodeError m)
    | .ok (v2, rest) =>
      match skipWs rest with
      | [] => .ok v2
      | _ => .error (PyError.jsonDecodeError "Extra data")) = Except.error e →
    ∃ m, e = .jsonDecodeError m
  intro h
  cases hp : parseValue (s.data.length + 1) s.data with
  | error m =>
    rw [hp] at h
    exact ⟨m, (Except.error.inj h).symm⟩
  | ok p =>
    obtain ⟨v2, rest⟩ := p
    rw [hp] at h
    have h2 : (match skipWs rest with
      | [] => Except.ok v2
      | _ => .error (PyError.jsonDecodeError "Extra data")) = Except.error e := h
    cases hsw : skipWs rest with
    | nil => rw [hsw] at h2; exact Except.noConfusion h2
    | cons c t =>
      rw [hsw] at h2
      exact ⟨"Extra data", (Except.error.inj h2).symm⟩

/-- C2, amended: when the input is not valid JSON, `from_json_payload`
fails by propagating the `json.JSONDecodeError` unchanged -- a
`ValueError`, which is *not* the `JwtInvalidError` kind used for claim
violations (`C2_counterexample` exhibits the kind mismatch). -/
theorem C2_amended_decode_propagates (s : String) (e : PyError)
    (h : json_loads s = .error e) :
    RawJwt.from_json_payload s = .error e ∧
    (∃ m, e = .jsonDecodeError m) ∧
    isJwtInvalid (RawJwt.from_json_payload s) = false := by
  have hshape := json_loads_err_shape h
  have hfj : RawJwt.from_json_payload s = .error e := by
    show (do
      let v ← json_loads s
      match v with
      | .pydict kvs => RawJwt.init kvs
      | _ => .error (.typeError "argument of type is not a dict")) = .error e
    rw [h, except_bind_err]
  refine ⟨hfj, hshape, ?_⟩
  obtain ⟨m, rfl⟩ := hshape
  rw [hfj]
  rfl

theorem C2_amended_decode_propagates_witness :
    json_loads "\x7b" = .error (.jsonDecodeError
      "Expecting property name enclosed in double quotes") ∧
    RawJwt.from_json_payload "\x7b" = .error (.jsonDecodeError
      "Expecting property name enclosed in double quotes") ∧
    isJwtInvalid (RawJwt.from_json_payload "\x7b") = false := by
  have h : json_loads "\x7b" = .error (.jsonDecodeError
      "Expecting property name enclosed in double quotes") := rfl
  obtain ⟨h1, _, h3⟩ := C2_amended_decode_propagates "\x7b" _ h
  exact ⟨h, h1, h3⟩

/-! ## C9: `deepcopy` protects the stored value from mutation -/

mutual
theorem pyDeepcopy_id (v : PyValue) : pyDeepcopy v = v := by
  cases v with
  | pylist xs => show PyValue.pylist (pyDeepcopyL xs) = _; rw [pyDeepcopyL_id]
  | pydict kvs => show PyValue.pydict (pyDeepcopyD kvs) = _; rw [pyDeepcopyD_id]
  | pynone => rfl
  | pybool b => rfl
  | pyint n => rfl
  | pyfloat m e => rfl
  | pystr s => rfl
  | pyobj t => rfl

theorem pyDeepcopyL_id (xs : PyList) : pyDeepcopyL xs = xs := by
  cases xs with
  | nil => rfl
  | cons hd tl =>
    show PyList.cons (pyDeepcopy hd) (pyDeepcopyL tl) = _
    rw [pyDeepcopy_id, pyDeepcopyL_id]

theorem pyDeepcopyD_id (kvs : PyDict) : pyDeepcopyD kvs = kvs := by
  cases kvs with
  | nil => rfl
  | cons k v tl =>
    show PyDict.cons k (pyDeepcopy v) (pyDeepcopyD tl) = _
    rw [pyDeepcopy_id, pyDeepcopyD_id]
end

mutual
theorem eraseId_idCopyV (w : IdValue) : ∀ n, eraseIdV (idCopyV n w).1 = eraseIdV w := by
  cases w with
  | ilist id xs =>
    intro n
    show eraseIdV (.ilist n (idCopyL (n + 1) xs).1) = _
    show PyValue.pylist (eraseIdL (idCopyL (n + 1) xs).1) = _
    rw [eraseId_idCopyL xs (n + 1)]
    rfl
  | idict id kvs =>
    intro n
    show eraseIdV (.idict n (idCopyD (n + 1) kvs).1) = _
    show PyValue.pydict (eraseIdD (idCopyD (n + 1) kvs).1) = _
    rw [eraseId_idCopyD kvs (n + 1)]
    rfl
  | inone => intro n; rfl
  | ibool b => intro n; rfl
  | iint n2 => intro n; rfl
  | ifloat m e => intro n; rfl
  | istr s => intro n; rfl

theorem eraseId_idCopyL (xs : IdList) : ∀ n, eraseIdL (idCopyL n xs).1 = eraseIdL xs := by
  cases xs with
  | nil => intro n; rfl
  | cons hd tl =>
    intro n
    show PyList.cons (eraseIdV (idCopyV n hd).1)
      (eraseIdL (idCopyL (idCopyV n hd).2 tl).1) = _
    rw [eraseId_idCopyV hd n, eraseId_idCopyL tl (idCopyV n hd).2]
    rfl

theorem eraseId_idCopyD (kvs : IdDict) : ∀ n, eraseIdD (idCopyD n kvs).1 = eraseIdD kvs := by
  cases kvs with
  | nil => intro n; rfl
  | cons k v tl =>
    intro n
    show PyDict.cons k (eraseIdV (idCopyV n v).1)
      (eraseIdD (idCopyD (idCopyV n v).2 tl).1) = _
    rw [eraseId_idCopyV v n, eraseId_idCopyD tl (idCopyV n v).2]
    rfl
end

mutual
theorem idCopyV_next_mono (w : IdValue) : ∀ n, n ≤ (idCopyV n w).2 := by
  cases w with
  | ilist id xs =>
    intro n
    show n ≤ (idCopyL (n + 1) xs).2
    have := idCopyL_next_mono xs (n + 1)
    omega
  | idict id kvs =>
    intro n
    show n ≤ (idCopyD (n + 1) kvs).2
    have := idCopyD_next_mono kvs (n + 1)
    omega
  | inone => intro n; exact Nat.le_refl n
  | ibool b => intro n; exact Nat.le_refl n
  | iint n2 => intro n; exact Nat.le_refl n
  | ifloat m e => intro n; exact Nat.le_refl n
  | istr s => intro n; exact Nat.le_refl n

theorem idCopyL_next_mono (xs : IdList) : ∀ n, n ≤ (idCopyL n xs).2 := by
  cases xs with
  | nil => intro n; exact Nat.le_refl n
  | cons hd tl =>
    intro n
    show n ≤ (idCopyL (idCopyV n hd).2 tl).2
    have h1 := idCopyV_next_mono hd n
    have h2 := idCopyL_next_mono tl (idCopyV n hd).2
    omega

theorem idCopyD_next_mono (kvs : IdDict) : ∀ n, n ≤ (idCopyD n kvs).2 := by
  cases kvs with
  | nil => intro n; exact Nat.le_refl n
  | cons k v tl =>
    intro n
    show n ≤ (idCopyD (idCopyV n v).2 tl).2
    have h1 := idCopyV_next_mono v n
    have h2 := idCopyD_next_mono tl (idCopyV n v).2
    omega
end

mutual
theorem idCopyV_ids_ge (w : IdValue) : ∀ n i, i ∈ idsV (idCopyV n w).1 → n ≤ i := by
  cases w with
  | ilist id xs =>
    intro n i hi
    have hi2 : i ∈ n :: idsL (idCopyL (n + 1) xs).1 := hi
    rcases List.mem_cons.mp hi2 with rfl | hi3
    · exact Nat.le_refl i
    · have := idCopyL_ids_ge xs (n + 1) i hi3
      omega
  | idict id kvs =>
    intro n i hi
    have hi2 : i ∈ n :: idsD (idCopyD (n + 1) kvs).1 := hi
    rcases List.mem_cons.mp hi2 with rfl | hi3
    · exact Nat.le_refl i
    · have := idCopyD_ids_ge kvs (n + 1) i hi3
      omega
  | inone => intro n i hi; exact absurd hi (by simp [idCopyV, idsV])
  | ibool b => intro n i hi; exact absurd hi (by simp [idCopyV, idsV])
  | iint n2 => intro n i hi; exact absurd hi (by simp [idCopyV, idsV])
  | ifloat m e => intro n i hi; exact absurd hi (by simp [idCopyV, idsV])
  | istr s => intro n i hi; exact absurd hi (by simp [idCopyV, idsV])

theorem idCopyL_ids_ge (xs : IdList) : ∀ n i, i ∈ idsL (idCopyL n xs).1 → n ≤ i := by
  cases xs with
  | nil => intro n i hi; exact absurd hi (by simp [idCopyL, idsL])
  | cons hd tl =>
    intro n i hi
    have hi2 : i ∈ idsV (idCopyV n hd).1 ++ idsL (idCopyL (idCopyV n hd).2 tl).1 := hi
    rcases List.mem_append.mp hi2 with hi3 | hi3
    · exact idCopyV_ids_ge hd n i hi3
    · have h1 := idCopyV_next_mono hd n
      have h2 := idCopyL_ids_ge tl (idCopyV n hd).2 i hi3
      omega

theorem idCopyD_ids_ge (kvs : IdDict) : ∀ n i, i ∈ idsD (idCopyD n kvs).1 → n ≤ i := by
  cases kvs with
  | nil => intro n i hi; exact absurd hi (by simp [idCopyD, idsD])
  | cons k v tl =>
    intro n i hi
    have hi2 : i ∈ idsV (idCopyV n v).1 ++ idsD (idCopyD (idCopyV n v).2 tl).1 := hi
    rcases List.mem_append.mp hi2 with hi3 | hi3
    · exact idCopyV_ids_ge v n i hi3
    · have h1 := idCopyV_next_mono v n
      have h2 := idCopyD_ids_ge tl (idCopyV n v).2 i hi3
      omega
end

mutual
theorem setChildrenV_absent (w : IdValue) (i : Nat) (xs : IdList) (kvs : IdDict)
    (h : i ∉ idsV w) : setChildrenV i xs kvs w = w := by
  cases w with
  | ilist j ys =>
    have hj : j ≠ i := by
      intro he
      exact h (by rw [he]; exact List.mem_cons_self _ _)
    show (if j = i then IdValue.ilist j xs
      else .ilist j (setChildrenL i xs kvs ys)) = _
    rw [if_neg hj, setChildrenL_absent ys i xs kvs
      (fun hm => h (List.mem_cons_of_mem _ hm))]
  | idict j ws =>
    have hj : j ≠ i := by
      intro he
      exact h (by rw [he]; exact List.mem_cons_self _ _)
    show (if j = i then IdValue.idict j kvs
      else .idict j (setChildrenD i xs kvs ws)) = _
    rw [if_neg hj, setChildrenD_absent ws i xs kvs
      (fun hm => h (List.mem_cons_of_mem _ hm))]
  | inone => rfl
  | ibool b => rfl
  | iint n => rfl
  | ifloat m e => rfl
  | istr s => rfl

theorem setChildrenL_absent (ys : IdList) (i : Nat) (xs : IdList) (kvs : IdDict)
    (h : i ∉ idsL ys) : setChildrenL i xs kvs ys = ys := by
  cases ys with
  | nil => rfl
  | cons hd tl =>
    show IdList.cons (setChildrenV i xs kvs hd) (setChildrenL i xs kvs tl) = _
    rw [setChildrenV_absent hd i xs kvs
      (fun hm => h (List.mem_append.mpr (.inl hm))),
      setChildrenL_absent tl i xs kvs
      (fun hm => h (List.mem_append.mpr (.inr hm)))]

theorem setChildrenD_absent (ws : IdDict) (i : Nat) (xs : IdList) (kvs : IdDict)
    (h : i ∉ idsD ws) : setChildrenD i xs kvs ws = ws := by
  cases ws with
  | nil => rfl
  | cons k v tl =>
    show IdDict.cons k (setChildrenV i xs kvs v) (setChildrenD i xs kvs tl) = _
    rw [setChildrenV_absent v i xs kvs
      (fun hm => h (List.mem_append.mpr (.inl hm))),
      setChildrenD_absent tl i xs kvs
      (fun hm => h (List.mem_append.mpr (.inr hm)))]
end

theorem idsBelow_lt {n : Nat} {w : IdValue} (h : idsBelow n w = true)
    {i : Nat} (hi : i ∈ idsV w) : i < n := by
  have h2 := List.all_eq_true.mp h i hi
  simpa using h2

/-- C9: on a claim set holding a custom claim whose value is a list or
dict, `custom_claim` returns `copy.deepcopy` of the stored value; the
copy denotes the same value, and at the object-identity level every
node of the copy carries a fresh identity, so replacing the contents of
any node reachable from the returned object leaves the stored object
untouched -- a later `custom_claim` or `json_payload` sees the original
value unchanged. -/
theorem C9_custom_claim_deepcopy (j : RawJwt) (name : String) (v : PyValue)
    (hn : name ∉ _REGISTERED_NAMES) (hg : j.payload.get? name = some v)
    (w : IdValue) (next : Nat) (hw : eraseIdV w = v) (hb : idsBelow next w = true)
    (hcomp : isCompound w = true) :
    RawJwt.custom_claim j name = .ok (pyDeepcopy v) ∧
    pyDeepcopy v = v ∧
    eraseIdV (idCustomClaim w next).1 = v ∧
    (∀ i, i ∈ idsV (idCustomClaim w next).1 → ∀ xs kvs,
      setChildrenV i xs kvs w = w) := by
  have hid : idCustomClaim w next = idCopyV next w := by
    cases w <;> first | rfl | exact absurd hcomp (by simp [isCompound])
  refine ⟨?_, pyDeepcopy_id v, ?_, ?_⟩
  · show (do
      _ ← _validate_custom_claim_name name
      match j.payload.get? name with
      | none => Except.error (.keyError name)
      | some value =>
        match value with
        | .pylist _ => Except.ok (pyDeepcopy value)
        | .pydict _ => Except.ok (pyDeepcopy value)
        | _ => Except.ok value) = .ok (pyDeepcopy v)
    rw [(validate_custom_ok_iff name).mpr hn, except_bind_ok, hg]
    cases w with
    | ilist id xs =>
      obtain rfl : PyValue.pylist (eraseIdL xs) = v := hw
      rfl
    | idict id kvs =>
      obtain rfl : PyValue.pydict (eraseIdD kvs) = v := hw
      rfl
    | inone => exact absurd hcomp (by simp [isCompound])
    | ibool b => exact absurd hcomp (by simp [isCompound])
    | iint n2 => exact absurd hcomp (by simp [isCompound])
    | ifloat m e => exact absurd hcomp (by simp [isCompound])
    | istr s => exact absurd hcomp (by simp [isCompound])
  · rw [hid, eraseId_idCopyV w next]
    exact hw
  · intro i hi xs kvs
    rw [hid] at hi
    have hge := idCopyV_ids_ge w next i hi
    refine setChildrenV_absent w i xs kvs ?_
    intro hmem
    have := idsBelow_lt hb hmem
    omega

theorem C9_custom_claim_deepcopy_witness :
    ∃ j name v w next,
      RawJwt.custom_claim j name = .ok (pyDeepcopy v) ∧
      pyDeepcopy v = v ∧
      eraseIdV (idCustomClaim w next).1 = v ∧
      (∀ i, i ∈ idsV (idCustomClaim w next).1 → ∀ xs kvs,
        setChildrenV i xs kvs w = w) := by
  have h := C9_custom_claim_deepcopy
    ⟨.cons "a" (.pylist (.cons (.pyint 1) .nil)) .nil⟩ "a"
    (.pylist (.cons (.pyint 1) .nil)) (by decide) rfl
    (.ilist 0 (.cons (.iint 1) .nil)) 1 rfl (by decide) rfl
  exact ⟨_, _, _, _, _, h⟩

/-! ## C5: a registered name among the custom claims -/

theorem store_custom_total (name : String) (v : PyValue) (hwf : wfV v = true) :
    RawJwt.store_custom_value name v = .ok v := by
  cases v with
  | pynone => rfl
  | pybool b => rfl
  | pyint n => rfl
  | pyfloat m e => rfl
  | pystr s => rfl
  | pylist xs =>
    show (do
      let s ← json_dumps (.pylist xs)
      json_loads s) = Except.ok (.pylist xs)
    obtain ⟨s, hs⟩ := json_dumps_total (.pylist xs) hwf
    rw [hs, except_bind_ok]
    exact json_loads_dumps (.pylist xs) hwf hs
  | pydict kvs =>
    show (do
      let s ← json_dumps (.pydict kvs)
      json_loads s) = Except.ok (.pydict kvs)
    obtain ⟨s, hs⟩ := json_dumps_total (.pydict kvs) hwf
    rw [hs, except_bind_ok]
    exact json_loads_dumps (.pydict kvs) hwf hs
  | pyobj t => exact absurd hwf (by simp [wfV])

theorem add_custom_reg_jwtInvalid (cc : PyDict) : ∀ (p : PyDict) (name : String),
    cc.member name = true → name ∈ _REGISTERED_NAMES → valuesWF cc = true →
    isJwtInvalid (RawJwt.add_custom_claims p cc) = true := by
  induction cc using PyDict.spineInduction with
  | hnil => intro p name h _ _; simp [PyDict.member] at h
  | hcons k v tl ih =>
    intro p name hm hreg hvw
    have hvw2 : (wfV v && valuesWF tl) = true := hvw
    simp only [Bool.and_eq_true] at hvw2
    unfold RawJwt.add_custom_claims
    by_cases hk : k ∈ _REGISTERED_NAMES
    · rw [validate_custom_err k hk, except_bind_err]
      rfl
    · rw [(validate_custom_ok_iff k).2 hk, except_bind_ok,
        store_custom_total k v hvw2.1, except_bind_ok]
      have hmem : tl.member name = true := by
        simp [PyDict.member] at hm
        rcases hm with hm | hm
        · exact absurd (hm ▸ hreg) hk
        · exact hm
      exact ih (p.append k v) name hmem hreg hvw2.2

theorem member_not_isEmpty {cc : PyDict} {name : String}
    (h : cc.member name = true) : cc.isEmpty = false := by
  cases cc with
  | nil => exact absurd h (by simp [PyDict.member])
  | cons k v tl => rfl

theorem from_datetime_err_kind {t : PyDatetime} {e : PyError}
    (h : _from_datetime t = .error e) : isJwtInvalid (Except.error e : Except PyError PyDict) = true := by
  cases ht : t.tzoffset with
  | none =>
    unfold _from_datetime at h
    rw [ht] at h
    obtain rfl : PyError.jwtInvalidError "datetime must have tzinfo" = e :=
      Except.error.inj h
    rfl
  | some off =>
    unfold _from_datetime at h
    rw [ht] at h
    exact Except.noConfusion h

theorem step_expiration_err_kind {e0 : Option PyDatetime} {p : PyDict} {er : PyError}
    (h : RawJwt.step_expiration e0 p = .error er) :
    isJwtInvalid (Except.error er : Except PyError PyDict) = true := by
  cases e0 with
  | none => exact absurd h (fun hx => Except.noConfusion hx)
  | some t =>
    simp only [RawJwt.step_expiration] at h
    cases hf : _from_datetime t with
    | error e2 =>
      rw [hf, except_bind_err] at h
      obtain rfl : e2 = er := Except.error.inj h
      exact from_datetime_err_kind hf
    | ok n =>
      rw [hf, except_bind_ok] at h
      exact absurd h (fun hx => Except.noConfusion hx)

theorem step_not_before_err_kind {e0 : Option PyDatetime} {p : PyDict} {er : PyError}
    (h : RawJwt.step_not_before e0 p = .error er) :
    isJwtInvalid (Except.error er : Except PyError PyDict) = true := by
  cases e0 with
  | none => exact absurd h (fun hx => Except.noConfusion hx)
  | some t =>
    simp only [RawJwt.step_not_before] at h
    cases hf : _from_datetime t with
    | error e2 =>
      rw [hf, except_bind_err] at h
      obtain rfl : e2 = er := Except.error.inj h
      exact from_datetime_err_kind hf
    | ok n =>
      rw [hf, except_bind_ok] at h
      exact absurd h (fun hx => Except.noConfusion hx)

theorem step_issued_at_err_kind {e0 : Option PyDatetime} {p : PyDict} {er : PyError}
    (h : RawJwt.step_issued_at e0 p = .error er) :
    isJwtInvalid (Except.error er : Except PyError PyDict) = true := by
  cases e0 with
  | none => exact absurd h (fun hx => Except.noConfusion hx)
  | some t =>
    simp only [RawJwt.step_issued_at] at h
    cases hf : _from_datetime t with
    | error e2 =>
      rw [hf, except_bind_err] at h
      obtain rfl : e2 = er := Except.error.inj h
      exact from_datetime_err_kind hf
    | ok n =>
      rw [hf, except_bind_ok] at h
      exact absurd h (fun hx => Except.noConfusion hx)

theorem isJwtInvalid_error_any {α β : Type} (e : PyError) :
    isJwtInvalid (Except.error e : Except PyError α) =
    isJwtInvalid (Except.error e : Except PyError β) := by
  cases e <;> rfl

theorem create_payload_customs_err_kind {issuer subject : Option String}
    {audiences : Option PyValue} {jwt_id : Option String}
    {expiration not_before issued_at : Option PyDatetime}
    {cc : PyDict} {name : String} {e : PyError}
    (hm : cc.member name = true) (hreg : name ∈ _REGISTERED_NAMES)
    (hvw : valuesWF cc = true)
    (hcp : RawJwt.create_payload issuer subject audiences jwt_id expiration
      not_before issued_at (some cc) = .error e) :
    isJwtInvalid (Except.error e : Except PyError PyDict) = true := by
  simp only [RawJwt.create_payload] at hcp
  cases h5 : RawJwt.step_expiration expiration (RawJwt.step_audiences audiences
    (RawJwt.step_jwt_id jwt_id (RawJwt.step_subject subject
      (RawJwt.step_issuer issuer .nil)))) <;> rw [h5] at hcp
  case error e5 =>
    rw [except_bind_err] at hcp
    obtain rfl : e5 = e := Except.error.inj hcp
    exact step_expiration_err_kind h5
  case ok p5 =>
  rw [except_bind_ok] at hcp
  cases h6 : RawJwt.step_not_before not_before p5 <;> rw [h6] at hcp
  case error e6 =>
    rw [except_bind_err] at hcp
    obtain rfl : e6 = e := Except.error.inj hcp
    exact step_not_before_err_kind h6
  case ok p6 =>
  rw [except_bind_ok] at hcp
  cases h7 : RawJwt.step_issued_at issued_at p6 <;> rw [h7] at hcp
  case error e7 =>
    rw [except_bind_err] at hcp
    obtain rfl : e7 = e := Except.error.inj hcp
    exact step_issued_at_err_kind h7
  case ok p7 =>
  rw [except_bind_ok] at hcp
  rw [show RawJwt.step_customs (some cc) p7 = RawJwt.add_custom_claims p7 cc from by
    simp [RawJwt.step_customs, member_not_isEmpty hm]] at hcp
  have hj := add_custom_reg_jwtInvalid cc p7 name hm hreg hvw
  rw [hcp] at hj
  exact hj

/-- C5, amended: if the custom-claims mapping contains one of the seven
registered names, `create`/`new_raw_jwt` never succeeds, whatever the
associated value; and when the mapping's values are themselves storable
(JSON-canonical), the failure is the invalid-claim error.  (With a
non-storable value appearing before the registered name, the failure
can instead be the `TypeError` from `json.dumps` --
`C5_counterexample`.) -/
theorem C5_registered_custom_fails (issuer subject : Option String)
    (audiences : Option PyValue) (jwt_id : Option String)
    (expiration not_before issued_at : Option PyDatetime)
    (cc : PyDict) (name : String)
    (hm : cc.member name = true) (hreg : name ∈ _REGISTERED_NAMES) :
    (∀ j, RawJwt.create issuer subject audiences jwt_id expiration not_before
      issued_at (some cc) ≠ .ok j) ∧
    (valuesWF cc = true →
      isJwtInvalid (RawJwt.create issuer subject audiences jwt_id expiration
        not_before issued_at (some cc)) = true) := by
  have hcp_neq : ∀ p8, RawJwt.create_payload issuer subject audiences jwt_id
      expiration not_before issued_at (some cc) ≠ .ok p8 := by
    intro p8 hcp
    obtain ⟨p5, p6, p7, h5, h6, h7, h8⟩ := create_payload_ok_elim hcp
    rw [show RawJwt.step_customs (some cc) p7 = RawJwt.add_custom_claims p7 cc from by
      simp [RawJwt.step_customs, member_not_isEmpty hm]] at h8
    obtain ⟨e, he⟩ := add_custom_fails_on_registered cc p7 name hm hreg
    rw [he] at h8
    exact Except.noConfusion h8
  constructor
  · intro j hc
    obtain ⟨p8, hp8, _⟩ := create_ok_elim hc
    exact hcp_neq p8 hp8
  · intro hvw
    cases hcp : RawJwt.create_payload issuer subject audiences jwt_id expiration
      not_before issued_at (some cc) with
    | ok p8 => exact absurd hcp (hcp_neq p8)
    | error e =>
      have hcr : RawJwt.create issuer subject audiences jwt_id expiration not_before
          issued_at (some cc) = .error e := by
        unfold RawJwt.create
        rw [hcp, except_bind_err]
      rw [hcr]
      exact (@isJwtInvalid_error_any RawJwt PyDict e).trans
        (create_payload_customs_err_kind hm hreg hvw hcp)

theorem C5_registered_custom_fails_witness :
    (∀ j, RawJwt.create none none none none none none none
      (some (.cons "iss" (.pystr "x") .nil)) ≠ .ok j) ∧
    (valuesWF (.cons "iss" (.pystr "x") .nil) = true →
      isJwtInvalid (RawJwt.create none none none none none none none
        (some (.cons "iss" (.pystr "x") .nil))) = true) :=
  C5_registered_custom_fails none none none none none none none
    (.cons "iss" (.pystr "x") .nil) "iss" (by decide) (by decide)

/-! ## C8: unrepresentable custom-claim values -/

mutual
theorem dumpV_err_kind (v : PyValue) : ∀ e, dumpValue v = .error e →
    ∃ m, e = .typeError m := by
  cases v with
  | pynone => intro e h; exact Except.noConfusion h
  | pybool b => intro e h; cases b <;> exact Except.noConfusion h
  | pyint n => intro e h; exact Except.noConfusion h
  | pyfloat m2 e2 => intro e h; exact Except.noConfusion h
  | pystr s => intro e h; exact Except.noConfusion h
  | pylist xs =>
    intro e h
    cases hb : dumpElems xs with
    | error e2 =>
      rw [dumpValue, hb, except_bind_err] at h
      obtain rfl : e2 = e := Except.error.inj h
      exact dumpL_err_kind xs e2 hb
    | ok body =>
      rw [dumpValue, hb, except_bind_ok] at h
      exact Except.noConfusion h
  | pydict kvs =>
    intro e h
    cases hb : dumpMembers kvs with
    | error e2 =>
      rw [dumpValue, hb, except_bind_err] at h
      obtain rfl : e2 = e := Except.error.inj h
      exact dumpD_err_kind kvs e2 hb
    | ok body =>
      rw [dumpValue, hb, except_bind_ok] at h
      exact Except.noConfusion h
  | pyobj t =>
    intro e h
    exact ⟨"Object of type " ++ t ++ " is not JSON serializable",
      (Except.error.inj h).symm⟩

theorem dumpL_err_kind (xs : PyList) : ∀ e, dumpElems xs = .error e →
    ∃ m, e = .typeError m := by
  cases xs with
  | nil => intro e h; exact Except.noConfusion h
  | cons hd tl =>
    cases tl with
    | nil =>
      intro e h
      exact dumpV_err_kind hd e h
    | cons hd2 tl2 =>
      intro e h
      cases h1 : dumpValue hd with
      | error e1 =>
        rw [dumpElems, h1, except_bind_err] at h
        obtain rfl : e1 = e := Except.error.inj h
        exact dumpV_err_kind hd e1 h1
      | ok first =>
        rw [dumpElems, h1, except_bind_ok] at h
        cases h2 : dumpElems (.cons hd2 tl2) with
        | error e2 =>
          rw [h2, except_bind_err] at h
          obtain rfl : e2 = e := Except.error.inj h
          exact dumpL_err_kind (.cons hd2 tl2) e2 h2
        | ok rest =>
          rw [h2, except_bind_ok] at h
          exact Except.noConfusion h

theorem dumpD_err_kind (kvs : PyDict) : ∀ e, dumpMembers kvs = .error e →
    ∃ m, e = .typeError m := by
  cases kvs with
  | nil => intro e h; exact Except.noConfusion h
  | cons k v tl =>
    cases tl with
    | nil =>
      intro e h
      cases h1 : dumpValue v with
      | error e1 =>
        rw [dumpMembers, h1, except_bind_err] at h
        obtain rfl : e1 = e := Except.error.inj h
        exact dumpV_err_kind v e1 h1
      | ok body =>
        rw [dumpMembers, h1, except_bind_ok] at h
        exact Except.noConfusion h
    | cons k2 v2 tl2 =>
      intro e h
      cases h1 : dumpValue v with
      | error e1 =>
        rw [dumpMembers, h1, except_bind_err] at h
        obtain rfl : e1 = e := Except.error.inj h
        exact dumpV_err_kind v e1 h1
      | ok first =>
        rw [dumpMembers, h1, except_bind_ok] at h
        cases h2 : dumpMembers (.cons k2 v2 tl2) with
        | error e2 =>
          rw [h2, except_bind_err] at h
          obtain rfl : e2 = e := Except.error.inj h
          exact dumpD_err_kind (.cons k2 v2 tl2) e2 h2
        | ok rest =>
          rw [h2, except_bind_ok] at h
          exact Except.noConfusion h
end

mutual
theorem dumpV_ok_noObj (v : PyValue) : ∀ out, dumpValue v = .ok out →
    noObjV v = true := by
  cases v with
  | pynone => intro out _; rfl
  | pybool b => intro out _; rfl
  | pyint n => intro out _; rfl
  | pyfloat m e => intro out _; rfl
  | pystr s => intro out _; rfl
  | pylist xs =>
    intro out h
    cases hb : dumpElems xs with
    | error e =>
      rw [dumpValue, hb, except_bind_err] at h
      exact Except.noConfusion h
    | ok body =>
      show noObjL xs = true
      exact dumpL_ok_noObj xs body hb
  | pydict kvs =>
    intro out h
    cases hb : dumpMembers kvs with
    | error e =>
      rw [dumpValue, hb, except_bind_err] at h
      exact Except.noConfusion h
    | ok body =>
      show noObjD kvs = true
      exact dumpD_ok_noObj kvs body hb
  | pyobj t => intro out h; exact Except.noConfusion h

theorem dumpL_ok_noObj (xs : PyList) : ∀ out, dumpElems xs = .ok out →
    noObjL xs = true := by
  cases xs with
  | nil => intro out _; rfl
  | cons hd tl =>
    cases tl with
    | nil =>
      intro out h
      show (noObjV hd && noObjL .nil) = true
      simp [dumpV_ok_noObj hd out h, noObjL]
    | cons hd2 tl2 =>
      intro out h
      cases h1 : dumpValue hd with
      | error e =>
        rw [dumpElems, h1, except_bind_err] at h
        exact Except.noConfusion h
      | ok first =>
        cases h2 : dumpElems (.cons hd2 tl2) with
        | error e =>
          rw [dumpElems, h1, except_bind_ok, h2, except_bind_err] at h
          exact Except.noConfusion h
        | ok rest =>
          show (noObjV hd && noObjL (.cons hd2 tl2)) = true
          simp [dumpV_ok_noObj hd first h1, dumpL_ok_noObj (.cons hd2 tl2) rest h2]

theorem dumpD_ok_noObj (kvs : PyDict) : ∀ out, dumpMembers kvs = .ok out →
    noObjD kvs = true := by
  cases kvs with
  | nil => intro out _; rfl
  | cons k v tl =>
    cases tl with
    | nil =>
      intro out h
      cases h1 : dumpValue v with
      | error e =>
        rw [dumpMembers, h1, except_bind_err] at h
        exact Except.noConfusion h
      | ok body =>
        show (noObjV v && noObjD .nil) = true
        simp [dumpV_ok_noObj v body h1, noObjD]
    | cons k2 v2 tl2 =>
      intro out h
      cases h1 : dumpValue v with
      | error e =>
        rw [dumpMembers, h1, except_bind_err] at h
        exact Except.noConfusion h
      | ok first =>
        cases h2 : dumpMembers (.cons k2 v2 tl2) with
        | error e =>
          rw [dumpMembers, h1, except_bind_ok, h2, except_bind_err] at h
          exact Except.noConfusion h
        | ok rest =>
          show (noObjV v && noObjD (.cons k2 v2 tl2)) = true
          simp [dumpV_ok_noObj v first h1, dumpD_ok_noObj (.cons k2 v2 tl2) rest h2]
end

/-- C8, amended: a custom-claim value outside the claim-value types is
rejected at build time, but not always with the invalid-claim error:
a *directly* stored unknown object raises `JwtInvalidError ("claim ...
has unknown type")`, while an unknown object nested inside a list or
dict value surfaces as the `TypeError` of `json.dumps`
(`C8_counterexample`); representable (JSON-canonical) values are stored
through the `json.loads(json.dumps(.))` round trip, which returns them
unchanged; and a failing store propagates out of `create` as-is. -/
theorem C8_amended_unknown_type :
    (∀ name t, RawJwt.store_custom_value name (.pyobj t) =
      .error (.jwtInvalidError ("claim " ++ name ++ " has unknown type"))) ∧
    (∀ name xs, noObjL xs = false →
      isTypeError (RawJwt.store_custom_value name (.pylist xs)) = true) ∧
    (∀ name kvs, noObjD kvs = false →
      isTypeError (RawJwt.store_custom_value name (.pydict kvs)) = true) ∧
    (∀ name v, wfV v = true → RawJwt.store_custom_value name v = .ok v) ∧
    (∀ name v e, name ∉ _REGISTERED_NAMES →
      RawJwt.store_custom_value name v = .error e →
      RawJwt.create none none none none none none none
        (some (.cons name v .nil)) = .error e) := by
  refine ⟨fun name t => rfl, ?_, ?_, fun name v h => store_custom_total name v h, ?_⟩
  · intro name xs hno
    cases hd : dumpValue (.pylist xs) with
    | ok out =>
      have hob : noObjL xs = true := dumpV_ok_noObj (.pylist xs) out hd
      rw [hno] at hob
      exact Bool.noConfusion hob
    | error e =>
      obtain ⟨m, rfl⟩ := dumpV_err_kind (.pylist xs) e hd
      have hjd : json_dumps (.pylist xs) = .error (.typeError m) := by
        rw [json_dumps, hd, except_bind_err]
      have hst : RawJwt.store_custom_value name (.pylist xs) =
          .error (.typeError m) := by
        show (do
          let s ← json_dumps (.pylist xs)
          json_loads s) = .error (.typeError m)
        rw [hjd, except_bind_err]
      rw [hst]
      rfl
  · intro name kvs hno
    cases hd : dumpValue (.pydict kvs) with
    | ok out =>
      have hob : noObjD kvs = true := dumpV_ok_noObj (.pydict kvs) out hd
      rw [hno] at hob
      exact Bool.noConfusion hob
    | error e =>
      obtain ⟨m, rfl⟩ := dumpV_err_kind (.pydict kvs) e hd
      have hjd : json_dumps (.pydict kvs) = .error (.typeError m) := by
        rw [json_dumps, hd, except_bind_err]
      have hst : RawJwt.store_custom_value name (.pydict kvs) =
          .error (.typeError m) := by
        show (do
          let s ← json_dumps (.pydict kvs)
          json_loads s) = .error (.typeError m)
        rw [hjd, except_bind_err]
      rw [hst]
      rfl
  · intro name v e hn hst
    have hadd : RawJwt.add_custom_claims .nil (.cons name v .nil) = .error e := by
      show (do
        _ ← _validate_custom_claim_name name
        let stored ← RawJwt.store_custom_value name v
        RawJwt.add_custom_claims (PyDict.nil.append name stored) .nil) = .error e
      rw [(validate_custom_ok_iff name).mpr hn, except_bind_ok, hst, except_bind_err]
    have hcp : RawJwt.create_payload none none none none none none none
        (some (.cons name v .nil)) =
        RawJwt.add_custom_claims .nil (.cons name v .nil) := rfl
    show (do
      let p ← RawJwt.create_payload none none none none none none none
        (some (.cons name v .nil))
      RawJwt.init p) = .error e
    rw [hcp.trans hadd, except_bind_err]

theorem C8_amended_unknown_type_witness :
    RawJwt.store_custom_value "a" (.pyobj "X") =
      .error (.jwtInvalidError ("claim " ++ "a" ++ " has unknown type")) ∧
    isTypeError (RawJwt.store_custom_value "a"
      (.pylist (.cons (.pyobj "X") .nil))) = true ∧
    RawJwt.store_custom_value "b" (.pylist (.cons (.pyint 7) .nil)) =
      .ok (.pylist (.cons (.pyint 7) .nil)) ∧
    RawJwt.create none none none none none none none
      (some (.cons "a" (.pylist (.cons (.pyobj "X") .nil)) .nil)) =
      .error (.typeError "Object of type X is not JSON serializable") := by
  obtain ⟨h1, h2, h3, h4, h5⟩ := C8_amended_unknown_type
  exact ⟨h1 "a" "X", h2 "a" _ (by decide), h4 "b" _ (by decide),
    h5 "a" (.pylist (.cons (.pyobj "X") .nil)) _ (by decide) rfl⟩
